import Mathlib

/-! # gotaskr: the task graph and its execution engine

A shallow embedding of `gotaskr.go` (package `gotaskr`): the task registry
`taskMap`, the run history `taskRun`, the recursive orchestrator `RunTarget`,
`runTaskFunc`, the registration function `Task`, the configuration methods of
`TaskObject` and the entry point `Execute`.

Modelling decisions.

* `taskMap` is a Go map from names to `*TaskObject`. Task objects live in a heap
  (`State.heap`, a list; a pointer is an index into it), `taskMap` is an
  association list from names to pointers and `taskRun` is a list of pointers, so
  that the aliasing between the registry and the run history is kept.
* A task's action `func() error` is represented by what one invocation of it
  does: it returns an error value (possibly nil) or panics, and takes some time.
* An `error` is an interface value. `Execute` inspects its dynamic type and, for
  the two pointer types it knows, dereferences the pointer, so a non-nil `error`
  holding a nil pointer of one of these types is a value of its own.
* A panic is represented by what `recover()` returns for it, which is nil for
  `panic(nil)` when the program runs with the panic semantics of Go before 1.21.
* `RunTarget` is recursive and need not terminate, so it takes a fuel argument
  bounding the recursion depth. Running out of fuel yields `Res.timeout`
  together with the state reached so far.
* Logging and console output are left out. Two kinds of observable events are
  recorded in `State.events` instead: entering `RunTarget` for a name and
  invoking the action of a task object.
-/

namespace Gotaskr

/-- Non-nil Go `error` values, as far as `Execute` distinguishes them. -/
inductive GoError where
  /-- A non-nil `*execr.CmdError`, carrying its field `ExitCode`. -/
  | CmdError (ExitCode : Int)
  /-- A non-nil `*exec.ExitError`, carrying what its method `ExitCode()` returns. -/
  | ExitError (ExitCode : Int)
  /-- Any other error, such as the result of `fmt.Errorf`, with its message. -/
  | errorString (msg : String)
  /-- An `error` whose dynamic type is `*execr.CmdError` and whose pointer is nil. -/
  | nilCmdError
  /-- An `error` whose dynamic type is `*exec.ExitError` and whose pointer is nil. -/
  | nilExitError
  deriving DecidableEq, Repr

/-- What one invocation of a task action does. -/
inductive Outcome where
  /-- The action returns the given error (`none` is Go's nil). -/
  | returned (err : Option GoError)
  /-- The action panics. The argument is what `recover()` returns in the deferred
  function of `runTaskFunc`: `some r` is a non-nil value that prints as `r` under
  the verb `%v`, `none` is nil (the action called `panic(nil)` and the program runs
  with the panic semantics of Go before 1.21). -/
  | panicked (r : Option String)
  deriving DecidableEq, Repr

/-- The action of a task: its outcome and the wall-clock time it takes. -/
structure TaskFunc where
  outcome : Outcome
  elapsed : Nat
  deriving DecidableEq, Repr

/-- The struct `TaskObject`. -/
structure TaskObject where
  name : String
  description : String
  taskFunc : TaskFunc
  dependencies : List String
  dependees : List String
  continueOnError : Bool
  deferOnError : Bool
  didRun : Bool
  duration : Nat
  err : Option GoError
  deferedErr : Option GoError
  deriving DecidableEq, Repr

/-- Observable events of a run. -/
inductive Event where
  /-- The function `RunTarget` was entered for the given name. -/
  | enter (target : String)
  /-- The action `taskFunc` of the task object at the given pointer was invoked. -/
  | action (ptr : Nat)
  deriving DecidableEq, Repr

/-- The package-level variables `argumentsMap`, `taskMap` and `taskRun`, the heap
of task objects they point into, and the event log. -/
structure State where
  heap : List TaskObject
  argumentsMap : List (String × String)
  taskMap : List (String × Nat)
  taskRun : List Nat
  events : List Event
  deriving DecidableEq, Repr

/-- The result of running `RunTarget` with bounded recursion depth. -/
inductive Res where
  /-- The recursion went deeper than the fuel allows. -/
  | timeout
  /-- The function returned the given error (`none` is nil). -/
  | ret (err : Option GoError)
  deriving DecidableEq, Repr

/-- The value of `fmt.Errorf("Target does not exist: %s", target)`. -/
def targetDoesNotExist (target : String) : GoError :=
  GoError.errorString ("Target does not exist: " ++ target)

/-- The function `runTaskFunc`: the error the action returns, or the
error made from the recovered panic value. When `recover()` returns nil the
named result `err` keeps its zero value, nil. -/
def runTaskFunc (currentTask : TaskObject) : Option GoError :=
  match currentTask.taskFunc.outcome with
  | Outcome.returned err => err
  | Outcome.panicked (some r) => some (GoError.errorString ("Task panicked: " ++ r))
  | Outcome.panicked none => none

/-- Lines 112 to 123 of `RunTarget`: run the action, apply the error policy and
write the run-result fields. Returns the task object as written and the local
variable `err`. -/
def finishTask (currentTask : TaskObject) : TaskObject × Option GoError :=
  let err := runTaskFunc currentTask
  let elapsed := currentTask.taskFunc.elapsed
  let deferedErr := if currentTask.deferOnError then err else currentTask.deferedErr
  let err := if currentTask.deferOnError then none else err
  let err := if currentTask.continueOnError then none else err
  ({ currentTask with deferedErr := deferedErr, didRun := true, duration := elapsed, err := err },
    err)

/-- The expression `taskMap[target]`: the pointer stored under the name together
with the task object it points to; `none` is the nil pointer. -/
def State.lookupTask (s : State) (target : String) : Option (Nat × TaskObject) :=
  match s.taskMap.lookup target with
  | none => none
  | some p =>
    match s.heap[p]? with
    | none => none
    | some t => some (p, t)

/-- Record an event. -/
def State.emit (s : State) (e : Event) : State :=
  { s with events := s.events ++ [e] }

/-- The two loops of `RunTarget`: call `run` on each name in order and return at
the first result that is not nil. -/
def runEach (run : String → State → State × Res) : List String → State → State × Res
  | [], s => (s, Res.ret none)
  | n :: ns, s =>
    match run n s with
    | (s1, Res.ret none) => runEach run ns s1
    | (s1, r) => (s1, r)

/-- Lines 109 to 124 of `RunTarget`, for the task object `p` points to: invoke the
action, write the run-result fields through the pointer and append the pointer
to `taskRun`. Returns the local variable `err` as well. -/
def State.runTask (s : State) (p : Nat) (currentTask : TaskObject) : State × Option GoError :=
  let fin := finishTask (s.heap.getD p currentTask)
  ({ s with heap := s.heap.set p fin.1, taskRun := s.taskRun ++ [p],
            events := s.events ++ [Event.action p] }, fin.2)

/-- The function `RunTarget`, with the recursion depth bounded by the first
argument. -/
def RunTarget : Nat → String → State → State × Res
  | 0, _, s => (s, Res.timeout)
  | fuel + 1, target, s0 =>
    let s := s0.emit (Event.enter target)
    match s.lookupTask target with
    | none => (s, Res.ret (some (targetDoesNotExist target)))
    | some (p, currentTask) =>
      if currentTask.didRun then (s, Res.ret currentTask.err)
      else
        match runEach (RunTarget fuel) currentTask.dependencies s with
        | (s1, Res.ret none) =>
          match s1.runTask p currentTask with
          | (s2, some err) => (s2, Res.ret (some err))
          | (s2, none) => runEach (RunTarget fuel) currentTask.dependees s2
        | (s1, r) => (s1, r)

/-- The function `GetArgumentOrDefault`. -/
def GetArgumentOrDefault (s : State) (argName : String) (defaultValue : String) :
    String × Bool :=
  match s.argumentsMap.lookup argName with
  | some value => (value, true)
  | none => (defaultValue, false)

/-- The function `GetArgument`. -/
def GetArgument (s : State) (argName : String) : String × Bool :=
  GetArgumentOrDefault s argName ""

/-- The function `HasArgument`. -/
def HasArgument (s : State) (argName : String) : Bool :=
  (GetArgument s argName).2

/-- The loop of `Execute` over `taskRun`: every run with a non-nil `deferedErr`
overwrites `err`. -/
def checkDeferedErrors (heap : List TaskObject) :
    List Nat → Option GoError → Option GoError
  | [], err => err
  | run :: rest, err =>
    match heap[run]? with
    | some t =>
      match t.deferedErr with
      | some d => checkDeferedErrors heap rest (some d)
      | none => checkDeferedErrors heap rest err
    | none => checkDeferedErrors heap rest err

/-- How a call of `Execute` ends. -/
inductive Exit where
  /-- The call of `RunTarget` went deeper than the fuel allows. -/
  | timeout
  /-- A nil pointer was dereferenced: `Execute` panics and returns nothing. -/
  | panic
  /-- The function returned the given exit code. -/
  | code (exitCode : Int)
  deriving DecidableEq, Repr

/-- Lines 49 to 60 of `Execute`: the exit code of the final error. The type
assertions succeed on the dynamic type alone, so with a nil pointer line 52 reads
the field `ExitCode` through nil and line 55 reads the embedded `ProcessState`
through nil; both panic. -/
def exitCodeOf : Option GoError → Exit
  | none => Exit.code 0
  | some (GoError.CmdError c) => Exit.code c
  | some GoError.nilCmdError => Exit.panic
  | some (GoError.ExitError c) => Exit.code c
  | some GoError.nilExitError => Exit.panic
  | some (GoError.errorString _) => Exit.code 1

/-- The function `Execute`. -/
def Execute (fuel : Nat) (s : State) : State × Exit :=
  match GetArgument s "target" with
  | (_, false) => (s, Exit.code 0)
  | (target, true) =>
    match RunTarget fuel target s with
    | (s1, Res.timeout) => (s1, Exit.timeout)
    | (s1, Res.ret err) =>
      (s1, exitCodeOf (checkDeferedErrors s1.heap s1.taskRun err))

/-- The function `Task`: allocate a task object with the given name and action
and store its pointer under the name, replacing what was stored there. Returns
the new state and the pointer. -/
def Task (s : State) (name : String) (taskFunc : TaskFunc) : State × Nat :=
  let task : TaskObject :=
    { name := name, description := "", taskFunc := taskFunc, dependencies := [],
      dependees := [], continueOnError := false, deferOnError := false, didRun := false,
      duration := 0, err := none, deferedErr := none }
  ({ s with heap := s.heap ++ [task],
            taskMap := (name, s.heap.length) :: s.taskMap.filter (fun kv => kv.1 != name) },
    s.heap.length)

/-- The loop shared by `DependsOn` and `DependeeOf`: append to `acc` every entry of
`taskName` not yet recorded in `keys`. -/
def appendNew : List String → List String → List String → List String
  | [], _, acc => acc
  | entry :: rest, keys, acc =>
    if entry ∈ keys then appendNew rest keys acc
    else appendNew rest (entry :: keys) (acc ++ [entry])

/-- The method `DependsOn`. -/
def TaskObject.DependsOn (taskObject : TaskObject) (taskName : List String) : TaskObject :=
  { taskObject with dependencies := appendNew taskName [] taskObject.dependencies }

/-- The method `DependeeOf`. -/
def TaskObject.DependeeOf (taskObject : TaskObject) (taskName : List String) : TaskObject :=
  { taskObject with dependees := appendNew taskName [] taskObject.dependees }

/-- The method `ContinueOnError`. -/
def TaskObject.ContinueOnError (taskObject : TaskObject) : TaskObject :=
  { taskObject with continueOnError := true }

/-- The method `DeferOnError`. -/
def TaskObject.DeferOnError (taskObject : TaskObject) : TaskObject :=
  { taskObject with deferOnError := true }

/-- The method `Description`. -/
def TaskObject.Description (taskObject : TaskObject) (description : String) : TaskObject :=
  { taskObject with description := description }

/-- Apply a configuration method through the handle `p`. -/
def State.configure (s : State) (p : Nat) (f : TaskObject → TaskObject) : State :=
  { s with heap := s.heap.modify f p }

/-- The state of the package before any registration. -/
def State.init (args : List (String × String)) : State :=
  { heap := [], argumentsMap := args, taskMap := [], taskRun := [], events := [] }

/-- Register a task with its configuration in one step, as in
`Task(name, f).DependsOn(...).DependeeOf(...)`. -/
def State.register (s : State) (name : String) (taskFunc : TaskFunc)
    (conf : TaskObject → TaskObject) : State :=
  let r := Task s name taskFunc
  r.1.configure r.2 conf

/-- The task object as `finishTask` leaves it. -/
def TaskObject.finished (t : TaskObject) : TaskObject := (finishTask t).1

/-- The policy-adjusted error of a task object: the `err` that `finishTask` stores
and `RunTarget` returns after the action. -/
def TaskObject.adjustedErr (t : TaskObject) : Option GoError := (finishTask t).2

/-- The second state extends the first: same registry and arguments, every task
object is as before or as `finishTask` writes it, and the run history and the
event log have only grown. -/
structure Extends (s s' : State) : Prop where
  taskMap : s'.taskMap = s.taskMap
  argumentsMap : s'.argumentsMap = s.argumentsMap
  heap : ∀ (p : Nat) (t : TaskObject), s.heap[p]? = some t →
    s'.heap[p]? = some t ∨ s'.heap[p]? = some t.finished
  length : s'.heap.length = s.heap.length
  taskRun : s.taskRun <+: s'.taskRun
  events : s.events <+: s'.events

/-- The events recorded between two states. -/
def State.newEvents (s s' : State) : List Event := s'.events.drop s.events.length

/-- The pointers appended to the run history between two states. -/
def State.newRuns (s s' : State) : List Nat := s'.taskRun.drop s.taskRun.length

/-- What the events of a run from state `s` with outcome `out` imply, whatever the
state `s` is: entering `RunTarget` for a name without a task object forces the
"Target does not exist" result for that name, a task object whose action was
invoked is left as `finishTask` writes it and was appended to the run history, and
all its dependencies have task objects. -/
structure Traced (s : State) (out : State × Res) : Prop where
  missing : ∀ n, Event.enter n ∈ s.newEvents out.1 → s.lookupTask n = none →
    out.2 = Res.ret (some (targetDoesNotExist n))
  written : ∀ (p : Nat) (t : TaskObject), Event.action p ∈ s.newEvents out.1 →
    s.heap[p]? = some t → out.1.heap[p]? = some t.finished
  deps : ∀ (p : Nat) (t : TaskObject), Event.action p ∈ s.newEvents out.1 →
    s.heap[p]? = some t → ∀ d ∈ t.dependencies, s.lookupTask d ≠ none
  appended : ∀ p : Nat, Event.action p ∈ s.newEvents out.1 → p ∈ s.newRuns out.1

/-- A fresh state: no task object has run and the run history and the event log are
empty. -/
def Fresh (s : State) : Prop :=
  s.taskRun = [] ∧ s.events = [] ∧
    ∀ t ∈ s.heap, t.didRun = false ∧ t.err = none ∧ t.deferedErr = none ∧ t.duration = 0

/-- The states reachable from a fresh state by calls of `RunTarget` (with any
recursion bound, so the states in which a run is cut off are included). -/
inductive Reachable : State → Prop where
  | fresh (s : State) : Fresh s → Reachable s
  | run (s : State) (fuel : Nat) (target : String) :
      Reachable s → Reachable (RunTarget fuel target s).1

/-- The invariant of the states reachable from a fresh state. -/
structure Good (s : State) : Prop where
  /-- A task object that has run holds what `finishTask` writes. -/
  settled : ∀ (p : Nat) (t : TaskObject), s.heap[p]? = some t → t.didRun = true → t.finished = t
  /-- A task object that has run is in the run history. -/
  ran : ∀ (p : Nat) (t : TaskObject), s.heap[p]? = some t → t.didRun = true → p ∈ s.taskRun
  /-- The run history lists the task objects whose action was invoked. -/
  logged : ∀ p : Nat, Event.action p ∈ s.events ↔ p ∈ s.taskRun
  /-- Every entry of the run history points to a task object that has run. -/
  history : ∀ p ∈ s.taskRun, ∃ t, s.heap[p]? = some t ∧ t.didRun = true
  /-- Every entry of the run history comes after an entry for each of its
  dependencies, each of which has a nil stored error. -/
  ordered : ∀ (i p : Nat) (t : TaskObject), s.taskRun[i]? = some p → s.heap[p]? = some t →
    ∀ d ∈ t.dependencies, ∃ pd td, s.lookupTask d = some (pd, td) ∧ td.didRun = true ∧
      td.err = none ∧ pd ∈ s.taskRun.take i

/-- Why `RunTarget` may be entered for the name `n`: it is one of the `roots`, a
dependency of a registered task, or a dependee of a registered task that has run
with a nil stored error. -/
def Justified (roots : List String) (s : State) (n : String) : Prop :=
  n ∈ roots ∨ ∃ k pc c, s.lookupTask k = some (pc, c) ∧
    (n ∈ c.dependencies ∨ (n ∈ c.dependees ∧ c.didRun = true ∧ c.err = none))

/-- When the result is nil, every root has run and has a nil stored error. -/
def Done (roots : List String) (out : State × Res) : Prop :=
  out.2 = Res.ret none → ∀ n ∈ roots, ∃ p t, out.1.lookupTask n = some (p, t) ∧
    t.didRun = true ∧ t.err = none

/-- What a run from a state satisfying `Good` guarantees, where `roots` are the
names `RunTarget` was called for. -/
structure Sound (roots : List String) (s : State) (out : State × Res) : Prop where
  good : Good out.1
  /-- A non-nil stored error of a task object run on the way is the result. -/
  err : ∀ (p : Nat) (t : TaskObject) (e : GoError), p ∈ s.newRuns out.1 →
    out.1.heap[p]? = some t → t.err = some e → out.2 = Res.ret (some e)
  /-- A task object whose action was invoked is registered under a justified name. -/
  why : ∀ p : Nat, Event.action p ∈ s.newEvents out.1 →
    ∃ n, s.taskMap.lookup n = some p ∧ Justified roots out.1 n
  /-- The function `RunTarget` is entered for justified names only. -/
  entered : ∀ n : String, Event.enter n ∈ s.newEvents out.1 → Justified roots out.1 n
  /-- A non-nil result is the "Target does not exist" error of a name without a
  task object that `RunTarget` was entered for, or the stored error of an entry
  of the run history. -/
  origin : ∀ e : GoError, out.2 = Res.ret (some e) →
    (∃ n, e = targetDoesNotExist n ∧ Event.enter n ∈ s.newEvents out.1 ∧
      s.lookupTask n = none) ∨
    (∃ p t, p ∈ out.1.taskRun ∧ out.1.heap[p]? = some t ∧ t.err = some e)

/-- The number of task objects that have not run. -/
def State.unrun (s : State) : Nat := s.heap.countP (fun t => !t.didRun)

/-- The dependency edges of the registered tasks contain no cycle: the names can be
ranked so that every dependency of a registered task ranks below the task. -/
def DepAcyclic (s : State) : Prop :=
  ∃ rank : String → Nat, ∀ n p t, s.lookupTask n = some (p, t) →
    ∀ d ∈ t.dependencies, rank d < rank n

/-- A check that `rank` ranks every dependency of a registered task below the
task. -/
def State.rankedBy (s : State) (rank : String → Nat) : Bool :=
  s.taskMap.all (fun kv =>
    match s.heap[kv.2]? with
    | none => true
    | some t => t.dependencies.all (fun d => rank d < rank kv.1))

/-- A check that `P` holds of every registered name, pointer and task object. -/
def State.allRegistered (s : State) (P : String → Nat → TaskObject → Bool) : Bool :=
  s.taskMap.all (fun kv =>
    match s.heap[kv.2]? with
    | none => true
    | some t => P kv.1 kv.2 t)

/-- The `deferedErr` of the last entry of the run history whose `deferedErr` is not
nil, if there is one. -/
def lastDeferedErr (heap : List TaskObject) (runs : List Nat) : Option GoError :=
  (runs.reverse.filterMap (fun p => (heap[p]?).bind (fun t => t.deferedErr))).head?

/-- The error `Execute` maps to the exit code, in the words of the specification:
the last deferred error of the run history if there is one, and the error
returned by `RunTarget` otherwise. -/
def finalError (heap : List TaskObject) (runs : List Nat) (err : Option GoError) :
    Option GoError :=
  match lastDeferedErr heap runs with
  | some d => some d
  | none => err

/-- The names of a list without repetitions: the first occurrence of each name is
kept, in order. -/
def dedupFirst : List String → List String
  | [] => []
  | n :: ns => n :: (dedupFirst ns).filter (fun m => m != n)

/-- The task object with the outcome of its action replaced. -/
def TaskObject.withOutcome (t : TaskObject) (o : Outcome) : TaskObject :=
  { t with taskFunc := { t.taskFunc with outcome := o } }

/-- A dependency edge of the registry: `d` is listed as a dependency by the task
object registered under `n`. -/
def DepEdge (s : State) (d n : String) : Prop :=
  ∃ p t, s.lookupTask n = some (p, t) ∧ d ∈ t.dependencies

/-- The dependency edges contain no cycle: no name is reached from itself along one
or more dependency edges. -/
def NoDepCycle (s : State) : Prop :=
  ∀ n, ¬ Relation.TransGen (DepEdge s) n n

/-- The registry is well formed: every pointer stored in `taskMap` points into the
heap, and no task object is stored under two names. Every registry built by
`Task` is well formed. -/
structure State.WF (s : State) : Prop where
  valid : ∀ n p, s.taskMap.lookup n = some p → p < s.heap.length
  inj : ∀ n m p, s.taskMap.lookup n = some p → s.taskMap.lookup m = some p → n = m

/-- A member of a chain of tasks: the name, the pointer stored under the name, and
the task object it points to. -/
structure Link where
  name : String
  ptr : Nat
  task : TaskObject
  deriving DecidableEq, Repr

/-- The tasks of the list are registered in `s`, have no policy flags and no
dependees, the first one has the dependencies `deps`, and each later one depends
exactly on the one before it. -/
def IsChainFrom (s : State) : List String → List Link → Prop
  | _, [] => True
  | deps, l :: rest =>
    s.lookupTask l.name = some (l.ptr, l.task) ∧ l.task.dependencies = deps ∧
      l.task.dependees = [] ∧ l.task.continueOnError = false ∧
      l.task.deferOnError = false ∧ IsChainFrom s [l.name] rest

/-- A chain `t1, ..., tn` of distinct registered tasks with no policy flags and no
dependees, where `t1` has no dependencies and each `t(i+1)` depends exactly
on `t(i)`. -/
def IsChain (s : State) (chain : List Link) : Prop :=
  IsChainFrom s [] chain ∧ (chain.map Link.ptr).Nodup

/-- The error of the first task of the chain whose action fails, nil if none
fails. -/
def chainResult : List Link → Option GoError
  | [] => none
  | l :: rest =>
    match runTaskFunc l.task with
    | some e => some e
    | none => chainResult rest

/-- The pointers of the chain up to and including the first task whose action
fails, all of them if none fails. -/
def chainHistory : List Link → List Nat
  | [] => []
  | l :: rest =>
    match runTaskFunc l.task with
    | some _ => [l.ptr]
    | none => l.ptr :: chainHistory rest

/-- The action of the task of a link fails. -/
def Link.fails (l : Link) : Bool := (runTaskFunc l.task).isSome


/-- Why `RunTarget` may be entered for the name `n` after the events `pre`: a task
for which `RunTarget` was entered before lists `n` as a dependency, or it lists `n`
as a dependee, its action was invoked before and its policy-adjusted error is
nil. -/
def EnterJustified (s : State) (pre : List Event) (n : String) : Prop :=
  ∃ k p t, s.lookupTask k = some (p, t) ∧ Event.enter k ∈ pre ∧
    (n ∈ t.dependencies ∨
      (n ∈ t.dependees ∧ Event.action p ∈ pre ∧ t.adjustedErr = none))

/-- Every event of `ev` is accounted for by the events before it, where the events
of `ctx` come before all of `ev`: an entry of `RunTarget` for a name is justified
by the events before it, and the invocation of the action of a task object comes
after an entry of `RunTarget` for a name the task object is registered under. -/
structure Causal (s : State) (ctx ev : List Event) : Prop where
  enters : ∀ (i : Nat) (n : String), ev[i]? = some (Event.enter n) →
    EnterJustified s (ctx ++ ev.take i) n
  actions : ∀ (i p : Nat), ev[i]? = some (Event.action p) →
    ∃ n, s.taskMap.lookup n = some p ∧ Event.enter n ∈ ctx ++ ev.take i

/-- The events of a call of `RunTarget` for `target`: none if the call is cut off
at once, and otherwise the entry for `target` followed by events that are all
accounted for by the events before them. -/
def CausalRun (s : State) (target : String) (ev : List Event) : Prop :=
  ev = [] ∨ ∃ rest, ev = Event.enter target :: rest ∧ Causal s [Event.enter target] rest

/-- An edge of the task graph: the task object registered under `a` lists `b` as a
dependency or as a dependee. -/
def Edge (s : State) (a b : String) : Prop :=
  ∃ p t, s.lookupTask a = some (p, t) ∧ (b ∈ t.dependencies ∨ b ∈ t.dependees)

/-- When the result is nil, every dependee of a task object run on the way has run
and has a nil stored error. -/
def Closed (s : State) (out : State × Res) : Prop :=
  out.2 = Res.ret none → ∀ (p : Nat) (t : TaskObject), p ∈ s.newRuns out.1 →
    out.1.heap[p]? = some t → ∀ d ∈ t.dependees, ∃ pd td,
      out.1.lookupTask d = some (pd, td) ∧ td.didRun = true ∧ td.err = none

/-- The name `k` is on a cycle of dependency edges or depends, directly or
indirectly, on a name that is on one. -/
def Doomed (s : State) (k : String) : Prop :=
  ∃ m, Relation.ReflTransGen (DepEdge s) m k ∧ Relation.TransGen (DepEdge s) m m

/-- The walk over the list `ns` of names stays inside the set `L`: all names of the
list are in `L`, or the list holds a name that is `Doomed`, and this name and the
names before it are in `L`. -/
def WalkIn (s : State) (L : String → Prop) (ns : List String) : Prop :=
  (∀ x ∈ ns, L x) ∨
    ∃ l1 d l2, ns = l1 ++ d :: l2 ∧ (∀ x ∈ l1, L x) ∧ L d ∧ Doomed s d

/-- The set `L` of names holds whatever a walk from one of its names enters, and no
error can stop the walk: every name in `L` is registered, and either the walk over
its dependencies meets a name that is `Doomed` and stays inside `L` up to there,
or all its dependencies are in `L`, its policy-adjusted error is nil and the walk
over its dependees stays inside `L`. -/
def WalkClosed (s : State) (L : String → Prop) : Prop :=
  ∀ k, L k → ∃ p t, s.lookupTask k = some (p, t) ∧
    ((∃ l1 d l2, t.dependencies = l1 ++ d :: l2 ∧ (∀ x ∈ l1, L x) ∧ L d ∧ Doomed s d) ∨
      ((∀ d ∈ t.dependencies, L d) ∧ t.adjustedErr = none ∧ WalkIn s L t.dependees))

/-- No task object that has run holds an error or is registered under a name that
is `Doomed` in the state `s`. -/
def Unharmed (s s' : State) : Prop :=
  ∀ k p t, s'.lookupTask k = some (p, t) → t.didRun = true → t.err = none ∧ ¬ Doomed s k
/-! ## Concrete registries -/

/-- An action that returns nil. -/
def succeeds : TaskFunc := { outcome := Outcome.returned none, elapsed := 1 }

/-- An action that returns an error that is neither a command error nor a
process-exit error. -/
def failsWith (msg : String) : TaskFunc :=
  { outcome := Outcome.returned (some (GoError.errorString msg)), elapsed := 1 }

/-- The registry after `Task("T", ok).DependsOn("B")` and
`Task("B", ok).DependeeOf("T")`: both lines declare that `B` runs before `T`. -/
def bothWays : State :=
  ((State.init [("target", "T")]).register "T" succeeds (fun t => t.DependsOn ["B"])).register
    "B" succeeds (fun t => t.DependeeOf ["T"])

/-- A task object that has run with a stored error and names a dependency and a
dependee. -/
def doneTask : TaskObject :=
  { name := "done", description := "", taskFunc := failsWith "boom",
    dependencies := ["nowhere"], dependees := ["nobody"],
    continueOnError := false, deferOnError := false, didRun := true,
    duration := 1, err := some (GoError.errorString "boom"), deferedErr := none }

/-- A state in which the task `done` has already run, although the dependency and
the dependee it names are not registered. -/
def alreadyRan : State :=
  { heap := [doneTask],
    argumentsMap := [], taskMap := [("done", 0)], taskRun := [0],
    events := [Event.enter "done", Event.action 0] }

/-- The registry after `Task("lint", f).ContinueOnError().DeferOnError()`, where `f`
fails, with target `lint`. -/
def bothFlags : State :=
  (State.init [("target", "lint")]).register "lint" (failsWith "lint failed")
    (fun t => t.ContinueOnError.DeferOnError)

/-- A registry in which `top` depends on `mid` and `mid` depends on the unregistered
name `ghost`; both tasks have both error-policy flags set. -/
def maskedMissing : State :=
  ((State.init [("target", "top")]).register "top" succeeds
      (fun t => (t.DependsOn ["mid"]).ContinueOnError.DeferOnError)).register "mid" succeeds
    (fun t => (t.DependsOn ["ghost"]).ContinueOnError.DeferOnError)

/-- An action that fails with a typed command error carrying the given exit code. -/
def failsWithCode (code : Int) : TaskFunc :=
  { outcome := Outcome.returned (some (GoError.CmdError code)), elapsed := 1 }

/-- The chain `build`, `test`, `deploy` of the specification, where the action of
`test` fails. -/
def failingChain : State :=
  (((State.init [("target", "deploy")]).register "build" succeeds id).register "test"
      (failsWith "tests failed") (fun t => t.DependsOn ["build"])).register "deploy" succeeds
    (fun t => t.DependsOn ["test"])

/-- A ranking of the names of `failingChain`. -/
def chainRank (n : String) : Nat :=
  if n = "deploy" then 2 else if n = "test" then 1 else 0

/-- A registry in which `A` depends on `spin` and on the failing `B`, and `spin`
depends on itself. -/
def spinning : State :=
  (((State.init [("target", "A")]).register "A" succeeds
      (fun t => t.DependsOn ["spin", "B"])).register "spin" succeeds
      (fun t => t.DependsOn ["spin"])).register "B" (failsWith "boom") id

/-- The scenario of the specification: `build` has `DeferOnError` and fails,
`release` depends on `build`. -/
def deferScenario : State :=
  ((State.init [("target", "release")]).register "build" (failsWith "compile error")
      (fun t => t.DeferOnError)).register "release" succeeds (fun t => t.DependsOn ["build"])

/-- As `deferScenario`, but `build` depends on a further task `fetch`, and the action
of `build` fails with a typed command error that carries the exit code 0. -/
def deferWithFetch : State :=
  (((State.init [("target", "release")]).register "fetch" succeeds id).register "build"
      (failsWithCode 0) (fun t => (t.DependsOn ["fetch"]).DeferOnError)).register "release"
    succeeds (fun t => t.DependsOn ["build"])

/-- A registry in which `A` depends on `spin` and on `B`, `spin` depends on itself,
and `B` has `ContinueOnError` and fails; every other action succeeds and every
name that is referred to is registered. -/
def spinningContinue : State :=
  (((State.init [("target", "A")]).register "A" succeeds
      (fun t => t.DependsOn ["spin", "B"])).register "spin" succeeds
      (fun t => t.DependsOn ["spin"])).register "B" (failsWith "boom")
    (fun t => t.ContinueOnError)

/-- The scenario of the specification for `ContinueOnError`: `lint` has the flag and
fails, `build` depends on `lint` and is followed by its dependee `notify`. -/
def continueScenario : State :=
  (((State.init [("target", "build")]).register "lint" (failsWith "style")
      (fun t => t.ContinueOnError)).register "build" succeeds
      (fun t => (t.DependsOn ["lint"]).DependeeOf ["notify"])).register "notify" succeeds id

/-- A ranking of the names of `continueScenario`. -/
def continueRank (n : String) : Nat := if n = "build" then 1 else 0

/-- A registry in which the failing task `B` lists `D` as a dependee. -/
def failingWithDependee (target : String) : State :=
  ((State.init [("target", target)]).register "B" (failsWith "boom")
      (fun t => t.DependeeOf ["D"])).register "D" succeeds id

/-- A registry in which `first` and `second` both defer a failure and `third`, which
depends on them, fails with a command error carrying the exit code 7. -/
def twoDeferred : State :=
  (((State.init [("target", "third")]).register "first" (failsWith "one")
      (fun t => t.DeferOnError)).register "second" (failsWithCode 3)
      (fun t => t.DeferOnError)).register "third" (failsWithCode 7)
    (fun t => t.DependsOn ["first", "second"])

/-- Three registered tasks and no target argument. -/
def discovery : State :=
  (((State.init [("verbose", "true")]).register "build" succeeds id).register "test"
      (failsWith "tests failed") (fun t => t.DependsOn ["build"])).register "deploy" succeeds
    (fun t => t.DependsOn ["test"])

/-- An action that panics. -/
def panics (r : String) : TaskFunc :=
  { outcome := Outcome.panicked (some r), elapsed := 1 }

/-- A registry in which the action of `build` panics and `build` lists `notify` as a
dependee. -/
def panicking : State :=
  ((State.init [("target", "build")]).register "build" (panics "index out of range")
      (fun t => t.DependeeOf ["notify"])).register "notify" succeeds id

/-- An action that calls `panic(nil)`, in a program for which `recover()` then
returns nil. -/
def panicsWithNil : TaskFunc := { outcome := Outcome.panicked none, elapsed := 1 }

/-- The registry `panicking` with an action of `build` that calls `panic(nil)`. -/
def panickingNil : State :=
  ((State.init [("target", "build")]).register "build" panicsWithNil
      (fun t => t.DependeeOf ["notify"])).register "notify" succeeds id

/-- An action that returns a nil `*execr.CmdError` as its `error`, as in
`var e *execr.CmdError; return e`. -/
def returnsNilCmdError : TaskFunc :=
  { outcome := Outcome.returned (some GoError.nilCmdError), elapsed := 1 }

/-- An action that returns a nil `*exec.ExitError` as its `error`. -/
def returnsNilExitError : TaskFunc :=
  { outcome := Outcome.returned (some GoError.nilExitError), elapsed := 1 }

/-- A registry whose target `sh` returns a nil `*execr.CmdError` as its error. -/
def typedNil : State :=
  (State.init [("target", "sh")]).register "sh" returnsNilCmdError id

/-- A registry whose target `sh` defers a nil `*exec.ExitError`. -/
def typedNilDeferred : State :=
  (State.init [("target", "sh")]).register "sh" returnsNilExitError
    (fun t => t.DeferOnError)

/-- The registry `failingWithDependee "B"` with a third task `audit` that depends on
`D` and is not reached from the target `B`. -/
def failingWithBystander : State :=
  (((State.init [("target", "B")]).register "B" (failsWith "boom")
      (fun t => t.DependeeOf ["D"])).register "D" succeeds id).register "audit" succeeds
    (fun t => t.DependsOn ["D"])

/-- The registry `failingWithDependee` with a target `A` that depends on `D` and then
on `B`. -/
def dependeeAsDependency : State :=
  (((State.init [("target", "A")]).register "B" (failsWith "boom")
      (fun t => t.DependeeOf ["D"])).register "D" succeeds id).register "A" succeeds
    (fun t => t.DependsOn ["D", "B"])

/-- The registry `failingWithDependee` with a task `C` that succeeds and lists `D` as
a dependee too, and a target `A` that depends on `C` and then on `B`. -/
def dependeeOfTwo : State :=
  ((((State.init [("target", "A")]).register "B" (failsWith "boom")
      (fun t => t.DependeeOf ["D"])).register "D" succeeds id).register "C" succeeds
      (fun t => t.DependeeOf ["D"])).register "A" succeeds (fun t => t.DependsOn ["C", "B"])

/-- A registry in which the task `B` succeeds and lists `D` as a dependee. -/
def succeedingWithDependee : State :=
  ((State.init [("target", "B")]).register "B" succeeds
      (fun t => t.DependeeOf ["D"])).register "D" succeeds id

/-- A task that lists itself as a dependee. -/
def selfDependee : State :=
  (State.init [("target", "again")]).register "again" succeeds (fun t => t.DependeeOf ["again"])

/-- A registry in which `A` and `B` depend on each other and `start` depends on `A`. -/
def depCycle : State :=
  (((State.init [("target", "start")]).register "start" succeeds
      (fun t => t.DependsOn ["A"])).register "A" succeeds
      (fun t => t.DependsOn ["B"])).register "B" succeeds (fun t => t.DependsOn ["A"])

/-- A registry in which `A` and `B` depend on each other, but `A` first depends on
`F`, whose action fails. -/
def failingBeforeCycle : State :=
  (((State.init [("target", "A")]).register "F" (failsWith "boom") id).register "A"
      succeeds (fun t => t.DependsOn ["F", "B"])).register "B" succeeds
    (fun t => t.DependsOn ["A"])

/-- The registry after `Task("S", ok)` and `Task("T", f).DependsOn("S", "T")`, where
the action `f` fails: `T` depends on itself, as its second dependency. -/
def selfAfter : State :=
  ((State.init [("target", "T")]).register "S" succeeds id).register "T"
    (failsWith "never run") (fun t => t.DependsOn ["S", "T"])

/-- The registry `selfAfter` with a third dependency `F` of `T`, after `T` itself; the
action of `F` fails. -/
def cycleBeforeFailure : State :=
  (((State.init [("target", "T")]).register "S" succeeds id).register "T"
      succeeds (fun t => t.DependsOn ["S", "T", "F"])).register "F" (failsWith "boom") id

/-- A ranking of the names of `bothWays`. -/
def bothWaysRank (n : String) : Nat := if n = "T" then 1 else 0

/-- The task object that `Task` allocates. -/
def newTask (name : String) (taskFunc : TaskFunc) : TaskObject :=
  { name := name, description := "", taskFunc := taskFunc, dependencies := [],
    dependees := [], continueOnError := false, deferOnError := false, didRun := false,
    duration := 0, err := none, deferedErr := none }

/-- The chain `build`, `test`, `deploy` of the specification, where every action
succeeds. -/
def okChain : State :=
  (((State.init [("target", "deploy")]).register "build" succeeds id).register "test"
      succeeds (fun t => t.DependsOn ["build"])).register "deploy" succeeds
    (fun t => t.DependsOn ["test"])

/-- The links of the chain of a state with the tasks `build`, `test`, `deploy` at the
pointers 0, 1, 2. -/
def linksOf (s : State) : List Link :=
  [{ name := "build", ptr := 0, task := s.heap.getD 0 doneTask },
   { name := "test", ptr := 1, task := s.heap.getD 1 doneTask },
   { name := "deploy", ptr := 2, task := s.heap.getD 2 doneTask }]

/-! ## Unfolding `runEach` and `RunTarget` -/

theorem runEach_cons (run : String → State → State × Res) (n : String) (ns : List String)
    (s : State) :
    runEach run (n :: ns) s =
      if (run n s).2 = Res.ret none then runEach run ns (run n s).1 else run n s := by
  rw [runEach]
  split
  · next s1 heq => simp [heq]
  · next s1 r hne heq =>
    have : r ≠ Res.ret none := fun h => hne h
    simp [heq, this]

theorem RunTarget_succ (fuel : Nat) (target : String) (s : State) :
    RunTarget (fuel + 1) target s =
      match (s.emit (Event.enter target)).lookupTask target with
      | none => (s.emit (Event.enter target), Res.ret (some (targetDoesNotExist target)))
      | some (p, currentTask) =>
        if currentTask.didRun = true then (s.emit (Event.enter target), Res.ret currentTask.err)
        else
          let d := runEach (RunTarget fuel) currentTask.dependencies (s.emit (Event.enter target))
          if d.2 = Res.ret none then
            match (d.1.runTask p currentTask).2 with
            | some err => ((d.1.runTask p currentTask).1, Res.ret (some err))
            | none => runEach (RunTarget fuel) currentTask.dependees (d.1.runTask p currentTask).1
          else d := by
  rw [RunTarget]
  split
  · rfl
  · next p currentTask hl =>
    simp only
    split
    · rfl
    · split
      · next s1 heq =>
        simp only [heq, if_true]
        split <;> next s2 _ h2 => simp [h2]
      · next s1 r hne heq =>
        have : r ≠ Res.ret none := fun h => hne h
        simp [heq, this]

/-! ## Every run extends the state -/

theorem runTaskFunc_finished (t : TaskObject) : runTaskFunc t.finished = runTaskFunc t := by
  simp [TaskObject.finished, finishTask, runTaskFunc]

theorem finished_finished (t : TaskObject) : t.finished.finished = t.finished := by
  simp only [TaskObject.finished, finishTask, runTaskFunc]
  cases t.deferOnError <;> cases t.continueOnError <;> simp

theorem finished_didRun (t : TaskObject) : t.finished.didRun = true := rfl

theorem finished_err (t : TaskObject) : t.finished.err = t.adjustedErr := rfl

theorem adjustedErr_finished (t : TaskObject) : t.finished.adjustedErr = t.adjustedErr := by
  simp [TaskObject.adjustedErr, TaskObject.finished, finishTask, runTaskFunc]

theorem Extends.refl (s : State) : Extends s s :=
  ⟨rfl, rfl, fun _ _ h => Or.inl h, rfl, List.prefix_refl _, List.prefix_refl _⟩

theorem Extends.trans {a b c : State} (h1 : Extends a b) (h2 : Extends b c) : Extends a c := by
  refine ⟨h2.taskMap.trans h1.taskMap, h2.argumentsMap.trans h1.argumentsMap, ?_,
    h2.length.trans h1.length, h1.taskRun.trans h2.taskRun, h1.events.trans h2.events⟩
  intro p t ht
  rcases h1.heap p t ht with hb | hb
  · exact h2.heap p t hb
  · rcases h2.heap p _ hb with hc | hc
    · exact Or.inr hc
    · right; rw [hc, finished_finished]

theorem Extends.emit (s : State) (e : Event) : Extends s (s.emit e) :=
  ⟨rfl, rfl, fun _ _ h => Or.inl h, rfl, List.prefix_refl _, List.prefix_append _ _⟩

theorem runEach_ext (run : String → State → State × Res)
    (h : ∀ n s, Extends s (run n s).1) (ns : List String) (s : State) :
    Extends s (runEach run ns s).1 := by
  induction ns generalizing s with
  | nil => exact Extends.refl s
  | cons n ns ih =>
    rw [runEach_cons]
    split
    · exact (h n s).trans (ih _)
    · exact h n s

theorem runTask_ext (s : State) (p : Nat) (cur : TaskObject) :
    Extends s (s.runTask p cur).1 := by
  refine ⟨rfl, rfl, ?_, by simp [State.runTask], List.prefix_append _ _, List.prefix_append _ _⟩
  intro q t hq
  by_cases hqp : p = q
  · subst hqp
    right
    have hlt : p < s.heap.length := by
      rcases Nat.lt_or_ge p s.heap.length with h | h
      · exact h
      · rw [List.getElem?_eq_none h] at hq; cases hq
    have hget2 : s.heap[p] = t := by
      rw [List.getElem?_eq_getElem hlt] at hq; exact Option.some.inj hq
    simp [State.runTask, TaskObject.finished, hlt, hget2]
  · left
    simp [State.runTask, List.getElem?_set_ne hqp, hq]

theorem RunTarget_ext (fuel : Nat) (target : String) (s : State) :
    Extends s (RunTarget fuel target s).1 := by
  induction fuel generalizing target s with
  | zero => exact Extends.refl s
  | succ fuel ih =>
    rw [RunTarget_succ]
    have h0 := Extends.emit s (Event.enter target)
    split
    · exact h0
    · next p currentTask hl =>
      have h1 := h0.trans (runEach_ext (RunTarget fuel) ih currentTask.dependencies
          (s.emit (Event.enter target)))
      split
      · exact h0
      · simp only
        split
        · have h2 := h1.trans (runTask_ext _ p currentTask)
          split
          · exact h2
          · exact h2.trans (runEach_ext (RunTarget fuel) ih currentTask.dependees _)
        · exact h1

/-! ## Events of a run -/

theorem drop_length_of_prefix {α : Type} {a b c : List α} (h1 : a <+: b) (h2 : b <+: c) :
    c.drop a.length = b.drop a.length ++ c.drop b.length := by
  obtain ⟨x, rfl⟩ := h1
  obtain ⟨y, rfl⟩ := h2
  simp

theorem Extends.newEvents_trans {a b c : State} (h1 : Extends a b) (h2 : Extends b c) :
    a.newEvents c = a.newEvents b ++ b.newEvents c :=
  drop_length_of_prefix h1.events h2.events

theorem Extends.newRuns_trans {a b c : State} (h1 : Extends a b) (h2 : Extends b c) :
    a.newRuns c = a.newRuns b ++ b.newRuns c :=
  drop_length_of_prefix h1.taskRun h2.taskRun

theorem Extends.events_eq {a b : State} (h : Extends a b) :
    b.events = a.events ++ a.newEvents b := by
  obtain ⟨x, hx⟩ := h.events
  simp [State.newEvents, ← hx]

theorem Extends.taskRun_eq {a b : State} (h : Extends a b) :
    b.taskRun = a.taskRun ++ a.newRuns b := by
  obtain ⟨x, hx⟩ := h.taskRun
  simp [State.newRuns, ← hx]

theorem newEvents_self (s : State) : s.newEvents s = [] := by
  simp [State.newEvents]

theorem newRuns_self (s : State) : s.newRuns s = [] := by
  simp [State.newRuns]

theorem newEvents_emit (s : State) (e : Event) : s.newEvents (s.emit e) = [e] := by
  simp [State.newEvents, State.emit]

theorem newRuns_emit (s : State) (e : Event) : s.newRuns (s.emit e) = [] := by
  simp [State.newRuns, State.emit]

theorem newEvents_runTask (s : State) (p : Nat) (cur : TaskObject) :
    s.newEvents (s.runTask p cur).1 = [Event.action p] := by
  simp [State.newEvents, State.runTask]

theorem newRuns_runTask (s : State) (p : Nat) (cur : TaskObject) :
    s.newRuns (s.runTask p cur).1 = [p] := by
  simp [State.newRuns, State.runTask]

theorem lookupTask_eq_some {s : State} {n : String} {p : Nat} {t : TaskObject} :
    s.lookupTask n = some (p, t) ↔ s.taskMap.lookup n = some p ∧ s.heap[p]? = some t := by
  unfold State.lookupTask
  cases h1 : s.taskMap.lookup n with
  | none => simp
  | some q =>
    cases h2 : s.heap[q]? with
    | none =>
      simp only [h2, Option.some.injEq, false_iff, not_and, reduceCtorEq]
      rintro rfl
      simp [h2]
    | some u =>
      simp only [h2, Option.some.injEq, Prod.mk.injEq]
      constructor
      · rintro ⟨rfl, rfl⟩; exact ⟨rfl, h2⟩
      · rintro ⟨rfl, h⟩
        rw [h2] at h
        exact ⟨rfl, Option.some.inj h⟩

theorem lookupTask_eq_none {s : State} {n : String} :
    s.lookupTask n = none ↔ ∀ p, s.taskMap.lookup n = some p → s.heap[p]? = none := by
  unfold State.lookupTask
  cases h1 : s.taskMap.lookup n with
  | none => simp
  | some q =>
    cases h2 : s.heap[q]? with
    | none =>
      simp only [Option.some.injEq, forall_eq']
      rw [h2]; simp
    | some u =>
      simp only [Option.some.injEq, forall_eq']
      rw [h2]; simp

theorem Extends.heap_none {a b : State} (h : Extends a b) (p : Nat) :
    a.heap[p]? = none → b.heap[p]? = none := by
  intro hp
  rw [List.getElem?_eq_none_iff] at hp ⊢
  rw [h.length]; exact hp

theorem Extends.lookupTask_none {a b : State} (h : Extends a b) (n : String) :
    a.lookupTask n = none → b.lookupTask n = none := by
  rw [lookupTask_eq_none, lookupTask_eq_none, h.taskMap]
  intro ha p hp
  exact h.heap_none p (ha p hp)

theorem Extends.lookupTask_some {a b : State} (h : Extends a b) {n : String} {p : Nat}
    {t : TaskObject} (hl : a.lookupTask n = some (p, t)) :
    b.lookupTask n = some (p, t) ∨ b.lookupTask n = some (p, t.finished) := by
  rw [lookupTask_eq_some] at hl
  rcases h.heap p t hl.2 with hb | hb
  · left; rw [lookupTask_eq_some]; exact ⟨h.taskMap ▸ hl.1, hb⟩
  · right; rw [lookupTask_eq_some]; exact ⟨h.taskMap ▸ hl.1, hb⟩

theorem Extends.lookupTask_none_iff {a b : State} (h : Extends a b) (n : String) :
    b.lookupTask n = none ↔ a.lookupTask n = none := by
  constructor
  · rw [lookupTask_eq_none, lookupTask_eq_none, h.taskMap]
    intro hb p hp
    have := hb p hp
    rw [List.getElem?_eq_none_iff] at this ⊢
    rw [← h.length]; exact this
  · exact h.lookupTask_none n

theorem finished_dependencies (t : TaskObject) : t.finished.dependencies = t.dependencies := rfl

theorem finished_dependees (t : TaskObject) : t.finished.dependees = t.dependees := rfl

theorem Traced.seq {a b : State} {c : State × Res} (hab : Extends a b) (hbc : Extends b c.1)
    (h1 : Traced a (b, Res.ret none)) (h2 : Traced b c) : Traced a c := by
  constructor
  · intro n hn hl
    rw [hab.newEvents_trans hbc, List.mem_append] at hn
    rcases hn with hn | hn
    · have := h1.missing n hn hl
      simp at this
    · exact h2.missing n hn (hab.lookupTask_none n hl)
  · intro p t hp ht
    rw [hab.newEvents_trans hbc, List.mem_append] at hp
    rcases hp with hp | hp
    · have hb := h1.written p t hp ht
      rcases hbc.heap p _ hb with hc | hc
      · exact hc
      · rw [hc, finished_finished]
    · rcases hab.heap p t ht with hb | hb
      · exact h2.written p t hp hb
      · rw [h2.written p _ hp hb, finished_finished]
  · intro p t hp ht d hd
    rw [hab.newEvents_trans hbc, List.mem_append] at hp
    rcases hp with hp | hp
    · exact h1.deps p t hp ht d hd
    · intro hnone
      rcases hab.heap p t ht with hb | hb
      · exact h2.deps p t hp hb d hd (hab.lookupTask_none d hnone)
      · exact h2.deps p _ hp hb d hd (hab.lookupTask_none d hnone)
  · intro p hp
    rw [hab.newEvents_trans hbc, List.mem_append] at hp
    rw [hab.newRuns_trans hbc, List.mem_append]
    rcases hp with hp | hp
    · exact Or.inl (h1.appended p hp)
    · exact Or.inr (h2.appended p hp)

theorem Traced.same (s : State) (r : Res) : Traced s (s, r) := by
  constructor <;> simp [newEvents_self]

theorem runEach_traced (run : String → State → State × Res)
    (hext : ∀ n s, Extends s (run n s).1) (h : ∀ n s, Traced s (run n s))
    (ns : List String) (s : State) : Traced s (runEach run ns s) := by
  induction ns generalizing s with
  | nil => exact Traced.same s _
  | cons n ns ih =>
    rw [runEach_cons]
    split
    · next hr =>
      have h1 : Traced s ((run n s).1, Res.ret none) := by rw [← hr]; exact h n s
      exact h1.seq (hext n s) (runEach_ext run hext ns _) (ih _)
    · exact h n s

theorem RunTarget_ret_none {fuel : Nat} {target : String} {s : State}
    (h : (RunTarget fuel target s).2 = Res.ret none) : s.lookupTask target ≠ none := by
  cases fuel with
  | zero => simp [RunTarget] at h
  | succ fuel =>
    intro hnone
    have hl : (s.emit (Event.enter target)).lookupTask target = none := hnone
    rw [RunTarget_succ, hl] at h
    simp at h

theorem runEach_ret_none (fuel : Nat) (ns : List String) (s : State)
    (h : (runEach (RunTarget fuel) ns s).2 = Res.ret none) :
    ∀ d ∈ ns, s.lookupTask d ≠ none := by
  induction ns generalizing s with
  | nil => simp
  | cons n ns ih =>
    rw [runEach_cons] at h
    split at h
    · next hr =>
      intro d hd
      rcases List.mem_cons.mp hd with rfl | hd
      · exact RunTarget_ret_none hr
      · intro hnone
        exact ih _ h d hd ((RunTarget_ext fuel n s).lookupTask_none d hnone)
    · next hr => exact absurd h hr

theorem runTask_traced (s : State) (p : Nat) (cur : TaskObject) (r : Res)
    (hdeps : ∀ t, s.heap[p]? = some t → ∀ d ∈ t.dependencies, s.lookupTask d ≠ none) :
    Traced s ((s.runTask p cur).1, r) := by
  constructor
  · intro n hn; simp [newEvents_runTask] at hn
  · intro q t hq ht
    simp only [newEvents_runTask, List.mem_singleton, Event.action.injEq] at hq
    subst hq
    have hlt : q < s.heap.length := by
      rcases Nat.lt_or_ge q s.heap.length with h | h
      · exact h
      · rw [List.getElem?_eq_none h] at ht; cases ht
    have hget2 : s.heap[q] = t := by
      rw [List.getElem?_eq_getElem hlt] at ht; exact Option.some.inj ht
    simp [State.runTask, TaskObject.finished, hlt, hget2]
  · intro q t hq ht
    simp only [newEvents_runTask, List.mem_singleton, Event.action.injEq] at hq
    subst hq
    exact hdeps t ht
  · intro q hq
    simp only [newEvents_runTask, List.mem_singleton, Event.action.injEq] at hq
    subst hq
    simp [newRuns_runTask]

theorem RunTarget_traced (fuel : Nat) (target : String) (s : State) :
    Traced s (RunTarget fuel target s) := by
  induction fuel generalizing target s with
  | zero => exact Traced.same s _
  | succ fuel ih =>
    rw [RunTarget_succ]
    have h0 := Extends.emit s (Event.enter target)
    split
    · next hl =>
      constructor
      · intro n hn _
        simp only [newEvents_emit, List.mem_singleton, Event.enter.injEq] at hn
        rw [hn]
      · intro p t hp; simp [newEvents_emit] at hp
      · intro p t hp; simp [newEvents_emit] at hp
      · intro p hp; simp [newEvents_emit] at hp
    · next p currentTask hl =>
      have t0 : ∀ r, Traced s (s.emit (Event.enter target), r) := by
        intro r
        constructor
        · intro n hn hnone
          simp only [newEvents_emit, List.mem_singleton, Event.enter.injEq] at hn
          subst hn
          have := h0.lookupTask_none _ hnone
          rw [hl] at this; cases this
        · intro p t hp; simp [newEvents_emit] at hp
        · intro p t hp; simp [newEvents_emit] at hp
        · intro p hp; simp [newEvents_emit] at hp
      have e1 := runEach_ext (RunTarget fuel) (RunTarget_ext fuel) currentTask.dependencies
          (s.emit (Event.enter target))
      have t1 := (t0 (Res.ret none)).seq h0 e1
        (runEach_traced (RunTarget fuel) (RunTarget_ext fuel) ih currentTask.dependencies _)
      split
      · exact t0 _
      · simp only
        split
        · next hd =>
          have t1' : Traced s ((runEach (RunTarget fuel) currentTask.dependencies
              (s.emit (Event.enter target))).1, Res.ret none) := by rw [← hd]; exact t1
          have e2 := runTask_ext (runEach (RunTarget fuel) currentTask.dependencies
              (s.emit (Event.enter target))).1 p currentTask
          have hdeps : ∀ t, (runEach (RunTarget fuel) currentTask.dependencies
              (s.emit (Event.enter target))).1.heap[p]? = some t →
              ∀ d ∈ t.dependencies, (runEach (RunTarget fuel) currentTask.dependencies
              (s.emit (Event.enter target))).1.lookupTask d ≠ none := by
            intro t ht d hd' hnone
            have hcur := (lookupTask_eq_some.mp hl).2
            have hsame : t.dependencies = currentTask.dependencies := by
              rcases e1.heap p _ hcur with h | h
              · rw [ht] at h; rw [Option.some.inj h]
              · rw [ht] at h; rw [Option.some.inj h]; rfl
            rw [hsame] at hd'
            exact runEach_ret_none fuel _ _ hd d hd' ((e1.lookupTask_none_iff d).mp hnone)
          split
          · exact t1'.seq (h0.trans e1) e2 (runTask_traced _ p currentTask _ hdeps)
          · have t2 := t1'.seq (h0.trans e1) e2
              (runTask_traced _ p currentTask (Res.ret none) hdeps)
            exact t2.seq ((h0.trans e1).trans e2)
              (runEach_ext (RunTarget fuel) (RunTarget_ext fuel) currentTask.dependees _)
              (runEach_traced (RunTarget fuel) (RunTarget_ext fuel) ih currentTask.dependees _)
        · exact t1

/-! ## `Execute` -/

theorem Execute_target {s : State} {target : String}
    (h : s.argumentsMap.lookup "target" = some target) (fuel : Nat) :
    Execute fuel s =
      match (RunTarget fuel target s).2 with
      | Res.timeout => ((RunTarget fuel target s).1, Exit.timeout)
      | Res.ret err => ((RunTarget fuel target s).1,
          exitCodeOf (checkDeferedErrors (RunTarget fuel target s).1.heap
            (RunTarget fuel target s).1.taskRun err)) := by
  unfold Execute GetArgument GetArgumentOrDefault
  rw [h]
  simp only
  split <;> next s1 _ heq => simp [heq]

theorem checkDeferedErrors_append (heap : List TaskObject) (l1 l2 : List Nat)
    (err : Option GoError) :
    checkDeferedErrors heap (l1 ++ l2) err =
      checkDeferedErrors heap l2 (checkDeferedErrors heap l1 err) := by
  induction l1 generalizing err with
  | nil => rfl
  | cons q l1 ih =>
    simp only [List.cons_append, checkDeferedErrors]
    split
    · split <;> exact ih _
    · exact ih _

theorem checkDeferedErrors_same (heap : List TaskObject) (rest : List Nat) (e : GoError)
    (h : ∀ q ∈ rest, ∀ o, heap[q]? = some o → o.deferedErr = none ∨ o.deferedErr = some e) :
    checkDeferedErrors heap rest (some e) = some e := by
  induction rest with
  | nil => rfl
  | cons q rest ih =>
    have ih' := ih (fun q' hq' => h q' (List.mem_cons_of_mem _ hq'))
    simp only [checkDeferedErrors]
    split
    · next o ho =>
      split
      · next d hd =>
        rcases h q (List.mem_cons_self _ _) o ho with h' | h'
        · rw [hd] at h'; cases h'
        · rw [hd] at h'; cases h'; exact ih'
      · exact ih'
    · exact ih'

theorem checkDeferedErrors_last (heap : List TaskObject) (pre rest : List Nat) (p : Nat)
    (obj : TaskObject) (e : GoError) (err : Option GoError)
    (hp : heap[p]? = some obj) (hd : obj.deferedErr = some e)
    (h : ∀ q ∈ rest, ∀ o, heap[q]? = some o → o.deferedErr = none ∨ o.deferedErr = some e) :
    checkDeferedErrors heap (pre ++ p :: rest) err = some e := by
  rw [checkDeferedErrors_append]
  simp only [checkDeferedErrors, hp, hd]
  exact checkDeferedErrors_same heap rest e h

/-! ## The invariant of reachable states -/

theorem Fresh.good {s : State} (h : Fresh s) : Good s := by
  obtain ⟨h1, h2, h3⟩ := h
  constructor
  · intro p t hp hd
    have := (h3 t (List.getElem?_mem hp)).1
    rw [hd] at this; cases this
  · intro p t hp hd
    have := (h3 t (List.getElem?_mem hp)).1
    rw [hd] at this; cases this
  · intro p; simp [h1, h2]
  · intro p hp; simp [h1] at hp
  · intro i p t hi; simp [h1] at hi

theorem Good.persist {a b : State} (hg : Good a) (h : Extends a b) {p : Nat} {t : TaskObject}
    (hp : a.heap[p]? = some t) (hd : t.didRun = true) : b.heap[p]? = some t := by
  rcases h.heap p t hp with hb | hb
  · exact hb
  · rw [hb, hg.settled p t hp hd]

theorem Good.persist_lookup {a b : State} (hg : Good a) (h : Extends a b) {n : String} {p : Nat}
    {t : TaskObject} (hl : a.lookupTask n = some (p, t)) (hd : t.didRun = true) :
    b.lookupTask n = some (p, t) := by
  rw [lookupTask_eq_some] at hl ⊢
  exact ⟨h.taskMap ▸ hl.1, hg.persist h hl.2 hd⟩

theorem Extends.static {a b : State} (h : Extends a b) {p : Nat} {t : TaskObject}
    (hp : a.heap[p]? = some t) :
    ∃ t', b.heap[p]? = some t' ∧ t'.dependencies = t.dependencies ∧
      t'.dependees = t.dependees := by
  rcases h.heap p t hp with hb | hb
  · exact ⟨t, hb, rfl, rfl⟩
  · exact ⟨t.finished, hb, rfl, rfl⟩

theorem Extends.static_back {a b : State} (h : Extends a b) {p : Nat} {t' : TaskObject}
    (hp : b.heap[p]? = some t') :
    ∃ t, a.heap[p]? = some t ∧ t'.dependencies = t.dependencies ∧
      t'.dependees = t.dependees := by
  have hlt : p < a.heap.length := by
    rw [← h.length]
    rcases Nat.lt_or_ge p b.heap.length with h' | h'
    · exact h'
    · rw [List.getElem?_eq_none h'] at hp; cases hp
  have ha : a.heap[p]? = some a.heap[p] := List.getElem?_eq_getElem hlt
  refine ⟨a.heap[p], ha, ?_⟩
  rcases h.heap p _ ha with hb | hb <;> rw [hp] at hb <;> rw [Option.some.inj hb] <;>
    exact ⟨rfl, rfl⟩

theorem Good.afterEnter {s : State} (hg : Good s) (n : String) : Good (s.emit (Event.enter n)) := by
  constructor
  · exact hg.settled
  · exact hg.ran
  · intro p
    have := hg.logged p
    simp [State.emit, this]
  · exact hg.history
  · exact hg.ordered

theorem runTask_heap_self (s : State) (p : Nat) (cur t : TaskObject) (hp : s.heap[p]? = some t) :
    (s.runTask p cur).1.heap[p]? = some t.finished := by
  have hlt : p < s.heap.length := by
    rcases Nat.lt_or_ge p s.heap.length with h | h
    · exact h
    · rw [List.getElem?_eq_none h] at hp; cases hp
  have hget2 : s.heap[p] = t := by
    rw [List.getElem?_eq_getElem hlt] at hp; exact Option.some.inj hp
  simp [State.runTask, TaskObject.finished, hlt, hget2]

theorem runTask_heap_other (s : State) (p q : Nat) (cur : TaskObject) (hq : p ≠ q) :
    (s.runTask p cur).1.heap[q]? = s.heap[q]? := by
  simp [State.runTask, List.getElem?_set_ne hq]

theorem runTask_err (s : State) (p : Nat) (cur t : TaskObject) (hp : s.heap[p]? = some t) :
    (s.runTask p cur).2 = t.adjustedErr := by
  have hlt : p < s.heap.length := by
    rcases Nat.lt_or_ge p s.heap.length with h | h
    · exact h
    · rw [List.getElem?_eq_none h] at hp; cases hp
  have hget2 : s.heap[p] = t := by
    rw [List.getElem?_eq_getElem hlt] at hp; exact Option.some.inj hp
  simp [State.runTask, TaskObject.adjustedErr, hlt, hget2]

theorem runTask_good {s : State} (hg : Good s) (p : Nat) (cur t : TaskObject)
    (hp : s.heap[p]? = some t)
    (hdeps : ∀ d ∈ t.dependencies, ∃ pd td, s.lookupTask d = some (pd, td) ∧
      td.didRun = true ∧ td.err = none) : Good (s.runTask p cur).1 := by
  have hext := runTask_ext s p cur
  have hrun : (s.runTask p cur).1.taskRun = s.taskRun ++ [p] := rfl
  have hev : (s.runTask p cur).1.events = s.events ++ [Event.action p] := rfl
  constructor
  · intro q u hq hd
    by_cases hpq : p = q
    · subst hpq
      rw [runTask_heap_self s p cur t hp] at hq
      rw [← Option.some.inj hq, finished_finished]
    · rw [runTask_heap_other s p q cur hpq] at hq
      exact hg.settled q u hq hd
  · intro q u hq hd
    rw [hrun]
    by_cases hpq : p = q
    · subst hpq; simp
    · rw [runTask_heap_other s p q cur hpq] at hq
      exact List.mem_append_left _ (hg.ran q u hq hd)
  · intro q
    rw [hrun, hev]
    have := hg.logged q
    simp only [List.mem_append, this, List.mem_singleton, Event.action.injEq]
  · intro q hq
    rw [hrun] at hq
    by_cases hpq : p = q
    · subst hpq
      exact ⟨t.finished, runTask_heap_self s p cur t hp, rfl⟩
    · rw [runTask_heap_other s p q cur hpq]
      rcases List.mem_append.mp hq with h | h
      · exact hg.history q h
      · simp at h; exact absurd h.symm hpq
  · intro i q u hi hq d hd
    rw [hrun] at hi ⊢
    obtain ⟨u0, hu0, hdep0, -⟩ := hext.static_back hq
    rw [hdep0] at hd
    rcases Nat.lt_or_ge i s.taskRun.length with hlt | hge
    · rw [List.getElem?_append_left hlt] at hi
      obtain ⟨pd, td, hl, hdr, herr, hmem⟩ := hg.ordered i q u0 hi hu0 d hd
      refine ⟨pd, td, hg.persist_lookup hext hl hdr, hdr, herr, ?_⟩
      rw [List.take_append_of_le_length (Nat.le_of_lt hlt)]
      exact hmem
    · have hiq : i = s.taskRun.length ∧ q = p := by
        rw [List.getElem?_append_right hge] at hi
        rcases Nat.eq_zero_or_pos (i - s.taskRun.length) with h0 | h0
        · rw [h0] at hi
          simp at hi
          exact ⟨by omega, hi.symm⟩
        · rw [List.getElem?_eq_none (by simp only [List.length_singleton]; omega)] at hi; cases hi
      obtain ⟨rfl, rfl⟩ := hiq
      rw [hp] at hu0
      cases hu0
      obtain ⟨pd, td, hl, hdr, herr⟩ := hdeps d hd
      refine ⟨pd, td, hg.persist_lookup hext hl hdr, hdr, herr, ?_⟩
      rw [List.take_left']
      · exact hg.ran pd td (lookupTask_eq_some.mp hl).2 hdr
      · rfl

/-! ## What a run from a reachable state guarantees -/

theorem Justified.mono {r r' : List String} {s : State} {n : String} (h : ∀ m ∈ r, m ∈ r')
    (hj : Justified r s n) : Justified r' s n := by
  rcases hj with hj | hj
  · exact Or.inl (h n hj)
  · exact Or.inr hj

theorem Justified.later {r : List String} {a b : State} {n : String} (hg : Good a)
    (h : Extends a b) (hj : Justified r a n) : Justified r b n := by
  rcases hj with hj | ⟨k, pc, c, hl, hc⟩
  · exact Or.inl hj
  · right
    rcases hc with hc | ⟨hc, hd, he⟩
    · rcases h.lookupTask_some hl with hb | hb
      · exact ⟨k, pc, c, hb, Or.inl hc⟩
      · exact ⟨k, pc, c.finished, hb, Or.inl hc⟩
    · exact ⟨k, pc, c, hg.persist_lookup h hl hd, Or.inr ⟨hc, hd, he⟩⟩

theorem Sound.chain {r1 r2 r : List String} {a b : State} {out : State × Res}
    (hab : Extends a b) (hbc : Extends b out.1)
    (h1 : Sound r1 a (b, Res.ret none)) (h2 : Sound r2 b out)
    (hj1 : ∀ n, Justified r1 out.1 n → Justified r out.1 n)
    (hj2 : ∀ n, Justified r2 out.1 n → Justified r out.1 n) : Sound r a out := by
  refine ⟨h2.good, ?_, ?_, ?_, ?_⟩
  · intro p t e hp ht he
    rw [hab.newRuns_trans hbc, List.mem_append] at hp
    rcases hp with hp | hp
    · have hpb : p ∈ b.taskRun := by
        rw [hab.taskRun_eq]; exact List.mem_append_right _ hp
      obtain ⟨t1, ht1, hd1⟩ := h1.good.history p hpb
      have hsame := h1.good.persist hbc ht1 hd1
      rw [ht] at hsame
      cases hsame
      have := h1.err p t e hp ht1 he
      simp at this
    · exact h2.err p t e hp ht he
  · intro p hp
    rw [hab.newEvents_trans hbc, List.mem_append] at hp
    rcases hp with hp | hp
    · obtain ⟨n, hn, hj⟩ := h1.why p hp
      exact ⟨n, hn, hj1 n (hj.later h1.good hbc)⟩
    · obtain ⟨n, hn, hj⟩ := h2.why p hp
      exact ⟨n, hab.taskMap ▸ hn, hj2 n hj⟩
  · intro n hn
    rw [hab.newEvents_trans hbc, List.mem_append] at hn
    rcases hn with hn | hn
    · exact hj1 n ((h1.entered n hn).later h1.good hbc)
    · exact hj2 n (h2.entered n hn)
  · intro e he
    rcases h2.origin e he with ⟨n, h1', h2', h3'⟩ | h'
    · left
      refine ⟨n, h1', ?_, (hab.lookupTask_none_iff n).mp h3'⟩
      rw [hab.newEvents_trans hbc]
      exact List.mem_append_right _ h2'
    · exact Or.inr h'

theorem Sound.idle {s : State} (hg : Good s) (r : List String) : Sound r s (s, Res.ret none) := by
  refine ⟨hg, ?_, ?_, ?_, ?_⟩
  · intro p t e hp; simp [newRuns_self] at hp
  · intro p hp; simp [newEvents_self] at hp
  · intro n hn; simp [newEvents_self] at hn
  · intro e he; simp at he

theorem Sound.weaken {r r' : List String} {s : State} {out : State × Res} (h : Sound r s out)
    (hsub : ∀ m ∈ r, m ∈ r') : Sound r' s out := by
  refine ⟨h.good, h.err, ?_, ?_, h.origin⟩
  · intro p hp
    obtain ⟨m, hm, hj⟩ := h.why p hp
    exact ⟨m, hm, hj.mono hsub⟩
  · intro n hn
    exact (h.entered n hn).mono hsub

theorem Sound.entering {s : State} (hg : Good s) (n : String) :
    Sound [n] s (s.emit (Event.enter n), Res.ret none) := by
  refine ⟨hg.afterEnter n, ?_, ?_, ?_, ?_⟩
  · intro p t e hp; simp [newRuns_emit] at hp
  · intro p hp; simp [newEvents_emit] at hp
  · intro m hm
    simp only [newEvents_emit, List.mem_singleton, Event.enter.injEq] at hm
    subst hm
    exact Or.inl (List.mem_singleton_self _)
  · intro e he; simp at he

theorem runEach_sound (run : String → State → State × Res)
    (hext : ∀ n s, Extends s (run n s).1)
    (h : ∀ n s, Good s → Sound [n] s (run n s) ∧ Done [n] (run n s))
    (ns : List String) (s : State) (hg : Good s) :
    Sound ns s (runEach run ns s) ∧ Done ns (runEach run ns s) := by
  induction ns generalizing s with
  | nil => exact ⟨Sound.idle hg [], fun _ n hn => by simp at hn⟩
  | cons n ns ih =>
    rw [runEach_cons]
    obtain ⟨h1, hd1⟩ := h n s hg
    split
    · next hr =>
      have h1' : Sound [n] s ((run n s).1, Res.ret none) := by rw [← hr]; exact h1
      have hbc := runEach_ext run hext ns (run n s).1
      obtain ⟨h2, hd2⟩ := ih _ h1.good
      refine ⟨h1'.chain (hext n s) hbc h2 (fun m hj => hj.mono (by simp))
        (fun m hj => hj.mono (fun x hx => List.mem_cons_of_mem _ hx)), ?_⟩
      intro hres m hm
      rcases List.mem_cons.mp hm with rfl | hm
      · obtain ⟨p, t, hl, hd, he⟩ := hd1 hr m (List.mem_singleton_self m)
        exact ⟨p, t, h1.good.persist_lookup hbc hl hd, hd, he⟩
      · exact hd2 hres m hm
    · next hr =>
      exact ⟨h1.weaken (by simp), fun h' => absurd h' hr⟩

theorem runTask_sound {s : State} (hg : Good s) (target : String) (p : Nat)
    (cur t : TaskObject) (hl : s.lookupTask target = some (p, t))
    (hdeps : ∀ d ∈ t.dependencies, ∃ pd td, s.lookupTask d = some (pd, td) ∧
      td.didRun = true ∧ td.err = none) :
    Sound [target] s ((s.runTask p cur).1, Res.ret (s.runTask p cur).2) ∧
      Done [target] ((s.runTask p cur).1, Res.ret (s.runTask p cur).2) := by
  have hp := (lookupTask_eq_some.mp hl).2
  have hself := runTask_heap_self s p cur t hp
  have herr := runTask_err s p cur t hp
  refine ⟨⟨runTask_good hg p cur t hp hdeps, ?_, ?_, ?_, ?_⟩, ?_⟩
  · intro q u e hq hu he
    simp only [newRuns_runTask, List.mem_singleton] at hq
    subst hq
    simp only at hu
    rw [hself] at hu
    cases hu
    rw [finished_err, ← herr] at he
    simp [he]
  · intro q hq
    simp only [newEvents_runTask, List.mem_singleton, Event.action.injEq] at hq
    subst hq
    exact ⟨target, (lookupTask_eq_some.mp hl).1, Or.inl (List.mem_singleton_self _)⟩
  · intro n hn
    simp [newEvents_runTask] at hn
  · intro e he
    right
    refine ⟨p, t.finished, ?_, hself, ?_⟩
    · simp [State.runTask]
    · rw [finished_err, ← herr]
      simpa using he
  · intro hr n hn
    rw [List.mem_singleton] at hn
    subst hn
    refine ⟨p, t.finished, ?_, rfl, ?_⟩
    · rw [lookupTask_eq_some]
      exact ⟨(lookupTask_eq_some.mp hl).1, hself⟩
    · rw [finished_err, ← herr]
      simpa using hr

theorem RunTarget_sound (fuel : Nat) (target : String) (s : State) (hg : Good s) :
    Sound [target] s (RunTarget fuel target s) ∧ Done [target] (RunTarget fuel target s) := by
  induction fuel generalizing target s with
  | zero =>
    refine ⟨⟨hg, ?_, ?_, ?_, ?_⟩, ?_⟩
    · intro p t e hp; simp [RunTarget, newRuns_self] at hp
    · intro p hp; simp [RunTarget, newEvents_self] at hp
    · intro n hn; simp [RunTarget, newEvents_self] at hn
    · intro e he; simp [RunTarget] at he
    · intro h; simp [RunTarget] at h
  | succ fuel ih =>
    rw [RunTarget_succ]
    have h0 := Extends.emit s (Event.enter target)
    have hA := Sound.entering hg target
    split
    · next hl =>
      refine ⟨⟨hA.good, fun p t e hp => by simp [newRuns_emit] at hp, hA.why, hA.entered, ?_⟩,
        fun h => by simp at h⟩
      intro e he
      left
      refine ⟨target, by simpa using he.symm, by simp [newEvents_emit], hl⟩
    · next p currentTask hl =>
      have hcur := lookupTask_eq_some.mp hl
      split
      · next hdid =>
        refine ⟨⟨hA.good, fun p t e hp => by simp [newRuns_emit] at hp, hA.why, hA.entered, ?_⟩,
          ?_⟩
        · intro e he
          right
          exact ⟨p, currentTask, hg.ran p currentTask hcur.2 hdid, hcur.2, by simpa using he⟩
        · intro hr n hn
          rw [List.mem_singleton] at hn
          subst hn
          exact ⟨p, currentTask, hl, hdid, by simpa using hr⟩
      · simp only
        have e1 := runEach_ext (RunTarget fuel) (RunTarget_ext fuel) currentTask.dependencies
          (s.emit (Event.enter target))
        obtain ⟨hB, hdB⟩ := runEach_sound (RunTarget fuel) (RunTarget_ext fuel) ih
          currentTask.dependencies (s.emit (Event.enter target)) (hg.afterEnter target)
        -- a dependency of the current task is justified in every later state
        have hdepj : ∀ (b : State), Extends (s.emit (Event.enter target)) b → ∀ n,
            Justified currentTask.dependencies b n → Justified [target] b n := by
          intro b hb n hj
          rcases hj with hj | hj
          · right
            rcases hb.lookupTask_some hl with h' | h'
            · exact ⟨target, p, currentTask, h', Or.inl hj⟩
            · exact ⟨target, p, currentTask.finished, h', Or.inl hj⟩
          · exact Or.inr hj
        have hAB : Sound [target] s (runEach (RunTarget fuel) currentTask.dependencies
              (s.emit (Event.enter target))) :=
          hA.chain h0 e1 hB (fun n hj => hj) (hdepj _ e1)
        split
        · next hd =>
          have hAB' : Sound [target] s ((runEach (RunTarget fuel) currentTask.dependencies
                (s.emit (Event.enter target))).1, Res.ret none) := by rw [← hd]; exact hAB
          obtain ⟨t1, ht1, hdep1, hdee1⟩ := e1.static hcur.2
          have hl1 : (runEach (RunTarget fuel) currentTask.dependencies
                (s.emit (Event.enter target))).1.lookupTask target = some (p, t1) := by
            rw [lookupTask_eq_some]
            exact ⟨e1.taskMap ▸ hcur.1, ht1⟩
          obtain ⟨hC, hdC⟩ := runTask_sound hB.good target p currentTask t1 hl1
            (by rw [hdep1]; exact hdB hd)
          have e2 := runTask_ext (runEach (RunTarget fuel) currentTask.dependencies
                (s.emit (Event.enter target))).1 p currentTask
          have hABC := hAB'.chain (h0.trans e1) e2 hC (fun n hj => hj) (fun n hj => hj)
          split
          · next err herr =>
            rw [herr] at hABC
            exact ⟨hABC, fun h => by simp at h⟩
          · next herr =>
            rw [herr] at hABC hC hdC
            have e3 := runEach_ext (RunTarget fuel) (RunTarget_ext fuel) currentTask.dependees
              ((runEach (RunTarget fuel) currentTask.dependencies
                (s.emit (Event.enter target))).1.runTask p currentTask).1
            obtain ⟨hD, -⟩ := runEach_sound (RunTarget fuel) (RunTarget_ext fuel) ih
              currentTask.dependees _ hC.good
            obtain ⟨p', t', hl', hd', he'⟩ := hdC rfl target (List.mem_singleton_self _)
            have hl'' := hC.good.persist_lookup e3 hl' hd'
            have hdee' : t'.dependees = currentTask.dependees := by
              obtain ⟨u, hu, -, hdee⟩ := (e1.trans e2).static hcur.2
              have hp' : p' = p := by
                have h1 := (lookupTask_eq_some.mp hl').1
                rw [(e1.trans e2).taskMap, hcur.1] at h1
                exact (Option.some.inj h1).symm
              subst hp'
              rw [(lookupTask_eq_some.mp hl').2] at hu
              cases hu
              exact hdee
            refine ⟨hABC.chain ((h0.trans e1).trans e2) e3 hD (fun n hj => hj) ?_, ?_⟩
            · intro n hj
              rcases hj with hj | hj
              · exact Or.inr ⟨target, p', t', hl'', Or.inr ⟨hdee' ▸ hj, hd', he'⟩⟩
              · exact Or.inr hj
            · intro _ n hn
              rw [List.mem_singleton] at hn
              subst hn
              exact ⟨p', t', hl'', hd', he'⟩
        · next hd =>
          exact ⟨hAB, fun hr => absurd hr hd⟩

/-! ## Termination when the dependency edges are acyclic -/

theorem countP_le_of_pointwise {α : Type} (P : α → Bool) :
    ∀ (a b : List α), a.length = b.length →
      (∀ (i : Nat) (x y : α), a[i]? = some x → b[i]? = some y → P y = true → P x = true) →
      b.countP P ≤ a.countP P := by
  intro a
  induction a with
  | nil =>
    intro b hlen _
    cases b with
    | nil => simp
    | cons y b => simp at hlen
  | cons x a ih =>
    intro b hlen h
    cases b with
    | nil => simp at hlen
    | cons y b =>
      have hrec := ih b (by simpa using hlen)
        (fun i x' y' hx hy => h (i + 1) x' y' (by simpa using hx) (by simpa using hy))
      have h0 := h 0 x y (by simp) (by simp)
      simp only [List.countP_cons]
      by_cases hy : P y = true
      · rw [if_pos hy, if_pos (h0 hy)]; omega
      · rw [if_neg hy]; omega

theorem countP_lt_of_pointwise {α : Type} (P : α → Bool) :
    ∀ (a b : List α), a.length = b.length →
      (∀ (i : Nat) (x y : α), a[i]? = some x → b[i]? = some y → P y = true → P x = true) →
      (∃ (i : Nat) (x y : α), a[i]? = some x ∧ b[i]? = some y ∧ P x = true ∧ P y = false) →
      b.countP P < a.countP P := by
  intro a
  induction a with
  | nil =>
    intro b _ _ hex
    obtain ⟨i, x, y, hx, -⟩ := hex
    simp at hx
  | cons x a ih =>
    intro b hlen h hex
    cases b with
    | nil => simp at hlen
    | cons y b =>
      have hlen' : a.length = b.length := by simpa using hlen
      have hpt : ∀ (i : Nat) (x' y' : α), a[i]? = some x' → b[i]? = some y' → P y' = true → P x' = true :=
        fun i x' y' hx hy => h (i + 1) x' y' (by simpa using hx) (by simpa using hy)
      have h0 := h 0 x y (by simp) (by simp)
      obtain ⟨i, x', y', hx, hy, hpx, hpy⟩ := hex
      simp only [List.countP_cons]
      cases i with
      | zero =>
        simp only [List.getElem?_cons_zero, Option.some.injEq] at hx hy
        subst hx; subst hy
        have := countP_le_of_pointwise P a b hlen' hpt
        rw [if_pos hpx, if_neg (by simp [hpy])]
        omega
      | succ i =>
        simp only [List.getElem?_cons_succ] at hx hy
        have := ih b hlen' hpt ⟨i, x', y', hx, hy, hpx, hpy⟩
        by_cases hy' : P y = true
        · rw [if_pos hy', if_pos (h0 hy')]; omega
        · rw [if_neg hy']; omega

theorem Extends.unrun_le {a b : State} (h : Extends a b) : b.unrun ≤ a.unrun := by
  refine countP_le_of_pointwise _ a.heap b.heap h.length.symm ?_
  intro i x y hx hy hpy
  rcases h.heap i x hx with hb | hb <;> rw [hy] at hb <;> cases hb
  · exact hpy
  · simp [finished_didRun] at hpy

theorem Extends.unrun_lt {a b : State} (h : Extends a b) {p : Nat} {x y : TaskObject}
    (hx : a.heap[p]? = some x) (hy : b.heap[p]? = some y) (hdx : x.didRun = false)
    (hdy : y.didRun = true) : b.unrun < a.unrun := by
  refine countP_lt_of_pointwise _ a.heap b.heap h.length.symm ?_ ⟨p, x, y, hx, hy, ?_, ?_⟩
  · intro i x y hx hy hpy
    rcases h.heap i x hx with hb | hb <;> rw [hy] at hb <;> cases hb
    · exact hpy
    · simp [finished_didRun] at hpy
  · simp [hdx]
  · simp [hdy]

theorem runEach_no_timeout (run : String → State → State × Res)
    (hext : ∀ n s, Extends s (run n s).1) (ns : List String) (s : State)
    (h : ∀ n ∈ ns, ∀ s', Extends s s' → (run n s').2 ≠ Res.timeout) :
    (runEach run ns s).2 ≠ Res.timeout := by
  induction ns generalizing s with
  | nil => simp [runEach]
  | cons n ns ih =>
    rw [runEach_cons]
    split
    · exact ih _ (fun m hm s' hs' =>
        h m (List.mem_cons_of_mem _ hm) s' ((hext n s).trans hs'))
    · exact h n (List.mem_cons_self _ _) s (Extends.refl s)

theorem RunTarget_no_timeout (s0 : State) (rank : String → Nat) (R : Nat)
    (hrank : ∀ n p t, s0.lookupTask n = some (p, t) → ∀ d ∈ t.dependencies, rank d < rank n)
    (hR : ∀ n p t, s0.lookupTask n = some (p, t) → rank n ≤ R) :
    ∀ (fuel : Nat) (target : String) (s : State), Extends s0 s →
      s.unrun * (R + 1) + min (rank target) R + 1 ≤ fuel →
      (RunTarget fuel target s).2 ≠ Res.timeout := by
  intro fuel
  induction fuel with
  | zero => intro target s _ h; omega
  | succ fuel ih =>
    intro target s hs hfuel
    rw [RunTarget_succ]
    have h0 := Extends.emit s (Event.enter target)
    split
    · simp
    · next p currentTask hl =>
      have hcur := lookupTask_eq_some.mp hl
      split
      · simp
      · next hdid =>
        simp only
        have hdid' : currentTask.didRun = false := by simpa using hdid
        -- the task object of the target in the initial state
        obtain ⟨t0, ht0, hdep0, -⟩ := (hs.trans h0).static_back hcur.2
        have hl0 : s0.lookupTask target = some (p, t0) := by
          rw [lookupTask_eq_some]
          exact ⟨by rw [← (hs.trans h0).taskMap]; exact hcur.1, ht0⟩
        have hrk := hR target p t0 hl0
        have hpos : 0 < s.unrun := by
          have : 0 < (s.emit (Event.enter target)).heap.countP (fun t => !t.didRun) := by
            rw [List.countP_pos_iff]
            exact ⟨currentTask, List.getElem?_mem hcur.2, by simp [hdid']⟩
          exact this
        have e1 := runEach_ext (RunTarget fuel) (RunTarget_ext fuel) currentTask.dependencies
          (s.emit (Event.enter target))
        have hdeps : (runEach (RunTarget fuel) currentTask.dependencies
            (s.emit (Event.enter target))).2 ≠ Res.timeout := by
          refine runEach_no_timeout _ (RunTarget_ext fuel) _ _ ?_
          intro d hd s' hs'
          refine ih d s' ((hs.trans h0).trans hs') ?_
          have hlt := hrank target p t0 hl0 d (hdep0 ▸ hd)
          have hle : s'.unrun ≤ s.unrun := (h0.trans hs').unrun_le
          have hmul : s'.unrun * (R + 1) ≤ s.unrun * (R + 1) := Nat.mul_le_mul_right _ hle
          have hmin : min (rank target) R = rank target := Nat.min_eq_left hrk
          have hmin' : min (rank d) R ≤ rank d := Nat.min_le_left _ _
          omega
        split
        · next hd =>
          have e2 := runTask_ext (runEach (RunTarget fuel) currentTask.dependencies
                (s.emit (Event.enter target))).1 p currentTask
          split
          · simp
          · refine runEach_no_timeout _ (RunTarget_ext fuel) _ _ ?_
            intro d hd' s' hs'
            refine ih d s' ((((hs.trans h0).trans e1).trans e2).trans hs') ?_
            obtain ⟨t1, ht1, -, -⟩ := e1.static hcur.2
            have hfin := runTask_heap_self _ p currentTask t1 ht1
            have hlt : ((runEach (RunTarget fuel) currentTask.dependencies
                (s.emit (Event.enter target))).1.runTask p currentTask).1.unrun < s.unrun :=
              ((h0.trans e1).trans e2).unrun_lt (hcur.2) hfin hdid' rfl
            have hle : s'.unrun ≤ ((runEach (RunTarget fuel) currentTask.dependencies
                (s.emit (Event.enter target))).1.runTask p currentTask).1.unrun := hs'.unrun_le
            have hle' : s'.unrun + 1 ≤ s.unrun := by omega
            have hmul : (s'.unrun + 1) * (R + 1) ≤ s.unrun * (R + 1) :=
              Nat.mul_le_mul_right _ hle'
            have hmin' : min (rank d) R ≤ R := Nat.min_le_right _ _
            have hexp : (s'.unrun + 1) * (R + 1) = s'.unrun * (R + 1) + R + 1 := by ring
            omega
        · exact hdeps

theorem rank_le_sum (rank : String → Nat) (m : List (String × Nat)) (n : String) (p : Nat)
    (h : m.lookup n = some p) : rank n ≤ (m.map (fun kv => rank kv.1)).sum := by
  induction m with
  | nil => simp at h
  | cons kv m ih =>
    obtain ⟨k, v⟩ := kv
    simp only [List.lookup] at h
    simp only [List.map_cons, List.sum_cons]
    split at h
    · next heq =>
      have : n = k := by simpa using heq
      subst this
      omega
    · have := ih h
      omega

/-- When the dependency edges are acyclic, `RunTarget` returns for every target,
provided the recursion bound is large enough. -/
theorem RunTarget_terminates (s : State) (h : DepAcyclic s) (target : String) :
    ∃ fuel, ∀ fuel', fuel ≤ fuel' → (RunTarget fuel' target s).2 ≠ Res.timeout := by
  obtain ⟨rank, hrank⟩ := h
  let R := (s.taskMap.map (fun kv => rank kv.1)).sum
  refine ⟨s.unrun * (R + 1) + min (rank target) R + 1, ?_⟩
  intro fuel' hle
  refine RunTarget_no_timeout s rank R hrank ?_ fuel' target s (Extends.refl s) hle
  intro n p t hl
  exact rank_le_sum rank s.taskMap n p (lookupTask_eq_some.mp hl).1

theorem Reachable.invariant {s : State} (h : Reachable s) : Good s := by
  induction h with
  | fresh s hf => exact hf.good
  | run s fuel target _ ih => exact (RunTarget_sound fuel target s ih).1.good

theorem mem_of_lookup {m : List (String × Nat)} {n : String} {p : Nat}
    (h : m.lookup n = some p) : (n, p) ∈ m := by
  induction m with
  | nil => simp at h
  | cons kv m ih =>
    obtain ⟨k, v⟩ := kv
    simp only [List.lookup] at h
    split at h
    · next heq =>
      have hk : n = k := by simpa using heq
      cases h
      simp [hk]
    · exact List.mem_cons_of_mem _ (ih h)

theorem rankedBy_sound (s : State) (rank : String → Nat) (h : s.rankedBy rank = true) :
    DepAcyclic s := by
  refine ⟨rank, ?_⟩
  intro n p t hl d hd
  obtain ⟨h1, h2⟩ := lookupTask_eq_some.mp hl
  have := List.all_eq_true.mp h (n, p) (mem_of_lookup h1)
  simp only [h2] at this
  simpa using List.all_eq_true.mp this d hd

/-- A task whose first dependency is itself never returns. -/
theorem RunTarget_self_dependency (n : String) (p : Nat) (t : TaskObject) (rest : List String)
    (hd : t.didRun = false) (hdeps : t.dependencies = n :: rest) :
    ∀ (fuel : Nat) (s : State), s.lookupTask n = some (p, t) →
      (RunTarget fuel n s).2 = Res.timeout := by
  intro fuel
  induction fuel with
  | zero => intro s _; rfl
  | succ fuel ih =>
    intro s hl
    have hl' : (s.emit (Event.enter n)).lookupTask n = some (p, t) := hl
    have := ih (s.emit (Event.enter n)) hl'
    rw [RunTarget_succ, hl']
    simp only [hd, hdeps, runEach_cons]
    simp only [Bool.false_eq_true, if_false]
    have hne : ¬ (RunTarget fuel n (s.emit (Event.enter n))).2 = Res.ret none := by
      intro h'; rw [this] at h'; cases h'
    simp only [hne, if_false]
    exact this

/-- A task that has not run and whose first dependency never returns never
returns. -/
theorem RunTarget_first_dependency (n d : String) (p : Nat) (t : TaskObject)
    (rest : List String) (s : State) (fuel : Nat) (hl : s.lookupTask n = some (p, t))
    (hd : t.didRun = false) (hdeps : t.dependencies = d :: rest)
    (h : (RunTarget fuel d (s.emit (Event.enter n))).2 = Res.timeout) :
    (RunTarget (fuel + 1) n s).2 = Res.timeout := by
  have hl' : (s.emit (Event.enter n)).lookupTask n = some (p, t) := hl
  rw [RunTarget_succ, hl']
  simp only [hd, hdeps, runEach_cons]
  simp only [Bool.false_eq_true, if_false]
  have hne : ¬ (RunTarget fuel d (s.emit (Event.enter n))).2 = Res.ret none := by
    intro h'; rw [h] at h'; cases h'
  simp only [hne, if_false]
  exact h

theorem allRegistered_sound (s : State) (P : String → Nat → TaskObject → Bool)
    (h : s.allRegistered P = true) (k : String) (pc : Nat) (c : TaskObject)
    (hl : s.lookupTask k = some (pc, c)) : P k pc c = true := by
  obtain ⟨h1, h2⟩ := lookupTask_eq_some.mp hl
  have := List.all_eq_true.mp h (k, pc) (mem_of_lookup h1)
  simpa only [h2] using this

theorem onlyName_sound (s : State) (pd : Nat) (D : String)
    (h : s.taskMap.all (fun kv => decide (kv.2 = pd → kv.1 = D)) = true) (n : String)
    (hn : s.taskMap.lookup n = some pd) : n = D := by
  have := List.all_eq_true.mp h (n, pd) (mem_of_lookup hn)
  simpa using this

/-- In a run from a fresh state, a task object that has run is the one of the
initial state, as `finishTask` writes it. -/
theorem Fresh.ran_finished {s out : State} (hfresh : Fresh s) (h : Extends s out) {p : Nat}
    {t : TaskObject} (ht : out.heap[p]? = some t) (hd : t.didRun = true) :
    ∃ t0, s.heap[p]? = some t0 ∧ t = t0.finished := by
  obtain ⟨t0, ht0, -, -⟩ := h.static_back ht
  refine ⟨t0, ht0, ?_⟩
  rcases h.heap p t0 ht0 with h' | h' <;> rw [ht] at h' <;> cases h'
  · have := (hfresh.2.2 t (List.getElem?_mem ht0)).1
    rw [hd] at this; cases this
  · rfl

/-- A task registered in a later state is registered in the earlier state, with
the same edges. -/
theorem Extends.registered_back {a b : State} (h : Extends a b) {k : String} {pc : Nat}
    {c : TaskObject} (hl : b.lookupTask k = some (pc, c)) :
    ∃ c0, a.lookupTask k = some (pc, c0) ∧ c.dependencies = c0.dependencies ∧
      c.dependees = c0.dependees ∧ (c = c0 ∨ c = c0.finished) := by
  obtain ⟨h1, h2⟩ := lookupTask_eq_some.mp hl
  obtain ⟨c0, hc0, hdep, hdee⟩ := h.static_back h2
  refine ⟨c0, lookupTask_eq_some.mpr ⟨h.taskMap ▸ h1, hc0⟩, hdep, hdee, ?_⟩
  rcases h.heap pc c0 hc0 with h' | h' <;> rw [h2] at h' <;> cases h'
  · exact Or.inl rfl
  · exact Or.inr rfl

/-! ## Every event is accounted for by the events before it -/

theorem exists_getElem?_of_mem_take {α : Type} {l : List α} {i : Nat} {e : α}
    (h : e ∈ l.take i) : ∃ j, j < i ∧ l[j]? = some e := by
  obtain ⟨j, hj⟩ := List.mem_iff_getElem?.mp h
  rw [List.getElem?_take] at hj
  split at hj
  · next hlt => exact ⟨j, hlt, hj⟩
  · cases hj

theorem mem_take_of_getElem? {α : Type} {l : List α} {i j : Nat} {e : α}
    (h : l[j]? = some e) (hlt : j < i) : e ∈ l.take i := by
  refine List.mem_iff_getElem?.mpr ⟨j, ?_⟩
  rw [List.getElem?_take, if_pos hlt]
  exact h

theorem mem_take_of_le {α : Type} {l : List α} {i j : Nat} {e : α}
    (h : e ∈ l.take j) (hle : j ≤ i) : e ∈ l.take i := by
  obtain ⟨k, hk, he⟩ := exists_getElem?_of_mem_take h
  exact mem_take_of_getElem? he (Nat.lt_of_lt_of_le hk hle)

theorem EnterJustified.more {s : State} {pre pre' : List Event} {n : String}
    (h : ∀ e ∈ pre, e ∈ pre') (hj : EnterJustified s pre n) : EnterJustified s pre' n := by
  obtain ⟨k, p, t, hl, hk, hc⟩ := hj
  refine ⟨k, p, t, hl, h _ hk, ?_⟩
  rcases hc with hc | ⟨hc, ha, he⟩
  · exact Or.inl hc
  · exact Or.inr ⟨hc, h _ ha, he⟩

theorem EnterJustified.onward {a b : State} (h : Extends a b) {pre : List Event} {n : String}
    (hj : EnterJustified a pre n) : EnterJustified b pre n := by
  obtain ⟨k, p, t, hl, hk, hc⟩ := hj
  rcases h.lookupTask_some hl with hb | hb
  · exact ⟨k, p, t, hb, hk, hc⟩
  · refine ⟨k, p, t.finished, hb, hk, ?_⟩
    rcases hc with hc | ⟨hc, ha, he⟩
    · exact Or.inl hc
    · exact Or.inr ⟨hc, ha, by rw [adjustedErr_finished]; exact he⟩

theorem EnterJustified.back {a b : State} (h : Extends a b) {pre : List Event} {n : String}
    (hj : EnterJustified b pre n) : EnterJustified a pre n := by
  obtain ⟨k, p, t, hl, hk, hc⟩ := hj
  obtain ⟨t0, hl0, hdep, hdee, hor⟩ := h.registered_back hl
  have hadj : t.adjustedErr = t0.adjustedErr := by
    rcases hor with rfl | rfl
    · rfl
    · exact adjustedErr_finished _
  refine ⟨k, p, t0, hl0, hk, ?_⟩
  rcases hc with hc | ⟨hc, ha, he⟩
  · exact Or.inl (hdep ▸ hc)
  · exact Or.inr ⟨hdee ▸ hc, ha, hadj ▸ he⟩

theorem Causal.empty (s : State) (ctx : List Event) : Causal s ctx [] :=
  ⟨fun i n h => by simp at h, fun i p h => by simp at h⟩

theorem Causal.widen {s : State} {ctx ctx' ev : List Event} (h : ∀ e ∈ ctx, e ∈ ctx')
    (hc : Causal s ctx ev) : Causal s ctx' ev := by
  have hsub : ∀ (i : Nat), ∀ e ∈ ctx ++ ev.take i, e ∈ ctx' ++ ev.take i := by
    intro i e he
    rcases List.mem_append.mp he with he | he
    · exact List.mem_append_left _ (h e he)
    · exact List.mem_append_right _ he
  constructor
  · intro i n hi
    exact (hc.enters i n hi).more (hsub i)
  · intro i p hi
    obtain ⟨n, hn, hm⟩ := hc.actions i p hi
    exact ⟨n, hn, hsub i _ hm⟩

theorem Causal.forward {a b : State} (h : Extends a b) {ctx ev : List Event}
    (hc : Causal a ctx ev) : Causal b ctx ev := by
  constructor
  · intro i n hi
    exact (hc.enters i n hi).onward h
  · intro i p hi
    obtain ⟨n, hn, hm⟩ := hc.actions i p hi
    exact ⟨n, h.taskMap ▸ hn, hm⟩

theorem Causal.backward {a b : State} (h : Extends a b) {ctx ev : List Event}
    (hc : Causal b ctx ev) : Causal a ctx ev := by
  constructor
  · intro i n hi
    exact (hc.enters i n hi).back h
  · intro i p hi
    obtain ⟨n, hn, hm⟩ := hc.actions i p hi
    exact ⟨n, h.taskMap ▸ hn, hm⟩

theorem Causal.append {s : State} {ctx ev1 ev2 : List Event} (h1 : Causal s ctx ev1)
    (h2 : Causal s (ctx ++ ev1) ev2) : Causal s ctx (ev1 ++ ev2) := by
  have hleft : ∀ i, i < ev1.length → (ev1 ++ ev2)[i]? = ev1[i]? ∧
      (ev1 ++ ev2).take i = ev1.take i := by
    intro i hlt
    exact ⟨List.getElem?_append_left hlt, List.take_append_of_le_length (Nat.le_of_lt hlt)⟩
  have hright : ∀ i, ev1.length ≤ i → (ev1 ++ ev2)[i]? = ev2[i - ev1.length]? ∧
      ctx ++ (ev1 ++ ev2).take i = (ctx ++ ev1) ++ ev2.take (i - ev1.length) := by
    intro i hge
    refine ⟨List.getElem?_append_right hge, ?_⟩
    rw [List.take_append_eq_append_take, List.take_of_length_le hge, List.append_assoc]
  constructor
  · intro i n hi
    rcases Nat.lt_or_ge i ev1.length with hlt | hge
    · rw [(hleft i hlt).1] at hi
      rw [(hleft i hlt).2]
      exact h1.enters i n hi
    · rw [(hright i hge).1] at hi
      rw [(hright i hge).2]
      exact h2.enters _ n hi
  · intro i p hi
    rcases Nat.lt_or_ge i ev1.length with hlt | hge
    · rw [(hleft i hlt).1] at hi
      rw [(hleft i hlt).2]
      exact h1.actions i p hi
    · rw [(hright i hge).1] at hi
      rw [(hright i hge).2]
      exact h2.actions _ p hi

theorem Causal.enter {s : State} {ctx : List Event} {n : String}
    (hj : EnterJustified s ctx n) : Causal s ctx [Event.enter n] := by
  constructor
  · intro i m hi
    cases i with
    | zero =>
      simp only [List.getElem?_cons_zero, Option.some.injEq, Event.enter.injEq] at hi
      subst hi
      exact hj.more (fun e he => List.mem_append_left _ he)
    | succ i => simp at hi
  · intro i p hi
    cases i with
    | zero => simp at hi
    | succ i => simp at hi

theorem Causal.action {s : State} {ctx : List Event} {n : String} {p : Nat}
    (hn : s.taskMap.lookup n = some p) (hm : Event.enter n ∈ ctx) :
    Causal s ctx [Event.action p] := by
  constructor
  · intro i m hi
    cases i with
    | zero => simp at hi
    | succ i => simp at hi
  · intro i q hi
    cases i with
    | zero =>
      simp only [List.getElem?_cons_zero, Option.some.injEq, Event.action.injEq] at hi
      subst hi
      exact ⟨n, hn, List.mem_append_left _ hm⟩
    | succ i => simp at hi

/-- The events of a call, seen from a context in which the call is justified. -/
theorem CausalRun.causal {s : State} {ctx ev : List Event} {n : String}
    (h : CausalRun s n ev) (hj : EnterJustified s ctx n) : Causal s ctx ev := by
  rcases h with rfl | ⟨rest, rfl, hrest⟩
  · exact Causal.empty s ctx
  · have h1 : Causal s ctx [Event.enter n] := Causal.enter hj
    have h2 : Causal s (ctx ++ [Event.enter n]) rest :=
      hrest.widen (fun e he => List.mem_append_right _ he)
    exact h1.append h2

theorem runEach_causal (run : String → State → State × Res)
    (hext : ∀ n s, Extends s (run n s).1)
    (h : ∀ n s, CausalRun s n (s.newEvents (run n s).1))
    (ns : List String) (s : State) (ctx : List Event)
    (hJ : ∀ n ∈ ns, EnterJustified s ctx n) :
    Causal s ctx (s.newEvents (runEach run ns s).1) := by
  induction ns generalizing s ctx with
  | nil =>
    simp only [runEach, newEvents_self]
    exact Causal.empty s ctx
  | cons n ns ih =>
    have h1 : Causal s ctx (s.newEvents (run n s).1) :=
      (h n s).causal (hJ n (List.mem_cons_self _ _))
    rw [runEach_cons]
    split
    · have hab := hext n s
      have hbc := runEach_ext run hext ns (run n s).1
      rw [hab.newEvents_trans hbc]
      refine h1.append (Causal.backward hab (ih (run n s).1 _ ?_))
      intro m hm
      exact ((hJ m (List.mem_cons_of_mem _ hm)).onward hab).more
        (fun e he => List.mem_append_left _ he)
    · exact h1

theorem RunTarget_causal (fuel : Nat) (target : String) (s : State) :
    CausalRun s target (s.newEvents (RunTarget fuel target s).1) := by
  induction fuel generalizing target s with
  | zero => left; simp [RunTarget, newEvents_self]
  | succ fuel ih =>
    right
    rw [RunTarget_succ]
    have h0 := Extends.emit s (Event.enter target)
    have hn0 := newEvents_emit s (Event.enter target)
    split
    · exact ⟨[], hn0, Causal.empty _ _⟩
    · next p currentTask hl =>
      have hl0 : s.lookupTask target = some (p, currentTask) := hl
      have hcur := lookupTask_eq_some.mp hl0
      split
      · exact ⟨[], hn0, Causal.empty _ _⟩
      · simp only
        have e1 := runEach_ext (RunTarget fuel) (RunTarget_ext fuel) currentTask.dependencies
          (s.emit (Event.enter target))
        have c1 : Causal s [Event.enter target] ((s.emit (Event.enter target)).newEvents
            (runEach (RunTarget fuel) currentTask.dependencies
              (s.emit (Event.enter target))).1) := by
          refine Causal.backward h0 (runEach_causal (RunTarget fuel) (RunTarget_ext fuel) ih
            currentTask.dependencies _ _ ?_)
          intro d hd
          exact ⟨target, p, currentTask, hl, List.mem_singleton_self _, Or.inl hd⟩
        have n1 : s.newEvents (runEach (RunTarget fuel) currentTask.dependencies
              (s.emit (Event.enter target))).1 =
            Event.enter target :: (s.emit (Event.enter target)).newEvents
              (runEach (RunTarget fuel) currentTask.dependencies
                (s.emit (Event.enter target))).1 := by
          rw [h0.newEvents_trans e1, hn0]; rfl
        split
        · have e2 := runTask_ext (runEach (RunTarget fuel) currentTask.dependencies
              (s.emit (Event.enter target))).1 p currentTask
          have c2 : Causal s ([Event.enter target] ++ (s.emit (Event.enter target)).newEvents
              (runEach (RunTarget fuel) currentTask.dependencies
                (s.emit (Event.enter target))).1) [Event.action p] :=
            Causal.action hcur.1 (List.mem_append_left _ (List.mem_singleton_self _))
          have n2 : s.newEvents ((runEach (RunTarget fuel) currentTask.dependencies
                (s.emit (Event.enter target))).1.runTask p currentTask).1 =
              Event.enter target :: ((s.emit (Event.enter target)).newEvents
                (runEach (RunTarget fuel) currentTask.dependencies
                  (s.emit (Event.enter target))).1 ++ [Event.action p]) := by
            rw [(h0.trans e1).newEvents_trans e2, n1, newEvents_runTask]; rfl
          split
          · exact ⟨_, n2, c1.append c2⟩
          · next herr =>
            have e3 := runEach_ext (RunTarget fuel) (RunTarget_ext fuel) currentTask.dependees
              ((runEach (RunTarget fuel) currentTask.dependencies
                (s.emit (Event.enter target))).1.runTask p currentTask).1
            have hadj : currentTask.adjustedErr = none := by
              rcases e1.heap p currentTask hcur.2 with h' | h'
              · rw [← runTask_err _ p currentTask currentTask h']; exact herr
              · rw [← adjustedErr_finished, ← runTask_err _ p currentTask _ h']; exact herr
            have c3 := runEach_causal (RunTarget fuel) (RunTarget_ext fuel) ih
              currentTask.dependees ((runEach (RunTarget fuel) currentTask.dependencies
                (s.emit (Event.enter target))).1.runTask p currentTask).1
              ([Event.enter target] ++ ((s.emit (Event.enter target)).newEvents
                (runEach (RunTarget fuel) currentTask.dependencies
                  (s.emit (Event.enter target))).1 ++ [Event.action p]))
              (by
                intro d hd
                refine EnterJustified.onward ((h0.trans e1).trans e2)
                  ⟨target, p, currentTask, hl0, List.mem_append_left _
                    (List.mem_singleton_self _), Or.inr ⟨hd, ?_, hadj⟩⟩
                exact List.mem_append_right _ (List.mem_append_right _
                  (List.mem_singleton_self _)))
            refine ⟨_, ?_, (c1.append c2).append (Causal.backward ((h0.trans e1).trans e2) c3)⟩
            rw [((h0.trans e1).trans e2).newEvents_trans e3, n2]; rfl
        · exact ⟨_, n1, c1⟩

/-- In a run from a fresh state an entry of `RunTarget` is the initial call or is
justified by the events before it. -/
theorem RunTarget_enter_justified {s : State} (hfresh : Fresh s) (fuel : Nat)
    (target : String) (j : Nat) (D : String)
    (hj : (RunTarget fuel target s).1.events[j]? = some (Event.enter D)) :
    (j = 0 ∧ D = target) ∨
      EnterJustified s ((RunTarget fuel target s).1.events.take j) D := by
  have hC := RunTarget_causal fuel target s
  have hnew : s.newEvents (RunTarget fuel target s).1 = (RunTarget fuel target s).1.events := by
    simp [State.newEvents, hfresh.2.1]
  rw [hnew] at hC
  rcases hC with h | ⟨rest, h, hc⟩
  · rw [h] at hj; simp at hj
  · rw [h] at hj ⊢
    cases j with
    | zero =>
      simp only [List.getElem?_cons_zero, Option.some.injEq, Event.enter.injEq] at hj
      exact Or.inl ⟨rfl, hj.symm⟩
    | succ j =>
      simp only [List.getElem?_cons_succ] at hj
      exact Or.inr (hc.enters j D hj)

/-- In a run from a fresh state the action of a task object is invoked after an
entry of `RunTarget` for a name it is registered under. -/
theorem RunTarget_action_entered {s : State} (hfresh : Fresh s) (fuel : Nat)
    (target : String) (i pd : Nat)
    (hi : (RunTarget fuel target s).1.events[i]? = some (Event.action pd)) :
    ∃ D, s.taskMap.lookup D = some pd ∧
      Event.enter D ∈ (RunTarget fuel target s).1.events.take i := by
  have hC := RunTarget_causal fuel target s
  have hnew : s.newEvents (RunTarget fuel target s).1 = (RunTarget fuel target s).1.events := by
    simp [State.newEvents, hfresh.2.1]
  rw [hnew] at hC
  rcases hC with h | ⟨rest, h, hc⟩
  · rw [h] at hi; simp at hi
  · rw [h] at hi ⊢
    cases i with
    | zero => simp at hi
    | succ i =>
      simp only [List.getElem?_cons_succ] at hi
      exact hc.actions i pd hi
/-! ## A run that returns nil has walked every edge -/

theorem Closed.after {a b : State} {c : State × Res} (hab : Extends a b) (hbc : Extends b c.1)
    (hg : Good b) (h1 : Closed a (b, Res.ret none)) (h2 : Closed b c) : Closed a c := by
  intro hres p t hp ht d hd
  rw [hab.newRuns_trans hbc, List.mem_append] at hp
  rcases hp with hp | hp
  · have hpb : p ∈ b.taskRun := by
      rw [hab.taskRun_eq]; exact List.mem_append_right _ hp
    obtain ⟨t1, ht1, hd1⟩ := hg.history p hpb
    have hsame := hg.persist hbc ht1 hd1
    rw [ht] at hsame
    cases hsame
    obtain ⟨pd, td, hl, hdr, herr⟩ := h1 rfl p t hp ht1 d hd
    exact ⟨pd, td, hg.persist_lookup hbc hl hdr, hdr, herr⟩
  · exact h2 hres p t hp ht d hd

theorem runEach_closed (run : String → State → State × Res)
    (hext : ∀ n s, Extends s (run n s).1)
    (h : ∀ n s, Good s → Sound [n] s (run n s) ∧ Done [n] (run n s))
    (hc : ∀ n s, Good s → Closed s (run n s))
    (ns : List String) (s : State) (hg : Good s) : Closed s (runEach run ns s) := by
  induction ns generalizing s with
  | nil =>
    intro _ p t hp
    simp [runEach, newRuns_self] at hp
  | cons n ns ih =>
    rw [runEach_cons]
    split
    · next hr =>
      have h1 : Closed s ((run n s).1, Res.ret none) := by rw [← hr]; exact hc n s hg
      exact h1.after (hext n s) (runEach_ext run hext ns _) (h n s hg).1.good
        (ih _ (h n s hg).1.good)
    · exact hc n s hg

theorem RunTarget_closed (fuel : Nat) (target : String) (s : State) (hg : Good s) :
    Closed s (RunTarget fuel target s) := by
  induction fuel generalizing target s with
  | zero => intro h; simp [RunTarget] at h
  | succ fuel ih =>
    rw [RunTarget_succ]
    have h0 := Extends.emit s (Event.enter target)
    have c0 : Closed s (s.emit (Event.enter target), Res.ret none) := by
      intro _ q t hq
      simp [newRuns_emit] at hq
    split
    · intro h; simp at h
    · next p currentTask hl =>
      have hcur := lookupTask_eq_some.mp hl
      split
      · intro _ q t hq
        simp [newRuns_emit] at hq
      · simp only
        have e1 := runEach_ext (RunTarget fuel) (RunTarget_ext fuel) currentTask.dependencies
          (s.emit (Event.enter target))
        obtain ⟨hB, hdB⟩ := runEach_sound (RunTarget fuel) (RunTarget_ext fuel)
          (RunTarget_sound fuel) currentTask.dependencies (s.emit (Event.enter target))
          (hg.afterEnter target)
        have c1 := runEach_closed (RunTarget fuel) (RunTarget_ext fuel)
          (RunTarget_sound fuel) ih currentTask.dependencies (s.emit (Event.enter target))
          (hg.afterEnter target)
        split
        · next hd =>
          have c1' : Closed (s.emit (Event.enter target))
              ((runEach (RunTarget fuel) currentTask.dependencies
                (s.emit (Event.enter target))).1, Res.ret none) := by rw [← hd]; exact c1
          obtain ⟨t1, ht1, hdep1, -⟩ := e1.static hcur.2
          have hl1 : (runEach (RunTarget fuel) currentTask.dependencies
                (s.emit (Event.enter target))).1.lookupTask target = some (p, t1) := by
            rw [lookupTask_eq_some]
            exact ⟨e1.taskMap ▸ hcur.1, ht1⟩
          obtain ⟨hC, -⟩ := runTask_sound hB.good target p currentTask t1 hl1
            (by rw [hdep1]; exact hdB hd)
          have e2 := runTask_ext (runEach (RunTarget fuel) currentTask.dependencies
                (s.emit (Event.enter target))).1 p currentTask
          split
          · intro h; simp at h
          · have e3 := runEach_ext (RunTarget fuel) (RunTarget_ext fuel) currentTask.dependees
              ((runEach (RunTarget fuel) currentTask.dependencies
                (s.emit (Event.enter target))).1.runTask p currentTask).1
            obtain ⟨-, hdD⟩ := runEach_sound (RunTarget fuel) (RunTarget_ext fuel)
              (RunTarget_sound fuel) currentTask.dependees _ hC.good
            have c3 := runEach_closed (RunTarget fuel) (RunTarget_ext fuel)
              (RunTarget_sound fuel) ih currentTask.dependees _ hC.good
            have c13 : Closed (runEach (RunTarget fuel) currentTask.dependencies
                (s.emit (Event.enter target))).1
                (runEach (RunTarget fuel) currentTask.dependees
                  ((runEach (RunTarget fuel) currentTask.dependencies
                    (s.emit (Event.enter target))).1.runTask p currentTask).1) := by
              intro hres q t hq ht d hd'
              rw [e2.newRuns_trans e3, newRuns_runTask, List.mem_append,
                List.mem_singleton] at hq
              rcases hq with rfl | hq
              · obtain ⟨u, hu, -, hdee⟩ := ((e1.trans e2).trans e3).static hcur.2
                rw [ht] at hu
                cases hu
                exact hdD hres d (hdee ▸ hd')
              · exact c3 hres q t hq ht d hd'
            exact c0.after h0 (e1.trans (e2.trans e3)) (hg.afterEnter target)
              (c1'.after e1 (e2.trans e3) hB.good c13)
        · next hd =>
          intro hres
          exact absurd hres hd

/-- When a run from a fresh state returns nil, every name that can be reached from
the target along dependency and dependee edges is registered to a task object that
has run and has a nil stored error. -/
theorem RunTarget_reaches_all {s : State} (hfresh : Fresh s) {fuel : Nat} {target : String}
    (hres : (RunTarget fuel target s).2 = Res.ret none) {n : String}
    (hreach : Relation.ReflTransGen (Edge s) target n) :
    ∃ p t, (RunTarget fuel target s).1.lookupTask n = some (p, t) ∧ t.didRun = true ∧
      t.err = none := by
  obtain ⟨hS, hD⟩ := RunTarget_sound fuel target s hfresh.good
  have hE := RunTarget_ext fuel target s
  have hC := RunTarget_closed fuel target s hfresh.good
  induction hreach with
  | refl => exact hD hres target (List.mem_singleton_self _)
  | tail _ hbc ih =>
    obtain ⟨pb, tb, hlb, hdb, -⟩ := ih
    obtain ⟨p, t, hl, hmem⟩ := hbc
    obtain ⟨t0, hl0, hdep, hdee, -⟩ := hE.registered_back hlb
    rw [hl] at hl0
    cases hl0
    have hrun : pb ∈ (RunTarget fuel target s).1.taskRun :=
      hS.good.ran pb tb (lookupTask_eq_some.mp hlb).2 hdb
    rcases hmem with hmem | hmem
    · obtain ⟨i, hi⟩ := List.mem_iff_getElem?.mp hrun
      obtain ⟨pd, td, hld, hdd, hed, -⟩ := hS.good.ordered i pb tb hi
        (lookupTask_eq_some.mp hlb).2 _ (hdep ▸ hmem)
      exact ⟨pd, td, hld, hdd, hed⟩
    · have hnew : pb ∈ s.newRuns (RunTarget fuel target s).1 := by
        have := hE.taskRun_eq
        rw [hfresh.1, List.nil_append] at this
        rw [← this]
        exact hrun
      exact hC hres pb tb hnew (lookupTask_eq_some.mp hlb).2 _ (hdee ▸ hmem)

/-- In a state satisfying the invariant, an entry of the run history for a task
comes after an entry for each task it depends on, directly or indirectly. -/
theorem Good.descent {s out : State} (hE : Extends s out) (hg : Good out) {a c : String}
    (h : Relation.TransGen (DepEdge s) a c) :
    ∀ (i pc : Nat) (tc : TaskObject), out.taskRun[i]? = some pc →
      out.lookupTask c = some (pc, tc) →
      ∃ j pa ta, j < i ∧ out.taskRun[j]? = some pa ∧ out.lookupTask a = some (pa, ta) := by
  have step : ∀ a c, DepEdge s a c → ∀ (i pc : Nat) (tc : TaskObject),
      out.taskRun[i]? = some pc → out.lookupTask c = some (pc, tc) →
      ∃ j pa ta, j < i ∧ out.taskRun[j]? = some pa ∧ out.lookupTask a = some (pa, ta) := by
    intro a c hac i pc tc hi hlc
    obtain ⟨p, t, hl, hmem⟩ := hac
    obtain ⟨t0, hl0, hdep, -, -⟩ := hE.registered_back hlc
    rw [hl] at hl0
    cases hl0
    obtain ⟨pa, ta, hla, -, -, hpa⟩ := hg.ordered i pc tc hi (lookupTask_eq_some.mp hlc).2 a
      (hdep ▸ hmem)
    obtain ⟨j, hj, hja⟩ := exists_getElem?_of_mem_take hpa
    exact ⟨j, pa, ta, hj, hja, hla⟩
  induction h with
  | single hac => exact step _ _ hac
  | tail _ hbc ih =>
    intro i pc tc hi hlc
    obtain ⟨j, pb, tb, hj, hjb, hlb⟩ := step _ _ hbc i pc tc hi hlc
    obtain ⟨j', pa, ta, hj', hja, hla⟩ := ih j pb tb hjb hlb
    exact ⟨j', pa, ta, Nat.lt_trans hj' hj, hja, hla⟩

/-- In a run from a fresh state the action of a task that is on a cycle of
dependency edges, or depends on a task on such a cycle, is never invoked. -/
theorem Doomed.never_runs {s : State} (hfresh : Fresh s) (fuel : Nat) (target : String)
    {k : String} {p : Nat} (hk : s.taskMap.lookup k = some p) (hd : Doomed s k) :
    Event.action p ∉ (RunTarget fuel target s).1.events := by
  intro hact
  obtain ⟨hS, -⟩ := RunTarget_sound fuel target s hfresh.good
  have hE := RunTarget_ext fuel target s
  have hg := hS.good
  have hrun := (hg.logged p).mp hact
  obtain ⟨t, ht, -⟩ := hg.history p hrun
  have hlk : (RunTarget fuel target s).1.lookupTask k = some (p, t) :=
    lookupTask_eq_some.mpr ⟨hE.taskMap ▸ hk, ht⟩
  obtain ⟨i, hi⟩ := List.mem_iff_getElem?.mp hrun
  obtain ⟨m, hmk, hmm⟩ := hd
  -- the history holds an entry for the member `m` of the cycle
  have hm : ∃ (j pm : Nat) (tm : TaskObject),
      (RunTarget fuel target s).1.taskRun[j]? = some pm ∧
      (RunTarget fuel target s).1.lookupTask m = some (pm, tm) := by
    rcases Relation.reflTransGen_iff_eq_or_transGen.mp hmk with h | h
    · subst h
      exact ⟨i, p, t, hi, hlk⟩
    · obtain ⟨j, pm, tm, -, hj, hl⟩ := hg.descent hE h i p t hi hlk
      exact ⟨j, pm, tm, hj, hl⟩
  obtain ⟨j, pm, tm, hj, hl⟩ := hm
  -- and before each such entry there is another one
  have hnone : ∀ (j pm : Nat) (tm : TaskObject),
      (RunTarget fuel target s).1.taskRun[j]? = some pm →
      (RunTarget fuel target s).1.lookupTask m = some (pm, tm) → False := by
    intro j
    induction j using Nat.strong_induction_on with
    | _ j ih =>
      intro pm tm hj hl
      obtain ⟨j', pm', tm', hlt, hj', hl'⟩ := hg.descent hE hmm j pm tm hj hl
      exact ih j' hlt pm' tm' hj' hl'
  exact hnone j pm tm hj hl

/-- In a run from a fresh state `RunTarget` is entered only for names that can be
reached from the target along dependency and dependee edges. -/
theorem RunTarget_entered_reachable {s : State} (hfresh : Fresh s) (fuel : Nat)
    (target : String) :
    ∀ (j : Nat) (D : String), (RunTarget fuel target s).1.events[j]? = some (Event.enter D) →
      Relation.ReflTransGen (Edge s) target D := by
  intro j
  induction j using Nat.strong_induction_on with
  | _ j ih =>
    intro D hj
    rcases RunTarget_enter_justified hfresh fuel target j D hj with ⟨-, h⟩ |
      ⟨k, p, t, hl, hk, hedge⟩
    · rw [h]
    · obtain ⟨i, hi, hik⟩ := exists_getElem?_of_mem_take hk
      refine Relation.ReflTransGen.tail (ih i hi k hik) ⟨p, t, hl, ?_⟩
      rcases hedge with hd | ⟨hd, -, -⟩
      · exact Or.inl hd
      · exact Or.inr hd

/-- Every name reachable from the target along dependency and dependee edges is in
the list `L`, when `L` holds the target and, with every registered name, the names
its task object lists. -/
theorem reachable_mem (s : State) (L : List String) (target : String) (ht : target ∈ L)
    (hcl : s.allRegistered (fun k _ t => decide (k ∈ L →
      ∀ d ∈ t.dependencies ++ t.dependees, d ∈ L)) = true) (k : String)
    (h : Relation.ReflTransGen (Edge s) target k) : k ∈ L := by
  induction h with
  | refl => exact ht
  | tail _ hbc ih =>
    obtain ⟨p, t, hl, hmem⟩ := hbc
    have := of_decide_eq_true (allRegistered_sound s _ hcl _ p t hl) ih
    exact this _ (List.mem_append.mpr hmem)
/-! ## Walks that no error can stop -/

theorem Doomed.dependency {s : State} {k : String} (h : Doomed s k) :
    ∃ p t d, s.lookupTask k = some (p, t) ∧ d ∈ t.dependencies ∧ Doomed s d := by
  obtain ⟨m, hmk, hmm⟩ := h
  rcases Relation.ReflTransGen.cases_tail hmk with h | ⟨b, hmb, hbk⟩
  · subst h
    obtain ⟨b, hkb, hbk⟩ := Relation.TransGen.tail'_iff.mp hmm
    obtain ⟨p, t, hl, hd⟩ := hbk
    exact ⟨p, t, b, hl, hd, k, hkb, hmm⟩
  · obtain ⟨p, t, hl, hd⟩ := hbk
    exact ⟨p, t, b, hl, hd, m, hmb, hmm⟩

theorem runEach_append (run : String → State → State × Res) (l1 l2 : List String)
    (s : State) :
    runEach run (l1 ++ l2) s =
      if (runEach run l1 s).2 = Res.ret none then runEach run l2 (runEach run l1 s).1
      else runEach run l1 s := by
  induction l1 generalizing s with
  | nil => simp [runEach]
  | cons n l1 ih =>
    rw [List.cons_append, runEach_cons, runEach_cons]
    by_cases h : (run n s).2 = Res.ret none
    · rw [if_pos h, if_pos h]; exact ih _
    · rw [if_neg h, if_neg h, if_neg h]

/-- The loop over names of `L`: it runs out of fuel, or it returns nil, none of the
names is `Doomed` and no task object has come to harm. -/
theorem runEach_walk (s : State) (L : String → Prop) (run : String → State → State × Res)
    (hext : ∀ n s', Extends s' (run n s').1)
    (hrun : ∀ n s', Extends s s' → Unharmed s s' → L n →
      (run n s').2 = Res.timeout ∨
        ((run n s').2 = Res.ret none ∧ ¬ Doomed s n ∧ Unharmed s (run n s').1))
    (ns : List String) (s' : State) (hs' : Extends s s') (hinv : Unharmed s s')
    (hL : ∀ x ∈ ns, L x) :
    (runEach run ns s').2 = Res.timeout ∨
      ((runEach run ns s').2 = Res.ret none ∧ (∀ x ∈ ns, ¬ Doomed s x) ∧
        Unharmed s (runEach run ns s').1) := by
  induction ns generalizing s' with
  | nil => exact Or.inr ⟨rfl, fun x hx => by simp at hx, hinv⟩
  | cons n ns ih =>
    rw [runEach_cons]
    rcases hrun n s' hs' hinv (hL n (List.mem_cons_self _ _)) with h | ⟨h, hn, hinv1⟩
    · rw [if_neg (by rw [h]; simp)]
      exact Or.inl h
    · rw [if_pos h]
      rcases ih (run n s').1 (hs'.trans (hext n s')) hinv1
        (fun x hx => hL x (List.mem_cons_of_mem _ hx)) with h2 | ⟨h2, hns, hinv2⟩
      · exact Or.inl h2
      · refine Or.inr ⟨h2, ?_, hinv2⟩
        intro x hx
        rcases List.mem_cons.mp hx with rfl | hx
        · exact hn
        · exact hns x hx

/-- The loop over a list that holds a `Doomed` name, after names of `L`, runs out of
fuel. -/
theorem runEach_walk_doomed (s : State) (L : String → Prop)
    (run : String → State → State × Res)
    (hext : ∀ n s', Extends s' (run n s').1)
    (hrun : ∀ n s', Extends s s' → Unharmed s s' → L n →
      (run n s').2 = Res.timeout ∨
        ((run n s').2 = Res.ret none ∧ ¬ Doomed s n ∧ Unharmed s (run n s').1))
    (l1 : List String) (d : String) (l2 : List String) (s' : State) (hs' : Extends s s')
    (hinv : Unharmed s s') (hL : ∀ x ∈ l1, L x) (hd : L d) (hdoomed : Doomed s d) :
    (runEach run (l1 ++ d :: l2) s').2 = Res.timeout := by
  rw [runEach_append]
  rcases runEach_walk s L run hext hrun l1 s' hs' hinv hL with h | ⟨h, -, hinv1⟩
  · rw [if_neg (by rw [h]; simp)]
    exact h
  · rw [if_pos h, runEach_cons]
    rcases hrun d _ (hs'.trans (runEach_ext run hext l1 s')) hinv1 hd with h2 | ⟨-, h2, -⟩
    · rw [if_neg (by rw [h2]; simp)]
      exact h2
    · exact absurd hdoomed h2

/-- From a name of a set that is `WalkClosed`, `RunTarget` runs out of fuel, or it
returns nil and the name is not `Doomed`. -/
theorem RunTarget_walk (s : State) (L : String → Prop) (hL : WalkClosed s L) (fuel : Nat) :
    ∀ (k : String) (s' : State), Extends s s' → Unharmed s s' → L k →
      (RunTarget fuel k s').2 = Res.timeout ∨
        ((RunTarget fuel k s').2 = Res.ret none ∧ ¬ Doomed s k ∧
          Unharmed s (RunTarget fuel k s').1) := by
  induction fuel with
  | zero => intro k s' _ _ _; exact Or.inl rfl
  | succ fuel ih =>
    intro k s' hs' hinv hk
    obtain ⟨p, t0, hl0, hwalk⟩ := hL k hk
    have h0 := Extends.emit s' (Event.enter k)
    have hs0 := hs'.trans h0
    -- the task object of `k` in the current state
    obtain ⟨t, hl, hdep, hdee, hadj⟩ : ∃ t, (s'.emit (Event.enter k)).lookupTask k =
        some (p, t) ∧ t.dependencies = t0.dependencies ∧ t.dependees = t0.dependees ∧
        t.adjustedErr = t0.adjustedErr := by
      rcases hs0.lookupTask_some hl0 with h | h
      · exact ⟨t0, h, rfl, rfl, rfl⟩
      · exact ⟨t0.finished, h, rfl, rfl, adjustedErr_finished t0⟩
    have hcur := lookupTask_eq_some.mp hl
    rw [RunTarget_succ, hl]
    simp only
    split
    · next hdid =>
      obtain ⟨herr, hnd⟩ := hinv k p t hl hdid
      exact Or.inr ⟨by rw [herr], hnd, hinv⟩
    · have e1 := runEach_ext (RunTarget fuel) (RunTarget_ext fuel) t.dependencies
        (s'.emit (Event.enter k))
      rcases hwalk with ⟨l1, d, l2, hsplit, hl1, hd, hdoomed⟩ | ⟨hdeps, hok, hdees⟩
      · have hto := runEach_walk_doomed s L (RunTarget fuel) (RunTarget_ext fuel) ih l1 d l2
          (s'.emit (Event.enter k)) hs0 hinv hl1 hd hdoomed
        rw [← hsplit, ← hdep] at hto
        rw [if_neg (by rw [hto]; simp)]
        exact Or.inl hto
      · rcases runEach_walk s L (RunTarget fuel) (RunTarget_ext fuel) ih t.dependencies
          (s'.emit (Event.enter k)) hs0 hinv (by rw [hdep]; exact hdeps) with
          hto | ⟨hnil, hnd, hinv1⟩
        · rw [if_neg (by rw [hto]; simp)]
          exact Or.inl hto
        · rw [if_pos hnil]
          have e2 := runTask_ext (runEach (RunTarget fuel) t.dependencies
            (s'.emit (Event.enter k))).1 p t
          -- the task object of `k` after the loop over the dependencies
          obtain ⟨t1, ht1, hadj1⟩ : ∃ t1, (runEach (RunTarget fuel) t.dependencies
              (s'.emit (Event.enter k))).1.heap[p]? = some t1 ∧
              t1.adjustedErr = t0.adjustedErr := by
            rcases e1.heap p t hcur.2 with h | h
            · exact ⟨t, h, hadj⟩
            · exact ⟨t.finished, h, (adjustedErr_finished t).trans hadj⟩
          have herr : ((runEach (RunTarget fuel) t.dependencies
              (s'.emit (Event.enter k))).1.runTask p t).2 = none := by
            rw [runTask_err _ p t t1 ht1, hadj1, hok]
          have hkd : ¬ Doomed s k := by
            intro hdk
            obtain ⟨p', t', d, hl', hd', hdd⟩ := hdk.dependency
            rw [hl0] at hl'
            cases hl'
            exact hnd d (by rw [hdep]; exact hd') hdd
          -- no task object has come to harm by the action
          have hinv2 : Unharmed s ((runEach (RunTarget fuel) t.dependencies
              (s'.emit (Event.enter k))).1.runTask p t).1 := by
            intro k' p' t' hl' hdid'
            obtain ⟨h1, h2⟩ := lookupTask_eq_some.mp hl'
            by_cases hpp : p = p'
            · subst hpp
              rw [runTask_heap_self _ p t t1 ht1] at h2
              cases h2
              refine ⟨by rw [finished_err, hadj1, hok], ?_⟩
              intro hdk
              obtain ⟨p', t', d, hlk, hd', hdd⟩ := hdk.dependency
              have hp' : p' = p := by
                have := (lookupTask_eq_some.mp hlk).1
                rw [← ((hs0.trans e1).trans e2).taskMap, h1] at this
                exact (Option.some.inj this).symm
              subst hp'
              have ht' : t' = t0 := by
                have := (lookupTask_eq_some.mp hlk).2
                rw [(lookupTask_eq_some.mp hl0).2] at this
                exact (Option.some.inj this).symm
              subst ht'
              exact hnd d (by rw [hdep]; exact hd') hdd
            · rw [runTask_heap_other _ p p' t hpp] at h2
              exact hinv1 k' p' t' (lookupTask_eq_some.mpr ⟨h1, h2⟩) hdid'
          rw [herr]
          simp only
          have hs2 := (hs0.trans e1).trans e2
          rcases hdees with hall | ⟨l1, d, l2, hsplit, hl1, hd, hdoomed⟩
          · rcases runEach_walk s L (RunTarget fuel) (RunTarget_ext fuel) ih t.dependees _
              hs2 hinv2 (by rw [hdee]; exact hall) with hto | ⟨hnil', -, hinv3⟩
            · exact Or.inl hto
            · exact Or.inr ⟨hnil', hkd, hinv3⟩
          · have hto := runEach_walk_doomed s L (RunTarget fuel) (RunTarget_ext fuel) ih l1 d
              l2 _ hs2 hinv2 hl1 hd hdoomed
            rw [← hsplit, ← hdee] at hto
            exact Or.inl hto

theorem Fresh.unharmed {s : State} (h : Fresh s) : Unharmed s s := by
  intro k p t hl hd
  have := (h.2.2 t (List.getElem?_mem (lookupTask_eq_some.mp hl).2)).1
  rw [hd] at this
  cases this
/-! ## C1: run-once -/

/-- C1: in the registry where `T` depends on `B` and `B` lists `T` as a dependee,
`RunTarget("T")` terminates with nil, yet the action of `T` (the task object at
pointer 0) is invoked twice and `T` is appended to the run history twice. -/
theorem C1_action_runs_twice :
    (RunTarget 4 "T" bothWays).2 = Res.ret none ∧
    (RunTarget 4 "T" bothWays).1.events.count (Event.action 0) = 2 ∧
    (RunTarget 4 "T" bothWays).1.taskRun = [1, 0, 0] ∧
    bothWays.taskMap.lookup "T" = some 0 ∧ bothWays.taskRun = [] ∧
    bothWays.heap.all (fun t => !t.didRun) = true := by
  decide

/-! ## C2: fail-fast -/

/-- C2, as stated, fails: in the fresh registry `spinning` the task `A` lists `B`
among its dependencies, `B` has no error-policy flag and its action fails, but
`RunTarget("A")` does not return, whatever the recursion bound: the dependency
`spin`, which comes before `B`, depends on itself. -/
theorem C2_does_not_return :
    Fresh spinning ∧
      spinning.lookupTask "A" = some (0, spinning.heap.getD 0 doneTask) ∧
      "B" ∈ (spinning.heap.getD 0 doneTask).dependencies ∧
      (spinning.lookupTask "B").map
          (fun x => (x.2.continueOnError, x.2.deferOnError, runTaskFunc x.2)) =
        some (false, false, some (GoError.errorString "boom")) ∧
      ∀ fuel, (RunTarget fuel "A" spinning).2 = Res.timeout := by
  refine ⟨by unfold Fresh; decide, by decide, by decide, by decide, ?_⟩
  intro fuel
  cases fuel with
  | zero => rfl
  | succ fuel =>
    exact RunTarget_first_dependency "A" "spin" 0 (spinning.heap.getD 0 doneTask) ["B"]
      spinning fuel (by decide) (by decide) (by decide)
      (RunTarget_self_dependency "spin" 1 (spinning.heap.getD 1 doneTask) [] (by decide)
        (by decide) fuel _ (by decide))

/-- C2, amended: for every fresh state in which task `A` lists `B` among its
dependencies, `B` has neither `continueOnError` nor `deferOnError` and the action
of `B` fails with error `e`: at no point of the run of `RunTarget(A)` is the
action of `A` invoked (`A` is not appended to the run history and its task
object stays as it was, with `didRun` false), and `RunTarget(A)` never returns
nil; once the action of `B` has run, `RunTarget(A)` returns exactly `e`; and when
the dependency edges contain no cycle, `RunTarget(A)` does return, with a
non-nil error. -/
theorem C2_fail_fast (s : State) (A B : String) (pa pb : Nat) (a b : TaskObject) (e : GoError)
    (hfresh : Fresh s) (hA : s.lookupTask A = some (pa, a))
    (hB : s.lookupTask B = some (pb, b)) (hdep : B ∈ a.dependencies)
    (hc : b.continueOnError = false) (hd : b.deferOnError = false)
    (he : runTaskFunc b = some e) :
    (∀ fuel, (RunTarget fuel A s).2 ≠ Res.ret none ∧
        Event.action pa ∉ (RunTarget fuel A s).1.events ∧
        pa ∉ (RunTarget fuel A s).1.taskRun ∧
        (RunTarget fuel A s).1.heap[pa]? = some a ∧ a.didRun = false ∧
        (pb ∈ (RunTarget fuel A s).1.taskRun → (RunTarget fuel A s).2 = Res.ret (some e))) ∧
      (DepAcyclic s → ∃ fuel e', (RunTarget fuel A s).2 = Res.ret (some e')) := by
  have hA' := lookupTask_eq_some.mp hA
  have hB' := lookupTask_eq_some.mp hB
  have hbrun : b.didRun = false := (hfresh.2.2 b (List.getElem?_mem hB'.2)).1
  have harun : a.didRun = false := (hfresh.2.2 a (List.getElem?_mem hA'.2)).1
  have hadj : b.finished.err = some e := by
    simp [TaskObject.finished, finishTask, hc, hd, he]
  have main : ∀ fuel, (RunTarget fuel A s).2 ≠ Res.ret none ∧
        Event.action pa ∉ (RunTarget fuel A s).1.events ∧
        pa ∉ (RunTarget fuel A s).1.taskRun ∧
        (RunTarget fuel A s).1.heap[pa]? = some a ∧ a.didRun = false ∧
        (pb ∈ (RunTarget fuel A s).1.taskRun →
          (RunTarget fuel A s).2 = Res.ret (some e)) := by
    intro fuel
    obtain ⟨hS, hDone⟩ := RunTarget_sound fuel A s hfresh.good
    have hE := RunTarget_ext fuel A s
    -- the task object of `B`, once it has run, stores the error
    have hbout : ∀ td, (RunTarget fuel A s).1.heap[pb]? = some td → td.didRun = true →
        td.err = some e := by
      intro td htd hdr
      rcases hE.heap pb b hB'.2 with h | h <;> rw [htd] at h <;> cases h
      · rw [hbrun] at hdr; cases hdr
      · exact hadj
    have hnot : pa ∉ (RunTarget fuel A s).1.taskRun := by
      intro hmem
      obtain ⟨i, hi⟩ := List.getElem?_of_mem hmem
      obtain ⟨a', ha', hdep', -⟩ := hE.static hA'.2
      obtain ⟨pd, td, hl, hdr, herr, -⟩ := hS.good.ordered i pa a' hi ha' B (hdep' ▸ hdep)
      obtain ⟨h1, h2⟩ := lookupTask_eq_some.mp hl
      rw [hE.taskMap, hB'.1] at h1
      cases h1
      rw [hbout td h2 hdr] at herr
      cases herr
    have hheap : (RunTarget fuel A s).1.heap[pa]? = some a := by
      rcases hE.heap pa a hA'.2 with h | h
      · exact h
      · exact absurd (hS.good.ran pa _ h rfl) hnot
    refine ⟨?_, ?_, hnot, hheap, harun, ?_⟩
    · intro hr
      obtain ⟨p, t, hl, hdr, -⟩ := hDone hr A (List.mem_singleton_self A)
      obtain ⟨h1, h2⟩ := lookupTask_eq_some.mp hl
      rw [hE.taskMap, hA'.1] at h1
      cases h1
      exact hnot (hS.good.ran pa t h2 hdr)
    · intro hev
      exact hnot ((hS.good.logged pa).mp hev)
    · intro hmem
      obtain ⟨td, htd, hdr⟩ := hS.good.history pb hmem
      have hnew : pb ∈ s.newRuns (RunTarget fuel A s).1 := by
        simpa [State.newRuns, hfresh.1] using hmem
      exact hS.err pb td e hnew htd (hbout td htd hdr)
  refine ⟨main, ?_⟩
  intro hacyc
  obtain ⟨fuel, hfuel⟩ := RunTarget_terminates s hacyc A
  have h1 := hfuel fuel (Nat.le_refl _)
  have h2 := (main fuel).1
  cases hr : (RunTarget fuel A s).2 with
  | timeout => exact absurd hr h1
  | ret err =>
    cases err with
    | none => exact absurd hr h2
    | some e' => exact ⟨fuel, e', hr⟩

/-- In `failingChain`, `deploy` depends on the failing `test`: the run of `deploy` never
invokes the action of `deploy` and returns the error of `test`. -/
theorem C2_fail_fast_witness :
    (∀ fuel, (RunTarget fuel "deploy" failingChain).2 ≠ Res.ret none ∧
        Event.action 2 ∉ (RunTarget fuel "deploy" failingChain).1.events ∧
        2 ∉ (RunTarget fuel "deploy" failingChain).1.taskRun ∧
        (RunTarget fuel "deploy" failingChain).1.heap[2]? =
          some (failingChain.heap.getD 2 doneTask) ∧
        (failingChain.heap.getD 2 doneTask).didRun = false ∧
        (1 ∈ (RunTarget fuel "deploy" failingChain).1.taskRun →
          (RunTarget fuel "deploy" failingChain).2 =
            Res.ret (some (GoError.errorString "tests failed")))) ∧
      (∃ fuel e', (RunTarget fuel "deploy" failingChain).2 = Res.ret (some e')) ∧
      (RunTarget 3 "deploy" failingChain).2 =
        Res.ret (some (GoError.errorString "tests failed")) ∧
      (RunTarget 3 "deploy" failingChain).1.taskRun = [0, 1] :=
  have h := C2_fail_fast failingChain "deploy" "test" 2 1 (failingChain.heap.getD 2 doneTask)
    (failingChain.heap.getD 1 doneTask) (GoError.errorString "tests failed")
    (by unfold Fresh; decide) (by decide) (by decide) (by decide) (by decide) (by decide)
    (by decide)
  ⟨h.1, h.2 (rankedBy_sound failingChain chainRank (by decide)), by decide, by decide⟩

/-! ## C3: defer policy -/

theorem adjustedErr_of_defer {t : TaskObject} (h : t.deferOnError = true) :
    t.adjustedErr = none := by
  simp only [TaskObject.adjustedErr, finishTask, h, if_true]
  cases t.continueOnError <;> rfl

theorem adjustedErr_of_continue {t : TaskObject} (h : t.continueOnError = true) :
    t.adjustedErr = none := by
  simp [TaskObject.adjustedErr, finishTask, h]

theorem adjustedErr_of_success {t : TaskObject} (h : runTaskFunc t = none) :
    t.adjustedErr = none := by
  simp only [TaskObject.adjustedErr, finishTask, h]
  cases t.continueOnError <;> cases t.deferOnError <;> rfl

theorem adjustedErr_of_no_flag {t : TaskObject} (hc : t.continueOnError = false)
    (hd : t.deferOnError = false) : t.adjustedErr = runTaskFunc t := by
  simp [TaskObject.adjustedErr, finishTask, hc, hd]

/-- Running a task that has not run and has neither dependencies nor dependees. -/
theorem RunTarget_leaf (fuel : Nat) (s : State) (n : String) (p : Nat) (t : TaskObject)
    (hl : s.lookupTask n = some (p, t)) (hd : t.didRun = false)
    (hdeps : t.dependencies = []) (hdees : t.dependees = []) :
    RunTarget (fuel + 1) n s =
      (((s.emit (Event.enter n)).runTask p t).1, Res.ret t.adjustedErr) := by
  have hl' : (s.emit (Event.enter n)).lookupTask n = some (p, t) := hl
  have herr := runTask_err (s.emit (Event.enter n)) p t t (lookupTask_eq_some.mp hl').2
  rw [RunTarget_succ, hl']
  simp only [hd, hdeps, hdees, runEach, Bool.false_eq_true, if_false, if_true]
  rw [herr]
  split
  · next e he => rw [he]
  · next he => rw [he]

/-- C3, as stated, fails: in the fresh registry `deferWithFetch` the task `release`
depends only on `build`, `build` has `deferOnError` set (and not
`continueOnError`) and its action fails with a command error carrying exit code 0,
and the action of `release` succeeds; the run history after `RunTarget("release")`
is `[fetch, build, release]`, not `[build, release]`, and `Execute` returns 0. -/
theorem C3_history_and_exit_code_differ :
    Fresh deferWithFetch ∧
      (deferWithFetch.lookupTask "release").map (fun x => (x.1, x.2.dependencies,
          runTaskFunc x.2)) = some (2, ["build"], none) ∧
      (deferWithFetch.lookupTask "build").map (fun x => (x.1, x.2.deferOnError,
          x.2.continueOnError, runTaskFunc x.2)) =
        some (1, true, false, some (GoError.CmdError 0)) ∧
      (RunTarget 3 "release" deferWithFetch).2 = Res.ret none ∧
      (RunTarget 3 "release" deferWithFetch).1.taskRun = [0, 1, 2] ∧
      (Execute 3 deferWithFetch).2 = Exit.code 0 := by
  refine ⟨by unfold Fresh; decide, by decide, by decide, by decide, by decide, by decide⟩

/-- C3, amended: for every fresh state in which `A` depends only on `B` and has no
dependees, `B` has neither dependencies nor dependees, `B` has `deferOnError` set
and its action fails with error `e`, while the action of `A` succeeds:
`RunTarget(A)` returns nil, the run history is `[B, A]`, `B.deferedErr` is `e` and
`B.err` is nil; and `Execute` with target `A` returns the exit code that `e` maps
to, which is non-zero unless `e` is a command error or a process-exit error
carrying the code 0 (a nil pointer of type `*execr.CmdError` or `*exec.ExitError`
maps to no exit code: `Execute` panics). -/
theorem C3_defer_policy (s : State) (A B : String) (pa pb : Nat) (a b : TaskObject)
    (e : GoError) (fuel : Nat) (hfresh : Fresh s)
    (harg : s.argumentsMap.lookup "target" = some A)
    (hA : s.lookupTask A = some (pa, a)) (hB : s.lookupTask B = some (pb, b))
    (hdepA : a.dependencies = [B]) (hdeeA : a.dependees = [])
    (hdepB : b.dependencies = []) (hdeeB : b.dependees = [])
    (hdefer : b.deferOnError = true) (hfail : runTaskFunc b = some e)
    (hok : runTaskFunc a = none) :
    (RunTarget (fuel + 2) A s).2 = Res.ret none ∧
      (RunTarget (fuel + 2) A s).1.taskRun = [pb, pa] ∧
      (RunTarget (fuel + 2) A s).1.events =
        [Event.enter A, Event.enter B, Event.action pb, Event.action pa] ∧
      (∃ b', (RunTarget (fuel + 2) A s).1.heap[pb]? = some b' ∧ b'.didRun = true ∧
        b'.deferedErr = some e ∧ b'.err = none) ∧
      (∃ a', (RunTarget (fuel + 2) A s).1.heap[pa]? = some a' ∧ a'.didRun = true ∧
        a'.err = none) ∧
      (Execute (fuel + 2) s).2 = exitCodeOf (some e) ∧
      (e ≠ GoError.CmdError 0 → e ≠ GoError.ExitError 0 → exitCodeOf (some e) ≠ Exit.code 0) := by
  have hA' := lookupTask_eq_some.mp hA
  have hB' := lookupTask_eq_some.mp hB
  have hbrun : b.didRun = false := (hfresh.2.2 b (List.getElem?_mem hB'.2)).1
  have harun : a.didRun = false := (hfresh.2.2 a (List.getElem?_mem hA'.2)).1
  have hadef : a.deferedErr = none := (hfresh.2.2 a (List.getElem?_mem hA'.2)).2.2.1
  have hne : pb ≠ pa := by
    intro h
    rw [h, hA'.2] at hB'
    have := Option.some.inj hB'.2
    rw [this, hdepB] at hdepA
    cases hdepA
  -- the run of `B` inside the run of `A`
  have hlB : (s.emit (Event.enter A)).lookupTask B = some (pb, b) := hB
  have hrunB := RunTarget_leaf fuel (s.emit (Event.enter A)) B pb b hlB hbrun hdepB hdeeB
  rw [adjustedErr_of_defer hdefer] at hrunB
  have hlA : (s.emit (Event.enter A)).lookupTask A = some (pa, a) := hA
  have hpa1 : (((s.emit (Event.enter A)).emit (Event.enter B)).runTask pb b).1.heap[pa]? =
      some a := by
    rw [runTask_heap_other _ pb pa b hne]; exact hA'.2
  have herrA := runTask_err _ pa a a hpa1
  rw [adjustedErr_of_success hok] at herrA
  have hrun : RunTarget (fuel + 2) A s =
      (((((s.emit (Event.enter A)).emit (Event.enter B)).runTask pb b).1.runTask pa a).1,
        Res.ret none) := by
    rw [RunTarget_succ, hlA]
    simp only [harun, hdepA, hdeeA, runEach_cons, runEach, hrunB, Bool.false_eq_true,
      if_false, if_true, herrA]
  have hheapB : (((((s.emit (Event.enter A)).emit (Event.enter B)).runTask pb b).1.runTask
      pa a).1).heap[pb]? = some b.finished := by
    rw [runTask_heap_other _ pa pb a (Ne.symm hne)]
    exact runTask_heap_self _ pb b b hB'.2
  have hheapA : (((((s.emit (Event.enter A)).emit (Event.enter B)).runTask pb b).1.runTask
      pa a).1).heap[pa]? = some a.finished := runTask_heap_self _ pa a a hpa1
  have hbdef : b.finished.deferedErr = some e := by
    simp [TaskObject.finished, finishTask, hdefer, hfail]
  have hberr : b.finished.err = none := by
    rw [finished_err, adjustedErr_of_defer hdefer]
  have haerr : a.finished.err = none := by
    rw [finished_err, adjustedErr_of_success hok]
  have hadef' : a.finished.deferedErr = none := by
    simp only [TaskObject.finished, finishTask, hok, hadef]
    cases a.deferOnError <;> rfl
  have htr : (((((s.emit (Event.enter A)).emit (Event.enter B)).runTask pb b).1.runTask
      pa a).1).taskRun = [pb, pa] := by
    simp [State.runTask, State.emit, hfresh.1]
  have hev : (((((s.emit (Event.enter A)).emit (Event.enter B)).runTask pb b).1.runTask
      pa a).1).events = [Event.enter A, Event.enter B, Event.action pb, Event.action pa] := by
    simp [State.runTask, State.emit, hfresh.2.1]
  refine ⟨by rw [hrun], by rw [hrun]; exact htr, by rw [hrun]; exact hev,
    ⟨b.finished, by rw [hrun]; exact hheapB, rfl, hbdef, hberr⟩,
    ⟨a.finished, by rw [hrun]; exact hheapA, rfl, haerr⟩, ?_, ?_⟩
  · rw [Execute_target harg, hrun]
    simp only [htr, checkDeferedErrors, hheapB, hbdef, hheapA, hadef']
  · intro h1 h2
    cases e with
    | CmdError c =>
      simp only [exitCodeOf]
      intro hc; exact h1 (by rw [Exit.code.inj hc])
    | ExitError c =>
      simp only [exitCodeOf]
      intro hc; exact h2 (by rw [Exit.code.inj hc])
    | errorString m => simp [exitCodeOf]
    | nilCmdError => simp [exitCodeOf]
    | nilExitError => simp [exitCodeOf]

/-- The scenario `deferScenario`: both tasks run, `RunTarget` returns nil and `Execute`
returns 1. -/
theorem C3_defer_policy_witness :
    (RunTarget 2 "release" deferScenario).2 = Res.ret none ∧
      (RunTarget 2 "release" deferScenario).1.taskRun = [0, 1] ∧
      (Execute 2 deferScenario).2 = Exit.code 1 :=
  have h := C3_defer_policy deferScenario "release" "build" 1 0
    (deferScenario.heap.getD 1 doneTask) (deferScenario.heap.getD 0 doneTask)
    (GoError.errorString "compile error") 0 (by unfold Fresh; decide) (by decide) (by decide)
    (by decide) (by decide) (by decide) (by decide) (by decide) (by decide) (by decide)
    (by decide)
  ⟨h.1, h.2.1, h.2.2.2.2.2.1⟩

/-! ## C4: continue policy -/

/-- C4, as stated, fails: in the fresh registry `spinningContinue` the task `A`
depends on `B`, `B` has `continueOnError` set and its action fails, no other action
fails and every name referred to is registered, but `RunTarget("A")` does not
return, whatever the recursion bound, because the dependency `spin` depends on
itself. -/
theorem C4_does_not_return :
    Fresh spinningContinue ∧
      (spinningContinue.lookupTask "A").map (fun x => (x.1, x.2.dependencies)) =
        some (0, ["spin", "B"]) ∧
      (spinningContinue.lookupTask "B").map
          (fun x => (x.1, x.2.continueOnError, runTaskFunc x.2)) =
        some (2, true, some (GoError.errorString "boom")) ∧
      spinningContinue.allRegistered (fun _ p t => decide (p ≠ 2 → runTaskFunc t = none)) =
        true ∧
      spinningContinue.allRegistered (fun _ _ t => (t.dependencies ++ t.dependees).all
        (fun d => (spinningContinue.lookupTask d).isSome)) = true ∧
      ∀ fuel, (RunTarget fuel "A" spinningContinue).2 = Res.timeout := by
  refine ⟨by unfold Fresh; decide, by decide, by decide, by decide, by decide, ?_⟩
  intro fuel
  cases fuel with
  | zero => rfl
  | succ fuel =>
    exact RunTarget_first_dependency "A" "spin" 0 (spinningContinue.heap.getD 0 doneTask) ["B"]
      spinningContinue fuel (by decide) (by decide) (by decide)
      (RunTarget_self_dependency "spin" 1 (spinningContinue.heap.getD 1 doneTask) []
        (by decide) (by decide) fuel _ (by decide))

/-- C4, amended: for every fresh state whose dependency edges contain no cycle and
in which `A` depends on `B`, `B` has `continueOnError` set and its action fails,
the action of every other registered task succeeds and every name listed as a
dependency or dependee of a registered task is registered: `RunTarget(A)` returns
nil (for every large enough recursion bound), the action of `A` has been invoked,
and `B` has run with stored `err` nil. -/
theorem C4_continue_policy (s : State) (A B : String) (pa pb : Nat) (a b : TaskObject)
    (e : GoError) (hfresh : Fresh s) (hacyc : DepAcyclic s)
    (hA : s.lookupTask A = some (pa, a)) (hB : s.lookupTask B = some (pb, b))
    (hdep : B ∈ a.dependencies) (hcont : b.continueOnError = true)
    (_hfail : runTaskFunc b = some e)
    (hothers : ∀ n p t, s.lookupTask n = some (p, t) → p ≠ pb → runTaskFunc t = none)
    (hrefs : ∀ n p t, s.lookupTask n = some (p, t) →
      ∀ d ∈ t.dependencies ++ t.dependees, s.lookupTask d ≠ none) :
    ∃ fuel, ∀ fuel', fuel ≤ fuel' →
      (RunTarget fuel' A s).2 = Res.ret none ∧
      Event.action pa ∈ (RunTarget fuel' A s).1.events ∧
      ∃ b', (RunTarget fuel' A s).1.heap[pb]? = some b' ∧ b'.didRun = true ∧
        b'.err = none := by
  obtain ⟨fuel, hfuel⟩ := RunTarget_terminates s hacyc A
  refine ⟨fuel, ?_⟩
  intro fuel' hle
  have hA' := lookupTask_eq_some.mp hA
  have hB' := lookupTask_eq_some.mp hB
  obtain ⟨hS, hDone⟩ := RunTarget_sound fuel' A s hfresh.good
  have hE := RunTarget_ext fuel' A s
  have hnew : s.newEvents (RunTarget fuel' A s).1 = (RunTarget fuel' A s).1.events := by
    simp [State.newEvents, hfresh.2.1]
  -- a name `RunTarget` may be entered for is registered
  have hreg : ∀ n, Justified [A] (RunTarget fuel' A s).1 n → s.lookupTask n ≠ none := by
    intro n hj
    rcases hj with hj | ⟨k, pc, c, hl, hc⟩
    · rw [List.mem_singleton] at hj
      rw [hj, hA]; simp
    · obtain ⟨c0, hl0, hdep0, hdee0, -⟩ := hE.registered_back hl
      refine hrefs k pc c0 hl0 n ?_
      rw [List.mem_append, ← hdep0, ← hdee0]
      rcases hc with hc | hc
      · exact Or.inl hc
      · exact Or.inr hc.1
  have hres : (RunTarget fuel' A s).2 = Res.ret none := by
    cases hr : (RunTarget fuel' A s).2 with
    | timeout => exact absurd hr (hfuel fuel' hle)
    | ret err =>
      cases err with
      | none => rfl
      | some e' =>
        exfalso
        rcases hS.origin e' hr with ⟨n, -, hent, hnone⟩ | ⟨p, t, hp, ht, herr⟩
        · exact hreg n (hS.entered n hent) hnone
        · obtain ⟨t', ht', hd'⟩ := hS.good.history p hp
          rw [ht] at ht'
          cases ht'
          obtain ⟨t0, ht0, rfl⟩ := hfresh.ran_finished hE ht hd'
          rw [finished_err] at herr
          by_cases hpb : p = pb
          · subst hpb
            rw [hB'.2] at ht0
            cases ht0
            rw [adjustedErr_of_continue hcont] at herr
            cases herr
          · have hact : Event.action p ∈ s.newEvents (RunTarget fuel' A s).1 := by
              rw [hnew]; exact (hS.good.logged p).mpr hp
            obtain ⟨n, hn, -⟩ := hS.why p hact
            have := hothers n p t0 (lookupTask_eq_some.mpr ⟨hn, ht0⟩) hpb
            rw [adjustedErr_of_success this] at herr
            cases herr
  obtain ⟨p, t, hl, hdr, -⟩ := hDone hres A (List.mem_singleton_self A)
  obtain ⟨h1, h2⟩ := lookupTask_eq_some.mp hl
  rw [hE.taskMap, hA'.1] at h1
  cases h1
  have hmem := hS.good.ran pa t h2 hdr
  refine ⟨hres, (hS.good.logged pa).mpr hmem, ?_⟩
  obtain ⟨i, hi⟩ := List.getElem?_of_mem hmem
  obtain ⟨a', ha', hdep', -⟩ := hE.static hA'.2
  obtain ⟨pd, td, hl', hdr', herr', -⟩ := hS.good.ordered i pa a' hi ha' B (hdep' ▸ hdep)
  obtain ⟨h1', h2'⟩ := lookupTask_eq_some.mp hl'
  rw [hE.taskMap, hB'.1] at h1'
  cases h1'
  exact ⟨td, h2', hdr', herr'⟩

/-- The scenario `continueScenario`: the failure of `lint` is discarded, `build` and its
dependee `notify` run. -/
theorem C4_continue_policy_witness :
    (∃ fuel, ∀ fuel', fuel ≤ fuel' →
      (RunTarget fuel' "build" continueScenario).2 = Res.ret none ∧
      Event.action 1 ∈ (RunTarget fuel' "build" continueScenario).1.events ∧
      ∃ b', (RunTarget fuel' "build" continueScenario).1.heap[0]? = some b' ∧
        b'.didRun = true ∧ b'.err = none) ∧
      (RunTarget 2 "build" continueScenario).1.taskRun = [0, 1, 2] :=
  ⟨C4_continue_policy continueScenario "build" "lint" 1 0
      (continueScenario.heap.getD 1 doneTask) (continueScenario.heap.getD 0 doneTask)
      (GoError.errorString "style") (by unfold Fresh; decide)
      (rankedBy_sound continueScenario continueRank (by decide)) (by decide) (by decide)
      (by decide) (by decide) (by decide)
      (fun n p t hl => of_decide_eq_true (allRegistered_sound continueScenario
        (fun _ p t => decide (p ≠ 0 → runTaskFunc t = none)) (by decide) n p t hl))
      (fun n p t hl d hd => by
        have h := allRegistered_sound continueScenario
          (fun _ _ t => (t.dependencies ++ t.dependees).all
            (fun d => (continueScenario.lookupTask d).isSome)) (by decide) n p t hl
        have h' := List.all_eq_true.mp h d hd
        intro hnone
        rw [hnone] at h'
        cases h'),
    by decide⟩

/-! ## C5: both error-policy flags -/

/-- C5, as stated, fails: the task `lint` has both `continueOnError` and
`deferOnError` set and its action fails; after `RunTarget` ran it, its `deferedErr`
holds the error, and `Execute` returns exit code 1. -/
theorem C5_deferedErr_is_set :
    (bothFlags.heap[0]?.map (fun t => (t.continueOnError, t.deferOnError, runTaskFunc t))) =
        some (true, true, some (GoError.errorString "lint failed")) ∧
      bothFlags.taskMap.lookup "lint" = some 0 ∧
      (RunTarget 1 "lint" bothFlags).2 = Res.ret none ∧
      ((RunTarget 1 "lint" bothFlags).1.heap[0]?.map (fun t => t.deferedErr)) =
        some (some (GoError.errorString "lint failed")) ∧
      (Execute 1 bothFlags).2 = Exit.code 1 := by
  decide

/-- C5, amended: for every task object with both `continueOnError` and
`deferOnError` set whose action fails with error `e`, `deferOnError` takes effect
first: once `RunTarget` has invoked its action, its `deferedErr` is `e` and its
stored `err` is nil. The failure therefore does reach `Execute`: when `RunTarget`
returns and no later entry of the run history carries another deferred error,
the exit code of `Execute` is the one that `e` maps to (none, `Execute` panics, when
`e` is a nil pointer of type `*execr.CmdError` or `*exec.ExitError`). -/
theorem C5_defer_applies_first (fuel : Nat) (s : State) (target : String) (p : Nat)
    (obj : TaskObject) (e : GoError)
    (hobj : s.heap[p]? = some obj) (hc : obj.continueOnError = true)
    (hd : obj.deferOnError = true) (he : runTaskFunc obj = some e)
    (hrun : Event.action p ∈ s.newEvents (RunTarget fuel target s).1) :
    (∃ obj', (RunTarget fuel target s).1.heap[p]? = some obj' ∧ obj'.deferedErr = some e ∧
        obj'.err = none ∧ obj'.didRun = true) ∧
      (∀ pre rest, s.argumentsMap.lookup "target" = some target →
        (RunTarget fuel target s).2 ≠ Res.timeout →
        (RunTarget fuel target s).1.taskRun = pre ++ p :: rest →
        (∀ q ∈ rest, ∀ o, (RunTarget fuel target s).1.heap[q]? = some o →
          o.deferedErr = none ∨ o.deferedErr = some e) →
        (Execute fuel s).2 = exitCodeOf (some e)) := by
  have hw := (RunTarget_traced fuel target s).written p obj hrun hobj
  have hdef : obj.finished.deferedErr = some e := by
    simp [TaskObject.finished, finishTask, hd, he]
  refine ⟨⟨obj.finished, hw, hdef, ?_, rfl⟩, ?_⟩
  · simp [TaskObject.finished, finishTask, hc]
  · intro pre rest harg hret hrunlist hrest
    rw [Execute_target harg]
    cases hr : (RunTarget fuel target s).2 with
    | timeout => exact absurd hr hret
    | ret err =>
      simp only [Option.some.injEq]
      rw [hrunlist, checkDeferedErrors_last _ pre rest p obj.finished e err hw hdef hrest]

/-- The task `lint` of `bothFlags`: its error is deferred, and `Execute` returns 1. -/
theorem C5_defer_applies_first_witness :
    (∃ obj', (RunTarget 1 "lint" bothFlags).1.heap[0]? = some obj' ∧
        obj'.deferedErr = some (GoError.errorString "lint failed") ∧
        obj'.err = none ∧ obj'.didRun = true) ∧
      (Execute 1 bothFlags).2 = Exit.code 1 :=
  have h := C5_defer_applies_first 1 bothFlags "lint" 0
    ((bothFlags.heap.getD 0 doneTask)) (GoError.errorString "lint failed")
    (by decide) (by decide) (by decide) (by decide) (by decide)
  ⟨h.1, h.2 [] [] (by decide) (by decide) (by decide) (by decide)⟩

/-! ## C6: dependencies before the task -/

/-- C6: in every state reachable from a fresh state by calls of `RunTarget`, every
entry of the run history (at index `i`, pointing to the task object `t`) is
preceded, for each name `d` in `t.dependencies`, by an entry for the task object
registered under `d`, which has run and has a nil stored (policy-adjusted) error. -/
theorem C6_dependencies_run_first (s : State) (hs : Reachable s) (i p : Nat) (t : TaskObject)
    (hi : s.taskRun[i]? = some p) (hp : s.heap[p]? = some t) (d : String)
    (hd : d ∈ t.dependencies) :
    ∃ pd td, s.lookupTask d = some (pd, td) ∧ pd ∈ s.taskRun.take i ∧
      td.didRun = true ∧ td.err = none := by
  obtain ⟨pd, td, h1, h2, h3, h4⟩ := hs.invariant.ordered i p t hi hp d hd
  exact ⟨pd, td, h1, h4, h2, h3⟩

/-- In the state reached by running `T` in `bothWays`, the entry for `T` at index 1 of
the run history comes after the entry for its dependency `B`. -/
theorem C6_dependencies_run_first_witness :
    (RunTarget 4 "T" bothWays).1.taskRun = [1, 0, 0] ∧
      ∃ pd td, (RunTarget 4 "T" bothWays).1.lookupTask "B" = some (pd, td) ∧
        pd ∈ (RunTarget 4 "T" bothWays).1.taskRun.take 1 ∧ td.didRun = true ∧ td.err = none :=
  ⟨by decide,
    C6_dependencies_run_first (RunTarget 4 "T" bothWays).1
      (Reachable.run bothWays 4 "T" (Reachable.fresh bothWays (by unfold Fresh; decide)))
      1 0 ((RunTarget 4 "T" bothWays).1.heap.getD 0 doneTask) (by decide) (by decide) "B"
      (by decide)⟩

/-! ## C7: dependees only after a successful task -/

/-- C7, as stated, fails: in the fresh registry `failingWithDependee "D"` the task
`B` lists `D` as a dependee and the action of `B` fails with no policy flag set,
yet `RunTarget("D")` invokes the action of `D` (the task object at pointer 1),
although `B` has not run. The action of `D` is also invoked, in a run in which the
action of `B` is invoked and fails, when a task entered in the run lists `D` as a
dependency (`dependeeAsDependency`) and when another task, whose action succeeds,
lists `D` as a dependee (`dependeeOfTwo`). -/
theorem C7_dependee_runs_as_target :
    Fresh (failingWithDependee "D") ∧
      ((failingWithDependee "D").lookupTask "B").map (fun x => (x.1, x.2.dependees,
          x.2.continueOnError, x.2.deferOnError, runTaskFunc x.2)) =
        some (0, ["D"], false, false, some (GoError.errorString "boom")) ∧
      (failingWithDependee "D").taskMap.lookup "D" = some 1 ∧
      Event.action 1 ∈ (RunTarget 1 "D" (failingWithDependee "D")).1.events ∧
      ((RunTarget 1 "D" (failingWithDependee "D")).1.heap[0]?).map (fun t => t.didRun) =
        some false ∧
      Fresh dependeeAsDependency ∧
      (dependeeAsDependency.lookupTask "B").map (fun x => (x.1, x.2.dependees,
          x.2.continueOnError, x.2.deferOnError, runTaskFunc x.2)) =
        some (0, ["D"], false, false, some (GoError.errorString "boom")) ∧
      dependeeAsDependency.taskMap.lookup "D" = some 1 ∧
      (RunTarget 2 "A" dependeeAsDependency).1.events =
        [Event.enter "A", Event.enter "D", Event.action 1, Event.enter "B",
          Event.action 0] ∧
      Fresh dependeeOfTwo ∧
      (dependeeOfTwo.lookupTask "B").map (fun x => (x.1, x.2.dependees,
          x.2.continueOnError, x.2.deferOnError, runTaskFunc x.2)) =
        some (0, ["D"], false, false, some (GoError.errorString "boom")) ∧
      dependeeOfTwo.taskMap.lookup "D" = some 1 ∧
      (RunTarget 3 "A" dependeeOfTwo).1.events =
        [Event.enter "A", Event.enter "C", Event.action 2, Event.enter "D", Event.action 1,
          Event.enter "B", Event.action 0] := by
  refine ⟨by unfold Fresh; decide, by decide, by decide, by decide, by decide,
    by unfold Fresh; decide, by decide, by decide, by decide,
    by unfold Fresh; decide, by decide, by decide, by decide⟩

/-- C7, amended: in a run of `RunTarget(target)` from a fresh state every event comes
after the events that account for it. An entry of `RunTarget` for a name `D` is the
initial call (the first event, for the target), or it comes after the entry for a
task that lists `D` as a dependency, or it comes after the invocation of the action
of a task that lists `D` as a dependee and whose policy-adjusted `err` is nil. The
action of a task object is invoked only after an entry of `RunTarget` for a name it
is registered under. So when `D` is not the target, no task entered in the run lists
`D` as a dependency and `B` is the only task run with a nil policy-adjusted `err`
that lists `D` as a dependee, every invocation of the action of `D` comes after an
invocation of the action of `B`, and the policy-adjusted `err` of `B` is nil; and
when the action of `B` fails with no policy flag set, the action of `D` is never
invoked. -/
theorem C7_dependee_follows_success (s : State) (target : String) (fuel : Nat)
    (hfresh : Fresh s) :
    (∀ (j : Nat) (D : String),
        (RunTarget fuel target s).1.events[j]? = some (Event.enter D) →
        (j = 0 ∧ D = target) ∨
          EnterJustified s ((RunTarget fuel target s).1.events.take j) D) ∧
      (∀ (i pd : Nat), (RunTarget fuel target s).1.events[i]? = some (Event.action pd) →
        ∃ D, s.taskMap.lookup D = some pd ∧
          Event.enter D ∈ (RunTarget fuel target s).1.events.take i) ∧
      (∀ (B D : String) (pb pd : Nat) (b : TaskObject),
        s.lookupTask B = some (pb, b) → D ∈ b.dependees →
        (∀ n, s.taskMap.lookup n = some pd → n = D) → D ≠ target →
        (∀ k pc c, Event.enter k ∈ (RunTarget fuel target s).1.events →
          s.lookupTask k = some (pc, c) → D ∉ c.dependencies) →
        (∀ k pc c, Event.action pc ∈ (RunTarget fuel target s).1.events →
          s.lookupTask k = some (pc, c) → D ∈ c.dependees → c.adjustedErr = none →
          pc = pb) →
        (∀ i, (RunTarget fuel target s).1.events[i]? = some (Event.action pd) →
            Event.action pb ∈ (RunTarget fuel target s).1.events.take i ∧
              b.adjustedErr = none) ∧
          (b.continueOnError = false → b.deferOnError = false → runTaskFunc b ≠ none →
            Event.action pd ∉ (RunTarget fuel target s).1.events)) := by
  have first := RunTarget_enter_justified hfresh fuel target
  have second := RunTarget_action_entered hfresh fuel target
  refine ⟨first, second, ?_⟩
  intro B D pb pd b hB hdee hname htarget hnodep honly
  have key : ∀ i, (RunTarget fuel target s).1.events[i]? = some (Event.action pd) →
      Event.action pb ∈ (RunTarget fuel target s).1.events.take i ∧ b.adjustedErr = none := by
    intro i hi
    obtain ⟨D', hD', hmem⟩ := second i pd hi
    have hDD := hname D' hD'
    subst hDD
    obtain ⟨j, hjlt, hj⟩ := exists_getElem?_of_mem_take hmem
    rcases first j D' hj with ⟨-, h⟩ | ⟨k, pc, c, hl, hk, hdep | ⟨hdee', hact, hadj⟩⟩
    · exact absurd h htarget
    · exact absurd hdep (hnodep k pc c (List.mem_of_mem_take hk) hl)
    · have hpc := honly k pc c (List.mem_of_mem_take hact) hl hdee' hadj
      subst hpc
      have hcb : c = b := by
        have h1 := (lookupTask_eq_some.mp hl).2
        rw [(lookupTask_eq_some.mp hB).2] at h1
        exact (Option.some.inj h1).symm
      subst hcb
      exact ⟨mem_take_of_le hact (Nat.le_of_lt hjlt), hadj⟩
  refine ⟨key, ?_⟩
  intro hc hd hfail hmem
  obtain ⟨i, hi⟩ := List.mem_iff_getElem?.mp hmem
  have := (key i hi).2
  rw [adjustedErr_of_no_flag hc hd] at this
  exact hfail this

/-- In `failingWithBystander` the run of `B` fails and never invokes the action of its
dependee `D`, although the task `audit`, which the run does not reach, lists `D` as
a dependency; and in `succeedingWithDependee` the action of `D`, the fourth event,
comes after the action of `B`. -/
theorem C7_dependee_follows_success_witness :
    Event.action 1 ∉ (RunTarget 5 "B" failingWithBystander).1.events ∧
      (RunTarget 5 "B" failingWithBystander).1.events = [Event.enter "B", Event.action 0] ∧
      (failingWithBystander.lookupTask "audit").map (fun x => x.2.dependencies) =
        some ["D"] ∧
      (RunTarget 5 "B" succeedingWithDependee).1.events =
        [Event.enter "B", Event.action 0, Event.enter "D", Event.action 1] ∧
      Event.action 0 ∈ (RunTarget 5 "B" succeedingWithDependee).1.events.take 3 :=
  ⟨((C7_dependee_follows_success failingWithBystander "B" 5
      (by unfold Fresh; decide)).2.2 "B" "D" 0 1
      (failingWithBystander.heap.getD 0 doneTask) (by decide) (by decide)
      (onlyName_sound failingWithBystander 1 "D" (by decide)) (by decide)
      (fun k pc c hmem hl => of_decide_eq_true (allRegistered_sound failingWithBystander
        (fun k _ c => decide (Event.enter k ∈ (RunTarget 5 "B" failingWithBystander).1.events →
          "D" ∉ c.dependencies)) (by decide) k pc c hl) hmem)
      (fun k pc c _ hl => of_decide_eq_true (allRegistered_sound failingWithBystander
        (fun _ pc c => decide ("D" ∈ c.dependees → c.adjustedErr = none → pc = 0))
        (by decide) k pc c hl))).2 (by decide) (by decide) (by decide),
    by decide, by decide, by decide,
    (((C7_dependee_follows_success succeedingWithDependee "B" 5
      (by unfold Fresh; decide)).2.2 "B" "D" 0 1
      (succeedingWithDependee.heap.getD 0 doneTask) (by decide) (by decide)
      (onlyName_sound succeedingWithDependee 1 "D" (by decide)) (by decide)
      (fun k pc c _ hl => of_decide_eq_true (allRegistered_sound succeedingWithDependee
        (fun _ _ c => decide ("D" ∉ c.dependencies)) (by decide) k pc c hl))
      (fun k pc c _ hl => of_decide_eq_true (allRegistered_sound succeedingWithDependee
        (fun _ pc c => decide ("D" ∈ c.dependees → c.adjustedErr = none → pc = 0))
        (by decide) k pc c hl))).1 3 (by decide)).1⟩
/-! ## C8: unregistered target -/

/-- C8: for every state and every name that is not a key of `taskMap`, `RunTarget`
returns the error "Target does not exist: <name>", and leaves the heap of task
objects, the registry, the arguments and the run history as they were; the only
event is the entry into `RunTarget` itself, so no action is invoked. -/
theorem C8_unregistered_target (fuel : Nat) (s : State) (name : String)
    (h : s.taskMap.lookup name = none) :
    (RunTarget (fuel + 1) name s).2 =
        Res.ret (some (GoError.errorString ("Target does not exist: " ++ name))) ∧
      (RunTarget (fuel + 1) name s).1.heap = s.heap ∧
      (RunTarget (fuel + 1) name s).1.taskMap = s.taskMap ∧
      (RunTarget (fuel + 1) name s).1.argumentsMap = s.argumentsMap ∧
      (RunTarget (fuel + 1) name s).1.taskRun = s.taskRun ∧
      (RunTarget (fuel + 1) name s).1.events = s.events ++ [Event.enter name] := by
  have hl : (s.emit (Event.enter name)).lookupTask name = none := by
    simp [State.lookupTask, State.emit, h]
  rw [RunTarget_succ, hl]
  simp [State.emit, targetDoesNotExist]

/-- The name `deploy` is not registered in `bothWays`: running it yields the error and
changes neither the task objects nor the run history. -/
theorem C8_unregistered_target_witness :
    bothWays.taskMap.lookup "deploy" = none ∧
      (RunTarget 1 "deploy" bothWays).2 =
        Res.ret (some (GoError.errorString "Target does not exist: deploy")) ∧
      (RunTarget 1 "deploy" bothWays).1.heap = bothWays.heap ∧
      (RunTarget 1 "deploy" bothWays).1.taskRun = bothWays.taskRun :=
  ⟨by decide, (C8_unregistered_target 0 bothWays "deploy" (by decide)).1,
    (C8_unregistered_target 0 bothWays "deploy" (by decide)).2.1,
    (C8_unregistered_target 0 bothWays "deploy" (by decide)).2.2.2.2.1⟩

/-! ## C9: configuration errors are not masked -/

/-- C9: for every state, target and name `n` that is not a key of `taskMap`: if the
run of `RunTarget(target)` enters `RunTarget` for `n` (as the target, a dependency
or a dependee), then `RunTarget(target)` returns the error "Target does not
exist: <n>", whatever the error-policy flags of any task are; and no task object
that lists `n` among its dependencies has its action invoked. -/
theorem C9_configuration_error_propagates (fuel : Nat) (s : State) (target n : String)
    (hn : s.taskMap.lookup n = none) :
    (Event.enter n ∈ s.newEvents (RunTarget fuel target s).1 →
        (RunTarget fuel target s).2 =
          Res.ret (some (GoError.errorString ("Target does not exist: " ++ n)))) ∧
      (∀ p obj, s.heap[p]? = some obj → n ∈ obj.dependencies →
        Event.action p ∉ s.newEvents (RunTarget fuel target s).1) := by
  have hnone : s.lookupTask n = none := by simp [State.lookupTask, hn]
  constructor
  · intro h
    exact (RunTarget_traced fuel target s).missing n h hnone
  · intro p obj hp hdep hact
    exact (RunTarget_traced fuel target s).deps p obj hact hp n hdep hnone

/-- In `maskedMissing` the run of `top` enters `ghost`, and the error for `ghost` is
returned although `top` and `mid` have both error-policy flags set. -/
theorem C9_configuration_error_propagates_witness :
    maskedMissing.taskMap.lookup "ghost" = none ∧
      Event.enter "ghost" ∈ maskedMissing.newEvents (RunTarget 3 "top" maskedMissing).1 ∧
      (RunTarget 3 "top" maskedMissing).2 =
          Res.ret (some (GoError.errorString "Target does not exist: ghost")) ∧
      (RunTarget 3 "top" maskedMissing).1.events =
        [Event.enter "top", Event.enter "mid", Event.enter "ghost"] :=
  ⟨by decide, by decide,
    (C9_configuration_error_propagates 3 maskedMissing "top" "ghost" (by decide)).1 (by decide),
    by decide⟩

/-! ## C10: memoized result -/

/-- C10: when the task object registered under `t` has `didRun` set, `RunTarget(t)`
returns its stored `err` and changes neither the heap of task objects nor the
registry nor the run history; the only event is the entry into `RunTarget` for `t`
itself: no action is invoked and `RunTarget` is entered for no dependency or
dependee. -/
theorem C10_memoized_result (fuel : Nat) (s : State) (t : String) (p : Nat) (obj : TaskObject)
    (hreg : s.lookupTask t = some (p, obj)) (hrun : obj.didRun = true) :
    (RunTarget (fuel + 1) t s).2 = Res.ret obj.err ∧
      (RunTarget (fuel + 1) t s).1.heap = s.heap ∧
      (RunTarget (fuel + 1) t s).1.taskMap = s.taskMap ∧
      (RunTarget (fuel + 1) t s).1.argumentsMap = s.argumentsMap ∧
      (RunTarget (fuel + 1) t s).1.taskRun = s.taskRun ∧
      (RunTarget (fuel + 1) t s).1.events = s.events ++ [Event.enter t] := by
  have hl : (s.emit (Event.enter t)).lookupTask t = some (p, obj) := hreg
  rw [RunTarget_succ, hl]
  simp [State.emit, hrun]

theorem C10_memoized_result_witness :
    alreadyRan.lookupTask "done" = some (0, doneTask) ∧
      (RunTarget 1 "done" alreadyRan).2 = Res.ret (some (GoError.errorString "boom")) ∧
      (RunTarget 1 "done" alreadyRan).1.heap = alreadyRan.heap ∧
      (RunTarget 1 "done" alreadyRan).1.taskRun = [0] ∧
      (RunTarget 1 "done" alreadyRan).1.events =
        [Event.enter "done", Event.action 0, Event.enter "done"] ∧
      alreadyRan.lookupTask "nowhere" = none ∧ alreadyRan.lookupTask "nobody" = none :=
  ⟨by decide,
    (C10_memoized_result 0 alreadyRan "done" 0 doneTask (by decide) (by decide)).1,
    (C10_memoized_result 0 alreadyRan "done" 0 doneTask (by decide) (by decide)).2.1,
    (C10_memoized_result 0 alreadyRan "done" 0 doneTask (by decide) (by decide)).2.2.2.2.1,
    (C10_memoized_result 0 alreadyRan "done" 0 doneTask (by decide) (by decide)).2.2.2.2.2,
    by decide, by decide⟩

/-! ## C11: deferred errors override the returned error -/

theorem checkDeferedErrors_cons (heap : List TaskObject) (run : Nat) (rest : List Nat)
    (err : Option GoError) :
    checkDeferedErrors heap (run :: rest) err =
      checkDeferedErrors heap rest
        (match (heap[run]?).bind (fun t => t.deferedErr) with
         | some d => some d
         | none => err) := by
  simp only [checkDeferedErrors]
  cases h : heap[run]? with
  | none => rfl
  | some t =>
    simp only [Option.bind]
    cases h' : t.deferedErr <;> rfl

theorem checkDeferedErrors_eq_finalError (heap : List TaskObject) (runs : List Nat)
    (err : Option GoError) :
    checkDeferedErrors heap runs err = finalError heap runs err := by
  induction runs generalizing err with
  | nil => rfl
  | cons run rest ih =>
    rw [checkDeferedErrors_cons, ih]
    simp only [finalError, lastDeferedErr, List.reverse_cons, List.filterMap_append,
      List.head?_append]
    cases h1 : (List.filterMap (fun p => (heap[p]?).bind (fun t => t.deferedErr))
        rest.reverse).head? with
    | some d => rfl
    | none =>
      cases h2 : (heap[run]?).bind (fun t => t.deferedErr) with
      | none => simp [List.filterMap, h2]
      | some d => simp [List.filterMap, h2]

/-- C11: when a target is given and `RunTarget` returns `err`, the error that
`Execute` maps to the exit code is the `deferedErr` of the last entry of the run
history whose `deferedErr` is not nil, if there is such an entry (whatever `err`
is), and `err` otherwise. -/
theorem C11_deferred_error_overrides (fuel : Nat) (s : State) (target : String)
    (err : Option GoError) (harg : s.argumentsMap.lookup "target" = some target)
    (hret : (RunTarget fuel target s).2 = Res.ret err) :
    checkDeferedErrors (RunTarget fuel target s).1.heap (RunTarget fuel target s).1.taskRun err =
        finalError (RunTarget fuel target s).1.heap (RunTarget fuel target s).1.taskRun err ∧
      (Execute fuel s).2 = exitCodeOf
        (finalError (RunTarget fuel target s).1.heap (RunTarget fuel target s).1.taskRun err) ∧
      (∀ d, lastDeferedErr (RunTarget fuel target s).1.heap (RunTarget fuel target s).1.taskRun =
          some d → (Execute fuel s).2 = exitCodeOf (some d)) ∧
      (lastDeferedErr (RunTarget fuel target s).1.heap (RunTarget fuel target s).1.taskRun =
          none → (Execute fuel s).2 = exitCodeOf err) := by
  have hfin := checkDeferedErrors_eq_finalError (RunTarget fuel target s).1.heap
    (RunTarget fuel target s).1.taskRun err
  have hexec : (Execute fuel s).2 = exitCodeOf
      (finalError (RunTarget fuel target s).1.heap (RunTarget fuel target s).1.taskRun err) := by
    rw [Execute_target harg, hret]
    simp only [hfin]
  refine ⟨hfin, hexec, ?_, ?_⟩
  · intro d hd
    rw [hexec, finalError, hd]
  · intro hd
    rw [hexec, finalError, hd]

/-- In `twoDeferred` the run of `third` returns the command error with code 7, but
`Execute` returns 3, the code of the deferred error of `second`, the last entry of
the run history with a deferred error. -/
theorem C11_deferred_error_overrides_witness :
    (RunTarget 2 "third" twoDeferred).2 = Res.ret (some (GoError.CmdError 7)) ∧
      (RunTarget 2 "third" twoDeferred).1.taskRun = [0, 1, 2] ∧
      lastDeferedErr (RunTarget 2 "third" twoDeferred).1.heap
        (RunTarget 2 "third" twoDeferred).1.taskRun = some (GoError.CmdError 3) ∧
      (Execute 2 twoDeferred).2 = Exit.code 3 :=
  ⟨by decide, by decide, by decide,
    (C11_deferred_error_overrides 2 twoDeferred "third" (some (GoError.CmdError 7))
      (by decide) (by decide)).2.2.1 (GoError.CmdError 3) (by decide)⟩

/-! ## C12: exit codes -/

theorem Execute_no_target {s : State} (h : s.argumentsMap.lookup "target" = none)
    (fuel : Nat) : Execute fuel s = (s, Exit.code 0) := by
  unfold Execute GetArgument GetArgumentOrDefault
  rw [h]

/-- C12, as stated, fails: the mapping does not hold for every final error value.
In `typedNil` the action of the target returns a nil `*execr.CmdError` as its
error. `RunTarget` returns this error, which is not nil, it is the final error, and
`Execute` reads the field `ExitCode` through the nil pointer: it panics and returns
no exit code at all. The same happens in `typedNilDeferred` with a deferred nil
`*exec.ExitError`, where `RunTarget` returns nil. -/
theorem C12_nil_pointer_error_panics :
    typedNil.argumentsMap.lookup "target" = some "sh" ∧
      (typedNil.lookupTask "sh").map (fun x => runTaskFunc x.2) =
        some (some GoError.nilCmdError) ∧
      (RunTarget 1 "sh" typedNil).2 = Res.ret (some GoError.nilCmdError) ∧
      checkDeferedErrors (RunTarget 1 "sh" typedNil).1.heap
        (RunTarget 1 "sh" typedNil).1.taskRun (some GoError.nilCmdError) =
          some GoError.nilCmdError ∧
      (Execute 1 typedNil).2 = Exit.panic ∧
      (∀ c, (Execute 1 typedNil).2 ≠ Exit.code c) ∧
      (RunTarget 1 "sh" typedNilDeferred).2 = Res.ret none ∧
      checkDeferedErrors (RunTarget 1 "sh" typedNilDeferred).1.heap
        (RunTarget 1 "sh" typedNilDeferred).1.taskRun none = some GoError.nilExitError ∧
      (Execute 1 typedNilDeferred).2 = Exit.panic := by
  refine ⟨by decide, by decide, by decide, by decide, by decide, ?_, by decide, by decide,
    by decide⟩
  intro c h
  have h2 : (Execute 1 typedNil).2 = Exit.panic := by decide
  rw [h2] at h
  cases h

/-- C12, amended: the mapping holds for every final error value except a nil
pointer of type `*execr.CmdError` or `*exec.ExitError` held in a non-nil error. When
`RunTarget` returns, `Execute` returns 0 if the final error is nil, the carried
`ExitCode` if it is a non-nil `*execr.CmdError`, the carried exit code if it is a
non-nil `*exec.ExitError`, and 1 for every other error that is not one of the two
nil pointers; for each of the two nil pointers `Execute` panics and returns no exit
code. `Execute` returns if and only if `RunTarget` returns and the final error is
not one of the two nil pointers. When no target argument is present, `Execute`
returns 0 and leaves the whole state as it was: no action is invoked and the run
history does not change. -/
theorem C12_exit_code_mapping_of_non_nil_pointer (fuel : Nat) (s : State) :
    (s.argumentsMap.lookup "target" = none → Execute fuel s = (s, Exit.code 0)) ∧
      (∀ target, s.argumentsMap.lookup "target" = some target →
        ((RunTarget fuel target s).2 = Res.timeout → (Execute fuel s).2 = Exit.timeout) ∧
        ∀ err, (RunTarget fuel target s).2 = Res.ret err →
        (checkDeferedErrors (RunTarget fuel target s).1.heap
            (RunTarget fuel target s).1.taskRun err = none →
          (Execute fuel s).2 = Exit.code 0) ∧
        (∀ c, checkDeferedErrors (RunTarget fuel target s).1.heap
            (RunTarget fuel target s).1.taskRun err = some (GoError.CmdError c) →
          (Execute fuel s).2 = Exit.code c) ∧
        (∀ c, checkDeferedErrors (RunTarget fuel target s).1.heap
            (RunTarget fuel target s).1.taskRun err = some (GoError.ExitError c) →
          (Execute fuel s).2 = Exit.code c) ∧
        (∀ m, checkDeferedErrors (RunTarget fuel target s).1.heap
            (RunTarget fuel target s).1.taskRun err = some (GoError.errorString m) →
          (Execute fuel s).2 = Exit.code 1) ∧
        (checkDeferedErrors (RunTarget fuel target s).1.heap
            (RunTarget fuel target s).1.taskRun err = some GoError.nilCmdError →
          (Execute fuel s).2 = Exit.panic) ∧
        (checkDeferedErrors (RunTarget fuel target s).1.heap
            (RunTarget fuel target s).1.taskRun err = some GoError.nilExitError →
          (Execute fuel s).2 = Exit.panic) ∧
        ((∃ c, (Execute fuel s).2 = Exit.code c) ↔
          checkDeferedErrors (RunTarget fuel target s).1.heap
              (RunTarget fuel target s).1.taskRun err ≠ some GoError.nilCmdError ∧
            checkDeferedErrors (RunTarget fuel target s).1.heap
              (RunTarget fuel target s).1.taskRun err ≠ some GoError.nilExitError)) := by
  refine ⟨fun h => Execute_no_target h fuel, ?_⟩
  intro target harg
  refine ⟨?_, ?_⟩
  · intro hto
    rw [Execute_target harg, hto]
  intro err hret
  have hexec : (Execute fuel s).2 = exitCodeOf (checkDeferedErrors
      (RunTarget fuel target s).1.heap (RunTarget fuel target s).1.taskRun err) := by
    rw [Execute_target harg, hret]
  refine ⟨?_, ?_, ?_, ?_, ?_, ?_, ?_⟩
  · intro h; rw [hexec, h]; rfl
  · intro c h; rw [hexec, h]; rfl
  · intro c h; rw [hexec, h]; rfl
  · intro m h; rw [hexec, h]; rfl
  · intro h; rw [hexec, h]; rfl
  · intro h; rw [hexec, h]; rfl
  · rw [hexec]
    cases checkDeferedErrors (RunTarget fuel target s).1.heap
        (RunTarget fuel target s).1.taskRun err with
    | none => simp [exitCodeOf]
    | some e => cases e <;> simp [exitCodeOf]

/-- With three registered tasks and no target argument `Execute` returns 0 and
changes nothing; in `failingChain` the final error is a generic one and the exit
code is 1; in `twoDeferred` it is a command error and the exit code is the one it
carries. -/
theorem C12_exit_code_mapping_of_non_nil_pointer_witness :
    Execute 5 discovery = (discovery, Exit.code 0) ∧ discovery.heap.length = 3 ∧
      (Execute 5 failingChain).2 = Exit.code 1 ∧
      (Execute 2 twoDeferred).2 = Exit.code 3 :=
  ⟨(C12_exit_code_mapping_of_non_nil_pointer 5 discovery).1 (by decide), by decide,
    (((C12_exit_code_mapping_of_non_nil_pointer 5 failingChain).2 "deploy" (by decide)).2
      (some (GoError.errorString "tests failed")) (by decide)).2.2.2.1
      "tests failed" (by decide),
    (((C12_exit_code_mapping_of_non_nil_pointer 2 twoDeferred).2 "third" (by decide)).2
      (some (GoError.CmdError 7)) (by decide)).2.1 3 (by decide)⟩

/-! ## C13: building the edge lists -/

theorem mem_dedupFirst (ns : List String) (n : String) : n ∈ dedupFirst ns ↔ n ∈ ns := by
  induction ns with
  | nil => simp [dedupFirst]
  | cons m ns ih =>
    simp only [dedupFirst, List.mem_cons, List.mem_filter, ih, bne_iff_ne, ne_eq]
    by_cases h : n = m <;> simp [h]

theorem nodup_dedupFirst (ns : List String) : (dedupFirst ns).Nodup := by
  induction ns with
  | nil => simp [dedupFirst]
  | cons m ns ih =>
    simp only [dedupFirst, List.nodup_cons, List.mem_filter, bne_self_eq_false,
      Bool.false_eq_true, and_false, not_false_eq_true, true_and]
    exact ih.filter _

theorem filter_dedupFirst (ns : List String) (P : String → Bool) :
    (dedupFirst ns).filter P = dedupFirst (ns.filter P) := by
  induction ns with
  | nil => simp [dedupFirst]
  | cons m ns ih =>
    simp only [dedupFirst, List.filter_cons]
    split
    · simp only [dedupFirst, List.filter_filter, ← ih]
      congr 1
      apply List.filter_congr
      intro x _
      exact Bool.and_comm _ _
    · next hm =>
      rw [List.filter_filter, ← ih]
      apply List.filter_congr
      intro x hx
      by_cases hxm : x = m
      · subst hxm; simp [hm]
      · simp [hxm]

theorem appendNew_eq (ns keys acc : List String) :
    appendNew ns keys acc = acc ++ dedupFirst (ns.filter (fun n => decide (n ∉ keys))) := by
  induction ns generalizing keys acc with
  | nil => simp [appendNew, dedupFirst]
  | cons n ns ih =>
    simp only [appendNew, List.filter_cons]
    by_cases h : n ∈ keys
    · simp only [h, if_true, not_true_eq_false, decide_False, Bool.false_eq_true, if_false]
      exact ih keys acc
    · simp only [h, if_false, not_false_eq_true, decide_True, if_true, dedupFirst]
      rw [ih, List.append_assoc, filter_dedupFirst, List.filter_filter]
      congr 2
      simp only [List.singleton_append, List.cons.injEq, true_and]
      congr 1
      apply List.filter_congr
      intro x _
      by_cases hx : x = n
      · subst hx; simp
      · simp [hx]

/-- C13: `DependsOn(ns...)` leaves the task object with `dependencies` equal to the
old list followed by the names of `ns` without repetitions (first occurrences, in
call order) and changes no other field; a name of `ns` that is already in the old
list is appended once more. Applied through a handle, it changes only the task
object the handle points to and leaves the registry as it was. The same holds for
`DependeeOf` and `dependees`. -/
theorem C13_edge_lists (t : TaskObject) (ns : List String) (s : State) (p : Nat) :
    t.DependsOn ns = { t with dependencies := t.dependencies ++ dedupFirst ns } ∧
      t.DependeeOf ns = { t with dependees := t.dependees ++ dedupFirst ns } ∧
      (∀ n ∈ ns, (t.DependsOn ns).dependencies.count n = t.dependencies.count n + 1) ∧
      (∀ n ∈ ns, (t.DependeeOf ns).dependees.count n = t.dependees.count n + 1) ∧
      (s.heap[p]? = some t →
        (s.configure p (fun o => o.DependsOn ns)).heap[p]? = some (t.DependsOn ns) ∧
        (s.configure p (fun o => o.DependeeOf ns)).heap[p]? = some (t.DependeeOf ns)) ∧
      (∀ q, q ≠ p →
        (s.configure p (fun o => o.DependsOn ns)).heap[q]? = s.heap[q]? ∧
        (s.configure p (fun o => o.DependeeOf ns)).heap[q]? = s.heap[q]?) ∧
      (s.configure p (fun o => o.DependsOn ns)).taskMap = s.taskMap ∧
      (s.configure p (fun o => o.DependeeOf ns)).taskMap = s.taskMap := by
  have h1 : t.DependsOn ns = { t with dependencies := t.dependencies ++ dedupFirst ns } := by
    simp [TaskObject.DependsOn, appendNew_eq]
  have h2 : t.DependeeOf ns = { t with dependees := t.dependees ++ dedupFirst ns } := by
    simp [TaskObject.DependeeOf, appendNew_eq]
  have hcount : ∀ n ∈ ns, (dedupFirst ns).count n = 1 := by
    intro n hn
    exact List.count_eq_one_of_mem (nodup_dedupFirst ns) ((mem_dedupFirst ns n).mpr hn)
  refine ⟨h1, h2, ?_, ?_, ?_, ?_, rfl, rfl⟩
  · intro n hn
    rw [h1]
    simp [List.count_append, hcount n hn]
  · intro n hn
    rw [h2]
    simp [List.count_append, hcount n hn]
  · intro hp
    simp [State.configure, List.getElem?_modify, hp]
  · intro q hq
    have hpq : ¬ p = q := fun h => hq h.symm
    simp [State.configure, List.getElem?_modify, hpq]


/-- Two calls of `DependsOn`: `x` is listed twice in the second call and once more in
the result, `nowhere` is already a dependency and is appended again. -/
theorem C13_edge_lists_witness :
    (doneTask.DependsOn ["x", "nowhere", "x"]).dependencies = ["nowhere", "x", "nowhere"] ∧
      (doneTask.DependsOn ["x", "nowhere", "x"]).dependees = ["nobody"] := by
  rw [(C13_edge_lists doneTask ["x", "nowhere", "x"] alreadyRan 0).1]
  decide

/-! ## C14: run-history uniqueness -/

/-- C14: the state reached from the fresh registry `bothWays` by the terminating
call `RunTarget("T")` has the task object of `T` (pointer 0) twice in the run
history, so the durations of the history add up to 3 although the two tasks took
1 each. -/
theorem C14_history_has_duplicate :
    Fresh bothWays ∧ Reachable (RunTarget 4 "T" bothWays).1 ∧
      (RunTarget 4 "T" bothWays).2 = Res.ret none ∧
      (RunTarget 4 "T" bothWays).1.taskRun.count 0 = 2 ∧
      ¬ (RunTarget 4 "T" bothWays).1.taskRun.Nodup ∧
      ((RunTarget 4 "T" bothWays).1.taskRun.map
        (fun p => ((RunTarget 4 "T" bothWays).1.heap.getD p doneTask).duration)).sum = 3 := by
  have hf : Fresh bothWays := by unfold Fresh; decide
  exact ⟨hf, Reachable.run bothWays 4 "T" (Reachable.fresh bothWays hf), by decide, by decide,
    by decide, by decide⟩

/-! ## C15: linear chains -/

theorem IsChainFrom.congr {s s' : State} (h : ∀ n, s'.lookupTask n = s.lookupTask n) :
    ∀ (deps : List String) (chain : List Link), IsChainFrom s deps chain →
      IsChainFrom s' deps chain
  | _, [], _ => trivial
  | _, l :: rest, ⟨h1, h2, h3, h4, h5, h6⟩ =>
    ⟨by rw [h]; exact h1, h2, h3, h4, h5, IsChainFrom.congr h [l.name] rest h6⟩

theorem IsChainFrom.snoc {s : State} :
    ∀ (deps : List String) (init : List Link) (l : Link),
      IsChainFrom s deps (init ++ [l]) →
      IsChainFrom s deps init ∧ s.lookupTask l.name = some (l.ptr, l.task) ∧
        l.task.dependencies = (match init.getLast? with
          | none => deps
          | some a => [a.name]) ∧
        l.task.dependees = [] ∧ l.task.continueOnError = false ∧
        l.task.deferOnError = false
  | deps, [], l, ⟨h1, h2, h3, h4, h5, _⟩ => ⟨trivial, h1, h2, h3, h4, h5⟩
  | deps, a :: init, l, ⟨h1, h2, h3, h4, h5, h6⟩ => by
    obtain ⟨g1, g2, g3, g4, g5, g6⟩ := IsChainFrom.snoc [a.name] init l h6
    refine ⟨⟨h1, h2, h3, h4, h5, g1⟩, g2, ?_, g4, g5, g6⟩
    rw [g3]
    cases init with
    | nil => rfl
    | cons b init =>
      rw [List.getLast?_cons_cons]
      cases hb : (b :: init).getLast? with
      | none => simp at hb
      | some c => rfl

theorem chainResult_snoc (init : List Link) (l : Link) :
    chainResult (init ++ [l]) =
      (match chainResult init with
       | some e => some e
       | none => runTaskFunc l.task) := by
  induction init with
  | nil =>
    simp only [List.nil_append, chainResult]
    cases runTaskFunc l.task <;> rfl
  | cons a init ih =>
    simp only [List.cons_append, chainResult]
    cases runTaskFunc a.task with
    | some e => rfl
    | none => exact ih

theorem chainHistory_of_none (chain : List Link) (h : chainResult chain = none) :
    chainHistory chain = chain.map Link.ptr := by
  induction chain with
  | nil => rfl
  | cons a chain ih =>
    simp only [chainResult] at h
    simp only [chainHistory, List.map_cons]
    cases ha : runTaskFunc a.task with
    | some e => rw [ha] at h; cases h
    | none =>
      rw [ha] at h
      simp only [ih h]

theorem chainHistory_snoc (init : List Link) (l : Link) :
    chainHistory (init ++ [l]) =
      (match chainResult init with
       | some _ => chainHistory init
       | none => init.map Link.ptr ++ [l.ptr]) := by
  induction init with
  | nil =>
    simp only [List.nil_append, chainHistory, chainResult, List.map_nil]
    cases runTaskFunc l.task <;> rfl
  | cons a init ih =>
    simp only [List.cons_append, chainHistory, chainResult, List.map_cons]
    cases runTaskFunc a.task with
    | some e => rfl
    | none =>
      show a.ptr :: chainHistory (init ++ [l]) = _
      rw [ih]
      cases chainResult init <;> rfl

theorem chainHistory_subset (chain : List Link) :
    ∀ q ∈ chainHistory chain, q ∈ chain.map Link.ptr := by
  induction chain with
  | nil => intro q hq; simp [chainHistory] at hq
  | cons a chain ih =>
    intro q hq
    simp only [chainHistory] at hq
    simp only [List.map_cons, List.mem_cons]
    cases ha : runTaskFunc a.task with
    | some e =>
      rw [ha] at hq
      simp only [List.mem_singleton] at hq
      exact Or.inl hq
    | none =>
      rw [ha] at hq
      simp only [List.mem_cons] at hq
      rcases hq with hq | hq
      · exact Or.inl hq
      · exact Or.inr (ih q hq)

theorem checkDeferedErrors_none (heap : List TaskObject) (runs : List Nat)
    (err : Option GoError)
    (h : ∀ q ∈ runs, ∀ o, heap[q]? = some o → o.deferedErr = none) :
    checkDeferedErrors heap runs err = err := by
  induction runs with
  | nil => rfl
  | cons q runs ih =>
    have ih' := ih (fun q' hq' => h q' (List.mem_cons_of_mem _ hq'))
    simp only [checkDeferedErrors]
    split
    · next o ho =>
      rw [h q (List.mem_cons_self _ _) o ho]
      exact ih'
    · exact ih'

/-- Running the last task of a chain none of whose tasks has run. -/
theorem RunTarget_chain (chain : List Link) :
    ∀ (s : State) (fuel : Nat) (last : Link), IsChainFrom s [] chain →
      (chain.map Link.ptr).Nodup → (∀ l ∈ chain, l.task.didRun = false) →
      chain.getLast? = some last → chain.length ≤ fuel →
      (RunTarget fuel last.name s).2 = Res.ret (chainResult chain) ∧
        (RunTarget fuel last.name s).1.taskRun = s.taskRun ++ chainHistory chain ∧
        (∀ q, q ∉ chainHistory chain → (RunTarget fuel last.name s).1.heap[q]? = s.heap[q]?) ∧
        (∀ l ∈ chain, l.ptr ∈ chainHistory chain →
          (RunTarget fuel last.name s).1.heap[l.ptr]? = some l.task.finished) := by
  induction chain using List.reverseRecOn with
  | nil => intro s fuel last _ _ _ hlast; simp at hlast
  | append_singleton init l ih =>
    intro s fuel last hchain hnodup hnot hlast hfuel
    have hl : last = l := by simpa using hlast.symm
    subst hl
    obtain ⟨hinit, hreg, hdeps, hdees, hc, hd⟩ := IsChainFrom.snoc [] init last hchain
    have hrun : last.task.didRun = false := hnot last (by simp)
    have hadj : last.task.adjustedErr = runTaskFunc last.task := adjustedErr_of_no_flag hc hd
    have hnodup' : (init.map Link.ptr).Nodup ∧ last.ptr ∉ init.map Link.ptr := by
      rw [List.map_append, List.nodup_append] at hnodup
      refine ⟨hnodup.1, ?_⟩
      intro hmem
      exact hnodup.2.2 hmem (by simp)
    obtain ⟨fuel, rfl⟩ : ∃ f, fuel = f + 1 := by
      refine ⟨fuel - 1, ?_⟩
      simp at hfuel
      omega
    have hreg' := lookupTask_eq_some.mp hreg
    cases hlast' : init.getLast? with
    | none =>
      -- the chain is the single task `last`
      have hnil : init = [] := by
        cases init with
        | nil => rfl
        | cons a init => simp [List.getLast?_cons] at hlast'
      subst hnil
      rw [hlast'] at hdeps
      rw [RunTarget_leaf fuel s last.name last.ptr last.task hreg hrun hdeps hdees, hadj]
      have hself := runTask_heap_self (s.emit (Event.enter last.name)) last.ptr last.task
        last.task hreg'.2
      have hres : chainResult [last] = runTaskFunc last.task := by
        simp only [chainResult]
        cases runTaskFunc last.task <;> rfl
      have hhist : chainHistory [last] = [last.ptr] := by
        simp only [chainHistory]
        cases runTaskFunc last.task <;> rfl
      rw [List.nil_append]
      refine ⟨by rw [hres], by rw [hhist]; rfl, ?_, ?_⟩
      · intro q hq
        rw [hhist, List.mem_singleton] at hq
        exact runTask_heap_other _ last.ptr q last.task (fun h => hq h.symm)
      · intro l hl _
        simp only [List.mem_singleton] at hl
        subst hl
        exact hself
    | some prev =>
      rw [hlast'] at hdeps
      simp only at hdeps
      have hinit' : IsChainFrom (s.emit (Event.enter last.name)) [] init :=
        @IsChainFrom.congr s (s.emit (Event.enter last.name)) (fun _ => rfl) [] init hinit
      have hlen : init.length ≤ fuel := by
        simp at hfuel
        omega
      obtain ⟨i1, i2, i3, i4⟩ := ih (s.emit (Event.enter last.name)) fuel prev hinit'
        hnodup'.1 (fun l hl => hnot l (by simp [hl])) hlast' hlen
      have hl' : (s.emit (Event.enter last.name)).lookupTask last.name =
          some (last.ptr, last.task) := hreg
      have hstep : RunTarget (fuel + 1) last.name s =
          (match chainResult init with
           | some e => ((RunTarget fuel prev.name (s.emit (Event.enter last.name))).1,
               Res.ret (some e))
           | none => (((RunTarget fuel prev.name (s.emit (Event.enter last.name))).1.runTask
               last.ptr last.task).1, Res.ret (runTaskFunc last.task))) := by
        rw [RunTarget_succ, hl']
        simp only [hrun, Bool.false_eq_true, if_false, hdeps, runEach_cons, runEach, hdees]
        cases hres : chainResult init with
        | some e =>
          rw [hres] at i1
          have hne : ¬ (RunTarget fuel prev.name (s.emit (Event.enter last.name))).2 =
              Res.ret none := by rw [i1]; simp
          simp only [hne, if_false]
          exact Prod.ext rfl i1
        | none =>
          rw [hres] at i1
          simp only [i1, if_true]
          have hq : last.ptr ∉ chainHistory init := fun h =>
            hnodup'.2 (chainHistory_subset init _ h)
          have hheap : (RunTarget fuel prev.name (s.emit (Event.enter last.name))).1.heap[
              last.ptr]? = some last.task := by
            rw [i3 last.ptr hq]; exact hreg'.2
          have herr := runTask_err _ last.ptr last.task last.task hheap
          rw [hadj] at herr
          cases hr : runTaskFunc last.task with
          | some e => simp only [herr, hr]
          | none => simp only [herr, hr]
      rw [hstep, chainResult_snoc, chainHistory_snoc]
      cases hres : chainResult init with
      | some e =>
        simp only
        refine ⟨trivial, i2, i3, ?_⟩
        intro l hl hmem
        rcases List.mem_append.mp hl with hl | hl
        · exact i4 l hl hmem
        · simp only [List.mem_singleton] at hl
          subst hl
          exact absurd (chainHistory_subset init _ hmem) hnodup'.2
      | none =>
        simp only
        have hhist := chainHistory_of_none init hres
        have hq : last.ptr ∉ chainHistory init := fun h =>
          hnodup'.2 (chainHistory_subset init _ h)
        have hheap : (RunTarget fuel prev.name (s.emit (Event.enter last.name))).1.heap[
            last.ptr]? = some last.task := by
          rw [i3 last.ptr hq]; exact hreg'.2
        refine ⟨trivial, ?_, ?_, ?_⟩
        · show (RunTarget fuel prev.name (s.emit (Event.enter last.name))).1.taskRun ++
            [last.ptr] = _
          rw [i2, hhist, List.append_assoc]
          rfl
        · intro q hq'
          simp only [List.mem_append, List.mem_singleton, not_or] at hq'
          rw [runTask_heap_other _ last.ptr q last.task (fun h => hq'.2 h.symm)]
          exact i3 q (by rw [hhist]; exact hq'.1)
        · intro l hl _
          rcases List.mem_append.mp hl with hl | hl
          · have hmem : l.ptr ∈ init.map Link.ptr := List.mem_map_of_mem _ hl
            have hne : last.ptr ≠ l.ptr := fun h => hnodup'.2 (h ▸ hmem)
            rw [runTask_heap_other _ last.ptr l.ptr last.task hne]
            exact i4 l hl (by rw [hhist]; exact hmem)
          · simp only [List.mem_singleton] at hl
            subst hl
            exact runTask_heap_self _ l.ptr l.task l.task hheap


theorem IsChainFrom.mem {s : State} :
    ∀ (deps : List String) (chain : List Link), IsChainFrom s deps chain →
      ∀ l ∈ chain, s.lookupTask l.name = some (l.ptr, l.task) ∧ l.task.deferOnError = false
  | _, [], _ => fun l hl => by simp at hl
  | _, a :: rest, ⟨h1, _, _, _, h5, h6⟩ => fun l hl => by
    rcases List.mem_cons.mp hl with rfl | hl
    · exact ⟨h1, h5⟩
    · exact IsChainFrom.mem [a.name] rest h6 l hl

theorem chainHistory_eq_take (chain : List Link) :
    chainHistory chain = (chain.map Link.ptr).take (chain.findIdx Link.fails + 1) := by
  induction chain with
  | nil => rfl
  | cons a chain ih =>
    simp only [chainHistory, List.findIdx_cons, Link.fails, List.map_cons]
    cases ha : runTaskFunc a.task with
    | some e => simp
    | none => simp [ih, Link.fails]

theorem chainResult_eq_find (chain : List Link) :
    chainResult chain = (chain.find? Link.fails).bind (fun l => runTaskFunc l.task) := by
  induction chain with
  | nil => rfl
  | cons a chain ih =>
    simp only [chainResult, List.find?_cons, Link.fails]
    cases ha : runTaskFunc a.task with
    | some e => simp [ha]
    | none => simpa using ih

/-- C15: for every fresh state and every chain `t1, ..., tn` of distinct registered
tasks with no policy flags and no dependees, where `t1` has no dependencies and
each `t(i+1)` depends exactly on `t(i)`: `RunTarget(tn)` returns the error of the
first task whose action fails (nil if none fails) and leaves the run history
equal to `[t1, ..., tk]`, where `tk` is the first task whose action fails (`k = n`
if none fails); and `Execute` with target `tn` returns the exit code of that
error, which is 1 for a generic error. -/
theorem C15_linear_chain (s : State) (chain : List Link) (last : Link) (fuel : Nat)
    (hfresh : Fresh s) (hchain : IsChain s chain) (hlast : chain.getLast? = some last)
    (hfuel : chain.length ≤ fuel) :
    (RunTarget fuel last.name s).2 = Res.ret (chainResult chain) ∧
      (RunTarget fuel last.name s).1.taskRun = chainHistory chain ∧
      chainHistory chain = (chain.map Link.ptr).take (chain.findIdx Link.fails + 1) ∧
      chainResult chain = (chain.find? Link.fails).bind (fun l => runTaskFunc l.task) ∧
      (s.argumentsMap.lookup "target" = some last.name →
        (Execute fuel s).2 = exitCodeOf (chainResult chain) ∧
        ∀ msg, chainResult chain = some (GoError.errorString msg) →
          (Execute fuel s).2 = Exit.code 1) := by
  have hmem := IsChainFrom.mem [] chain hchain.1
  have hnot : ∀ l ∈ chain, l.task.didRun = false := by
    intro l hl
    exact (hfresh.2.2 l.task (List.getElem?_mem (lookupTask_eq_some.mp (hmem l hl).1).2)).1
  obtain ⟨h1, h2, -, h4⟩ := RunTarget_chain chain s fuel last hchain.1 hchain.2 hnot hlast hfuel
  rw [hfresh.1, List.nil_append] at h2
  refine ⟨h1, h2, chainHistory_eq_take chain, chainResult_eq_find chain, ?_⟩
  intro harg
  have hexec : (Execute fuel s).2 = exitCodeOf (chainResult chain) := by
    rw [Execute_target harg, h1]
    simp only
    rw [checkDeferedErrors_none]
    intro q hq o ho
    rw [h2] at hq
    obtain ⟨l, hl, rfl⟩ := List.mem_map.mp (chainHistory_subset chain q hq)
    rw [h4 l hl hq] at ho
    cases ho
    have hdef : l.task.deferedErr = none :=
      (hfresh.2.2 l.task (List.getElem?_mem (lookupTask_eq_some.mp (hmem l hl).1).2)).2.2.1
    simp [TaskObject.finished, finishTask, (hmem l hl).2, hdef]
  refine ⟨hexec, ?_⟩
  intro msg hmsg
  rw [hexec, hmsg]
  rfl

/-- The chain `build`, `test`, `deploy`: when every action succeeds the tasks run in
this order and `RunTarget("deploy")` returns nil; when the action of `test` fails,
only `build` and `test` run and `Execute` returns 1. -/
theorem C15_linear_chain_witness :
    ((RunTarget 3 "deploy" okChain).2 = Res.ret none ∧
        (RunTarget 3 "deploy" okChain).1.taskRun = [0, 1, 2]) ∧
      ((RunTarget 3 "deploy" failingChain).2 =
          Res.ret (some (GoError.errorString "tests failed")) ∧
        (RunTarget 3 "deploy" failingChain).1.taskRun = [0, 1] ∧
        (Execute 3 failingChain).2 = Exit.code 1) :=
  have hok := C15_linear_chain okChain (linksOf okChain)
    { name := "deploy", ptr := 2, task := okChain.heap.getD 2 doneTask } 3
    (by unfold Fresh; decide)
    ⟨⟨by decide, by decide, by decide, by decide, by decide,
      by decide, by decide, by decide, by decide, by decide,
      by decide, by decide, by decide, by decide, by decide, trivial⟩, by decide⟩
    (by decide) (by decide)
  have hfail := C15_linear_chain failingChain (linksOf failingChain)
    { name := "deploy", ptr := 2, task := failingChain.heap.getD 2 doneTask } 3
    (by unfold Fresh; decide)
    ⟨⟨by decide, by decide, by decide, by decide, by decide,
      by decide, by decide, by decide, by decide, by decide,
      by decide, by decide, by decide, by decide, by decide, trivial⟩, by decide⟩
    (by decide) (by decide)
  ⟨⟨hok.1, hok.2.1⟩, hfail.1, hfail.2.1, (hfail.2.2.2.2 (by decide)).2 "tests failed" (by decide)⟩

/-! ## C16: panics become errors -/

/-- C16, as stated, fails: not every panic becomes an error. In `panickingNil` the
action of `build` calls `panic(nil)` and `recover()` returns nil, so the test
`r != nil` on line 144 fails and `runTaskFunc` returns nil. `RunTarget("build")`
then treats the action as a success: the stored `err` of `build` is nil,
`RunTarget` returns nil and goes on to run the dependee `notify`. -/
theorem C16_nil_panic_counts_as_success :
    (panickingNil.lookupTask "build").map (fun x => (x.1, x.2.taskFunc.outcome,
        x.2.dependees)) = some (0, Outcome.panicked none, ["notify"]) ∧
      (panickingNil.lookupTask "build").map (fun x => (x.2.deferOnError,
        x.2.continueOnError, runTaskFunc x.2)) = some (false, false, none) ∧
      (RunTarget 2 "build" panickingNil).2 = Res.ret none ∧
      (RunTarget 2 "build" panickingNil).1.events =
        [Event.enter "build", Event.action 0, Event.enter "notify", Event.action 1] ∧
      (RunTarget 2 "build" panickingNil).1.taskRun = [0, 1] ∧
      ((RunTarget 2 "build" panickingNil).1.heap[0]?.map
        (fun t => (t.didRun, t.err, t.deferedErr))) = some (true, none, none) ∧
      (Execute 2 panickingNil).2 = Exit.code 0 := by
  refine ⟨by decide, by decide, by decide, by decide, by decide, by decide, by decide⟩

/-- C16, amended: for every task object `t` whose action panics with a value for
which `recover()` returns a non-nil value, printing as `r` (every panic except
`panic(nil)` in a program running with the panic semantics of Go before 1.21):
`runTaskFunc` returns the error "Task panicked: r"; `finishTask` applies the
error policy to it and writes the run-result fields exactly as for an action that
returns this error; whenever a run of `RunTarget` invokes the action, the task
object ends up with `didRun` set, in the run history, with the policy-adjusted
`err` and, under `deferOnError`, with the error as `deferedErr`; and without a
policy flag, `RunTarget` for this task returns the error right after the action,
once its dependencies have returned nil, without walking the dependees. -/
theorem C16_recovered_panic_becomes_error (t : TaskObject) (r : String)
    (hpanic : t.taskFunc.outcome = Outcome.panicked (some r)) :
    runTaskFunc t = some (GoError.errorString ("Task panicked: " ++ r)) ∧
      (finishTask t).2 = (finishTask (t.withOutcome (Outcome.returned
          (some (GoError.errorString ("Task panicked: " ++ r)))))).2 ∧
      (finishTask t).1 = (finishTask (t.withOutcome (Outcome.returned
          (some (GoError.errorString ("Task panicked: " ++ r)))))).1.withOutcome
        (Outcome.panicked (some r)) ∧
      (∀ fuel target s p, s.heap[p]? = some t →
        Event.action p ∈ s.newEvents (RunTarget fuel target s).1 →
        p ∈ (RunTarget fuel target s).1.taskRun ∧
        ∃ t', (RunTarget fuel target s).1.heap[p]? = some t' ∧ t'.didRun = true ∧
          t'.err = (if t.deferOnError || t.continueOnError then none
            else some (GoError.errorString ("Task panicked: " ++ r))) ∧
          (t.deferOnError = true →
            t'.deferedErr = some (GoError.errorString ("Task panicked: " ++ r)))) ∧
      (∀ fuel target s p, s.lookupTask target = some (p, t) → t.didRun = false →
        t.continueOnError = false → t.deferOnError = false →
        (runEach (RunTarget fuel) t.dependencies (s.emit (Event.enter target))).2 =
          Res.ret none →
        RunTarget (fuel + 1) target s =
          (((runEach (RunTarget fuel) t.dependencies
              (s.emit (Event.enter target))).1.runTask p t).1,
            Res.ret (some (GoError.errorString ("Task panicked: " ++ r))))) := by
  have hrun : runTaskFunc t = some (GoError.errorString ("Task panicked: " ++ r)) := by
    simp [runTaskFunc, hpanic]
  refine ⟨hrun, ?_, ?_, ?_, ?_⟩
  · simp [finishTask, runTaskFunc, hpanic, TaskObject.withOutcome]
  · obtain ⟨name, description, ⟨outcome, elapsed⟩, _⟩ := t
    simp only at hpanic
    simp [finishTask, runTaskFunc, hpanic, TaskObject.withOutcome]
  · intro fuel target s p hp hact
    have hT := RunTarget_traced fuel target s
    have hE := RunTarget_ext fuel target s
    refine ⟨?_, t.finished, hT.written p t hact hp, rfl, ?_, ?_⟩
    · rw [hE.taskRun_eq]
      exact List.mem_append_right _ (hT.appended p hact)
    · simp only [TaskObject.finished, finishTask, hrun]
      cases t.deferOnError <;> cases t.continueOnError <;> rfl
    · intro hd
      simp [TaskObject.finished, finishTask, hrun, hd]
  · intro fuel target s p hl hdid hc hd hdeps
    have hl' : (s.emit (Event.enter target)).lookupTask target = some (p, t) := hl
    have hE := runEach_ext (RunTarget fuel) (RunTarget_ext fuel) t.dependencies
      (s.emit (Event.enter target))
    have herr : ((runEach (RunTarget fuel) t.dependencies
        (s.emit (Event.enter target))).1.runTask p t).2 =
        some (GoError.errorString ("Task panicked: " ++ r)) := by
      rcases hE.heap p t (lookupTask_eq_some.mp hl').2 with h | h
      · rw [runTask_err _ p t t h, adjustedErr_of_no_flag hc hd, hrun]
      · rw [runTask_err _ p t t.finished h, adjustedErr_finished,
          adjustedErr_of_no_flag hc hd, hrun]
    rw [RunTarget_succ, hl']
    simp only [hdid, Bool.false_eq_true, if_false, hdeps, if_true, herr]

/-- In `panicking` the action of `build` panics: `RunTarget("build")` returns the error
made from the panic, `build` is in the run history, and its dependee `notify` is
not entered. -/
theorem C16_recovered_panic_becomes_error_witness :
    RunTarget 1 "build" panicking =
        ((((panicking.emit (Event.enter "build")).runTask 0
          (panicking.heap.getD 0 doneTask)).1),
          Res.ret (some (GoError.errorString "Task panicked: index out of range"))) ∧
      (RunTarget 1 "build" panicking).1.taskRun = [0] ∧
      (RunTarget 1 "build" panicking).1.events = [Event.enter "build", Event.action 0] :=
  ⟨(C16_recovered_panic_becomes_error (panicking.heap.getD 0 doneTask) "index out of range"
      (by decide)).2.2.2.2 0 "build" panicking 0 (by decide) (by decide) (by decide)
      (by decide) (by decide),
    by decide, by decide⟩

/-! ## C17: cycles -/

/-- C17, as stated, fails: the task `again` lists itself as a dependee, a cycle made
of a dependee edge, and `RunTarget("again")` returns nil after invoking the action
once; in `bothWays` the dependency edge from `T` to `B` and the dependee edge
from `B` to `T` form a cycle, and `RunTarget("T")` returns nil; and in
`failingBeforeCycle` the tasks `A` and `B` depend on each other, a cycle made of
dependency edges, but `A` depends on `F` first, the action of `F` fails, and
`RunTarget("A")` returns its error. -/
theorem C17_cycles_terminate :
    (selfDependee.lookupTask "again").map (fun x => (x.1, x.2.dependees, x.2.didRun)) =
        some (0, ["again"], false) ∧
      (RunTarget 2 "again" selfDependee).2 = Res.ret none ∧
      (RunTarget 2 "again" selfDependee).1.events =
        [Event.enter "again", Event.action 0, Event.enter "again"] ∧
      (bothWays.lookupTask "T").map (fun x => x.2.dependencies) = some ["B"] ∧
      (bothWays.lookupTask "B").map (fun x => x.2.dependees) = some ["T"] ∧
      (RunTarget 4 "T" bothWays).2 = Res.ret none ∧
      Fresh failingBeforeCycle ∧
      (failingBeforeCycle.lookupTask "A").map (fun x => x.2.dependencies) =
        some ["F", "B"] ∧
      (failingBeforeCycle.lookupTask "B").map (fun x => x.2.dependencies) = some ["A"] ∧
      (RunTarget 2 "A" failingBeforeCycle).2 =
        Res.ret (some (GoError.errorString "boom")) := by
  refine ⟨by decide, by decide, by decide, by decide, by decide, by decide,
    by unfold Fresh; decide, by decide, by decide, by decide⟩

/-- For every state and every list `C` of names such that each name in `C` is
registered to a task object that has not run and whose first dependency is again
in `C`, `RunTarget(target)` never returns for any target in `C`. -/
theorem RunTarget_first_dependency_cycle (s : State) (C : List String)
    (hC : ∀ n ∈ C, ∃ p t d rest, s.lookupTask n = some (p, t) ∧ t.didRun = false ∧
      t.dependencies = d :: rest ∧ d ∈ C)
    (target : String) (htarget : target ∈ C) (fuel : Nat) :
    (RunTarget fuel target s).2 = Res.timeout := by
  have key : ∀ (fuel : Nat) (s' : State), (∀ n, s'.lookupTask n = s.lookupTask n) →
      ∀ n ∈ C, (RunTarget fuel n s').2 = Res.timeout := by
    intro fuel
    induction fuel with
    | zero => intro s' _ n _; rfl
    | succ fuel ih =>
      intro s' hs' n hn
      obtain ⟨p, t, d, rest, hl, hd, hdeps, hdC⟩ := hC n hn
      refine RunTarget_first_dependency n d p t rest s' fuel (by rw [hs' n]; exact hl) hd
        hdeps ?_
      exact ih (s'.emit (Event.enter n)) hs' d hdC
  exact key fuel s (fun _ => rfl) target htarget

/-- C17, amended: for every fresh state and every target from which a cycle made of
dependency edges can be reached along dependency and dependee edges,
`RunTarget(target)` never returns nil, whatever the recursion bound, and the action
of a task that is on a cycle of dependency edges or depends, directly or
indirectly, on a task on one is never invoked. The run is stopped by an error
only: for every recursion bound it runs out of fuel if and only if, so far, it has
entered no name without a task object and invoked no action whose policy-adjusted
`err` is not nil. In particular the run never returns (it runs out of fuel for
every amount of fuel) when every name that can be reached from the target is
registered to a task object whose policy-adjusted `err` is nil or which is on a
cycle of dependency edges or depends on a task on one; and, more generally, when
the target is in a set of names that is `WalkClosed`: a set of registered names
that holds the dependencies and dependees that a walk enters, where the walk over
a list of names ends at the first name that is on a cycle of dependency edges or
depends on a task on one, and where the policy-adjusted `err` of every task whose
action the walk can invoke is nil. -/
theorem C17_dependency_cycle_stops_only_by_error (s : State) (target n : String)
    (hfresh : Fresh s) (hreach : Relation.ReflTransGen (Edge s) target n)
    (hcycle : Relation.TransGen (DepEdge s) n n) :
    (∀ fuel, (RunTarget fuel target s).2 ≠ Res.ret none) ∧
      (∀ (fuel : Nat) (k : String) (p : Nat), Doomed s k → s.taskMap.lookup k = some p →
        Event.action p ∉ (RunTarget fuel target s).1.events) ∧
      (∀ fuel, (RunTarget fuel target s).2 = Res.timeout ↔
        ((∀ k, Event.enter k ∈ (RunTarget fuel target s).1.events →
            s.lookupTask k ≠ none) ∧
          (∀ (p : Nat) (t : TaskObject), Event.action p ∈ (RunTarget fuel target s).1.events →
            s.heap[p]? = some t → t.adjustedErr = none))) ∧
      ((∀ k, Relation.ReflTransGen (Edge s) target k →
          ∃ p t, s.lookupTask k = some (p, t) ∧ (t.adjustedErr = none ∨ Doomed s k)) →
        ∀ fuel, (RunTarget fuel target s).2 = Res.timeout) ∧
      (∀ L : String → Prop, L target → WalkClosed s L →
        ∀ fuel, (RunTarget fuel target s).2 = Res.timeout) := by
  have hnew : ∀ fuel, s.newEvents (RunTarget fuel target s).1 =
      (RunTarget fuel target s).1.events := by
    intro fuel
    simp [State.newEvents, hfresh.2.1]
  have first : ∀ fuel, (RunTarget fuel target s).2 ≠ Res.ret none := by
    intro fuel hres
    obtain ⟨p, t, hl, hd, -⟩ := RunTarget_reaches_all hfresh hres hreach
    obtain ⟨hS, -⟩ := RunTarget_sound fuel target s hfresh.good
    have hE := RunTarget_ext fuel target s
    have hrun := hS.good.ran p t (lookupTask_eq_some.mp hl).2 hd
    have hk : s.taskMap.lookup n = some p := by
      rw [← hE.taskMap]; exact (lookupTask_eq_some.mp hl).1
    exact Doomed.never_runs hfresh fuel target hk ⟨n, Relation.ReflTransGen.refl, hcycle⟩
      ((hS.good.logged p).mpr hrun)
  have third : ∀ fuel, (RunTarget fuel target s).2 = Res.timeout ↔
      ((∀ k, Event.enter k ∈ (RunTarget fuel target s).1.events → s.lookupTask k ≠ none) ∧
        (∀ (p : Nat) (t : TaskObject), Event.action p ∈ (RunTarget fuel target s).1.events →
          s.heap[p]? = some t → t.adjustedErr = none)) := by
    intro fuel
    obtain ⟨hS, -⟩ := RunTarget_sound fuel target s hfresh.good
    have hT := RunTarget_traced fuel target s
    have hE := RunTarget_ext fuel target s
    constructor
    · intro htime
      constructor
      · intro k hk hnone
        rw [← hnew fuel] at hk
        have := hT.missing k hk hnone
        rw [htime] at this
        cases this
      · intro p t hact hp
        rw [← hnew fuel] at hact
        cases hadj : t.adjustedErr with
        | none => rfl
        | some e =>
          have := hS.err p t.finished e (hT.appended p hact) (hT.written p t hact hp)
            (by rw [finished_err]; exact hadj)
          rw [htime] at this
          cases this
    · rintro ⟨c1, c2⟩
      cases hr : (RunTarget fuel target s).2 with
      | timeout => rfl
      | ret err =>
        cases err with
        | none => exact absurd hr (first fuel)
        | some e =>
          rcases hS.origin e hr with ⟨m, -, hm, hnone⟩ | ⟨p, t, hp, ht, hte⟩
          · rw [hnew fuel] at hm
            exact absurd hnone (c1 m hm)
          · obtain ⟨t', ht', hdid⟩ := hS.good.history p hp
            rw [ht] at ht'
            cases ht'
            obtain ⟨t0, ht0, rfl⟩ := hfresh.ran_finished hE ht hdid
            have := c2 p t0 ((hS.good.logged p).mpr hp) ht0
            rw [finished_err, this] at hte
            cases hte
  refine ⟨first, fun fuel k p hd hk => Doomed.never_runs hfresh fuel target hk hd, third, ?_,
    ?_⟩
  rotate_left
  · intro L ht hL fuel
    rcases RunTarget_walk s L hL fuel target s (Extends.refl s) hfresh.unharmed ht with
      h | ⟨h, -, -⟩
    · exact h
    · exact absurd h (first fuel)
  intro H fuel
  refine (third fuel).mpr ⟨?_, ?_⟩
  · intro k hk hnone
    obtain ⟨j, hj⟩ := List.mem_iff_getElem?.mp hk
    obtain ⟨p, t, hl, -⟩ := H k (RunTarget_entered_reachable hfresh fuel target j k hj)
    rw [hl] at hnone
    cases hnone
  · intro p t hact hp
    obtain ⟨i, hi⟩ := List.mem_iff_getElem?.mp hact
    obtain ⟨D, hD, hmem⟩ := RunTarget_action_entered hfresh fuel target i p hi
    obtain ⟨j, -, hj⟩ := exists_getElem?_of_mem_take hmem
    obtain ⟨p', t', hl, hok⟩ := H D (RunTarget_entered_reachable hfresh fuel target j D hj)
    obtain ⟨h1, h2⟩ := lookupTask_eq_some.mp hl
    rw [hD] at h1
    cases h1
    rw [hp] at h2
    cases h2
    rcases hok with hok | hok
    · exact hok
    · exact absurd hact (Doomed.never_runs hfresh fuel target hD hok)

/-- In `selfAfter` the task `T` depends on `S` and then on itself: the run of `T`
invokes the action of `S`, never the failing action of `T`, and does not return
within 1000 nested calls; in `cycleBeforeFailure`, where `T` depends on the failing
task `F` after itself, the run of `T` does not return either; and in `depCycle`,
where `A` and `B` depend on each other and `start` depends on `A`, the run of
`start` never returns nil. -/
theorem C17_dependency_cycle_stops_only_by_error_witness :
    (selfAfter.lookupTask "T").map (fun x => (x.1, x.2.dependencies, runTaskFunc x.2)) =
        some (1, ["S", "T"], some (GoError.errorString "never run")) ∧
      (RunTarget 1000 "T" selfAfter).2 = Res.timeout ∧
      Event.action 1 ∉ (RunTarget 1000 "T" selfAfter).1.events ∧
      (cycleBeforeFailure.lookupTask "T").map (fun x => x.2.dependencies) =
        some ["S", "T", "F"] ∧
      (cycleBeforeFailure.lookupTask "F").map (fun x => runTaskFunc x.2) =
        some (some (GoError.errorString "boom")) ∧
      (RunTarget 1000 "T" cycleBeforeFailure).2 = Res.timeout ∧
      (RunTarget 1000 "start" depCycle).2 ≠ Res.ret none :=
  have hT : Relation.TransGen (DepEdge selfAfter) "T" "T" :=
    Relation.TransGen.single ⟨1, selfAfter.heap.getD 1 doneTask, by decide, by decide⟩
  have h := C17_dependency_cycle_stops_only_by_error selfAfter "T" "T"
    (by unfold Fresh; decide) Relation.ReflTransGen.refl hT
  have hT2 : Relation.TransGen (DepEdge cycleBeforeFailure) "T" "T" :=
    Relation.TransGen.single ⟨1, cycleBeforeFailure.heap.getD 1 doneTask, by decide,
      by decide⟩
  have hAB : DepEdge depCycle "A" "B" :=
    ⟨2, depCycle.heap.getD 2 doneTask, by decide, by decide⟩
  have hBA : DepEdge depCycle "B" "A" :=
    ⟨1, depCycle.heap.getD 1 doneTask, by decide, by decide⟩
  have hA : Relation.TransGen (DepEdge depCycle) "A" "A" :=
    Relation.TransGen.tail (Relation.TransGen.single hAB) hBA
  ⟨by decide,
    h.2.2.2.1 (by
      intro k hk
      have hmem := reachable_mem selfAfter ["T", "S"] "T" (by decide) (by decide) k hk
      simp only [List.mem_cons, List.mem_singleton, List.not_mem_nil, or_false] at hmem
      rcases hmem with rfl | rfl
      · exact ⟨1, selfAfter.heap.getD 1 doneTask, by decide,
          Or.inr ⟨"T", Relation.ReflTransGen.refl, hT⟩⟩
      · exact ⟨0, selfAfter.heap.getD 0 doneTask, by decide, Or.inl (by decide)⟩) 1000,
    h.2.1 1000 "T" 1 ⟨"T", Relation.ReflTransGen.refl, hT⟩ (by decide),
    by decide, by decide,
    (C17_dependency_cycle_stops_only_by_error cycleBeforeFailure "T" "T"
      (by unfold Fresh; decide) Relation.ReflTransGen.refl hT2).2.2.2.2
      (fun k => k = "T" ∨ k = "S") (Or.inl rfl) (by
        intro k hk
        rcases hk with rfl | rfl
        · exact ⟨1, cycleBeforeFailure.heap.getD 1 doneTask, by decide,
            Or.inl ⟨["S"], "T", ["F"], by decide,
              fun x hx => Or.inr (List.mem_singleton.mp hx), Or.inl rfl,
              ⟨"T", Relation.ReflTransGen.refl, hT2⟩⟩⟩
        · exact ⟨0, cycleBeforeFailure.heap.getD 0 doneTask, by decide,
            Or.inr ⟨by decide, by decide, Or.inl (by decide)⟩⟩) 1000,
    (C17_dependency_cycle_stops_only_by_error depCycle "start" "A"
      (by unfold Fresh; decide)
      (Relation.ReflTransGen.single ⟨0, depCycle.heap.getD 0 doneTask, by decide,
        Or.inl (by decide)⟩) hA).1 1000⟩
/-! ## C18: registration -/

theorem lookup_filter_ne (m : List (String × Nat)) (name n : String) (h : n ≠ name) :
    (m.filter (fun kv => kv.1 != name)).lookup n = m.lookup n := by
  induction m with
  | nil => rfl
  | cons kv m ih =>
    obtain ⟨k, v⟩ := kv
    by_cases hk : k = name
    · subst hk
      have hnk : (n == k) = false := by simpa using h
      simp [List.filter_cons, List.lookup, hnk, ih]
    · have hk' : (k != name) = true := by simpa using hk
      simp only [List.filter_cons, hk', if_true, List.lookup]
      split <;> simp_all

theorem Task_taskMap_self (s : State) (name : String) (taskFunc : TaskFunc) :
    (Task s name taskFunc).1.taskMap.lookup name = some s.heap.length := by
  simp [Task, List.lookup]

theorem Task_taskMap_other (s : State) (name : String) (taskFunc : TaskFunc) (n : String)
    (h : n ≠ name) : (Task s name taskFunc).1.taskMap.lookup n = s.taskMap.lookup n := by
  have hnk : (n == name) = false := by simpa using h
  simp only [Task, List.lookup, hnk]
  exact lookup_filter_ne s.taskMap name n h

theorem Task_heap_old (s : State) (name : String) (taskFunc : TaskFunc) (q : Nat)
    (hq : q < s.heap.length) : (Task s name taskFunc).1.heap[q]? = s.heap[q]? := by
  simp [Task, List.getElem?_append_left hq]

theorem Task_heap_new (s : State) (name : String) (taskFunc : TaskFunc) :
    (Task s name taskFunc).1.heap[s.heap.length]? = some (newTask name taskFunc) := by
  simp [Task, newTask]

theorem State.WF.init (args : List (String × String)) : (State.init args).WF :=
  ⟨fun n p h => by simp [State.init] at h, fun n m p h => by simp [State.init] at h⟩

theorem State.WF.task {s : State} (h : s.WF) (name : String) (taskFunc : TaskFunc) :
    (Task s name taskFunc).1.WF := by
  have hlen : (Task s name taskFunc).1.heap.length = s.heap.length + 1 := by simp [Task]
  constructor
  · intro n p hn
    rw [hlen]
    by_cases hname : n = name
    · subst hname
      rw [Task_taskMap_self] at hn
      cases hn
      exact Nat.lt_succ_self _
    · rw [Task_taskMap_other s name taskFunc n hname] at hn
      exact Nat.lt_succ_of_lt (h.valid n p hn)
  · intro n m p hn hm
    by_cases hname : n = name
    · subst hname
      rw [Task_taskMap_self] at hn
      cases hn
      by_cases hm' : m = n
      · exact hm'.symm
      · rw [Task_taskMap_other s n taskFunc m hm'] at hm
        exact absurd (h.valid m _ hm) (Nat.lt_irrefl _)
    · rw [Task_taskMap_other s name taskFunc n hname] at hn
      by_cases hm' : m = name
      · subst hm'
        rw [Task_taskMap_self] at hm
        cases hm
        exact absurd (h.valid n _ hn) (Nat.lt_irrefl _)
      · rw [Task_taskMap_other s name taskFunc m hm'] at hm
        exact h.inj n m p hn hm

theorem State.WF.configured {s : State} (h : s.WF) (p : Nat) (f : TaskObject → TaskObject) :
    (s.configure p f).WF :=
  ⟨fun n q hn => by simpa [State.configure] using h.valid n q hn, h.inj⟩

theorem State.WF.registered {s : State} (h : s.WF) (name : String) (taskFunc : TaskFunc)
    (conf : TaskObject → TaskObject) : (s.register name taskFunc conf).WF :=
  (h.task name taskFunc).configured _ conf

theorem State.WF.ran {s : State} (h : s.WF) (fuel : Nat) (target : String) :
    (RunTarget fuel target s).1.WF := by
  have hE := RunTarget_ext fuel target s
  constructor
  · intro n p hn
    rw [hE.length]
    exact h.valid n p (hE.taskMap ▸ hn)
  · intro n m p hn hm
    exact h.inj n m p (hE.taskMap ▸ hn) (hE.taskMap ▸ hm)

/-- After `Task` has replaced the task object registered under `name`, the old
pointer is stored under no name. -/
theorem Task_unregisters_old {s : State} (h : s.WF) (name : String) (taskFunc : TaskFunc)
    (q : Nat) (hq : s.taskMap.lookup name = some q) (n : String) :
    (Task s name taskFunc).1.taskMap.lookup n ≠ some q := by
  intro hn
  by_cases hname : n = name
  · subst hname
    rw [Task_taskMap_self] at hn
    cases hn
    exact Nat.lt_irrefl _ (h.valid n _ hq)
  · rw [Task_taskMap_other s name taskFunc n hname] at hn
    exact hname (h.inj n name q hn hq)

theorem configure_emit (s : State) (q : Nat) (f : TaskObject → TaskObject) (e : Event) :
    (s.configure q f).emit e = (s.emit e).configure q f := rfl

theorem configure_lookupTask (s : State) (q : Nat) (f : TaskObject → TaskObject)
    (hq : ∀ n, s.taskMap.lookup n ≠ some q) (n : String) :
    (s.configure q f).lookupTask n = s.lookupTask n := by
  unfold State.lookupTask
  simp only [State.configure]
  cases hl : s.taskMap.lookup n with
  | none => rfl
  | some p =>
    have hpq : q ≠ p := fun h => hq n (h ▸ hl)
    simp only [List.getElem?_modify_ne f s.heap hpq]

theorem configure_runTask (s : State) (q p : Nat) (f : TaskObject → TaskObject)
    (cur : TaskObject) (hpq : q ≠ p) :
    (s.configure q f).runTask p cur =
      (((s.runTask p cur).1).configure q f, (s.runTask p cur).2) := by
  have hget : (s.heap.modify f q).getD p cur = s.heap.getD p cur := by
    rw [List.getD_eq_getElem?_getD, List.getD_eq_getElem?_getD,
      List.getElem?_modify_ne f s.heap hpq]
  have hset : ∀ x : TaskObject, (s.heap.modify f q).set p x = (s.heap.set p x).modify f q := by
    intro x
    apply List.ext_getElem?
    intro i
    simp only [List.getElem?_set, List.getElem?_modify, List.length_modify]
    by_cases hpi : p = i
    · subst hpi
      simp only [if_true, if_neg hpq]
      split <;> simp
    · simp only [if_neg hpi]
  simp only [State.runTask, State.configure, hget, hset]

theorem runEach_configure (run : String → State → State × Res) (q : Nat)
    (f : TaskObject → TaskObject)
    (hrun : ∀ n s, (∀ m, s.taskMap.lookup m ≠ some q) →
      run n (s.configure q f) = ((run n s).1.configure q f, (run n s).2))
    (hmap : ∀ n s, (run n s).1.taskMap = s.taskMap) (ns : List String) (s : State)
    (hq : ∀ m, s.taskMap.lookup m ≠ some q) :
    runEach run ns (s.configure q f) =
      ((runEach run ns s).1.configure q f, (runEach run ns s).2) := by
  induction ns generalizing s with
  | nil => rfl
  | cons n ns ih =>
    rw [runEach_cons, runEach_cons, hrun n s hq]
    simp only
    split
    · exact ih _ (by rw [hmap n s]; exact hq)
    · rfl

/-- Configuring a task object that is stored under no name does not change what
`RunTarget` does. -/
theorem RunTarget_configure (q : Nat) (f : TaskObject → TaskObject) (fuel : Nat) :
    ∀ (target : String) (s : State), (∀ m, s.taskMap.lookup m ≠ some q) →
      RunTarget fuel target (s.configure q f) =
        ((RunTarget fuel target s).1.configure q f, (RunTarget fuel target s).2) := by
  induction fuel with
  | zero => intro target s _; rfl
  | succ fuel ih =>
    intro target s hq
    have hq' : ∀ m, (s.emit (Event.enter target)).taskMap.lookup m ≠ some q := hq
    rw [RunTarget_succ, RunTarget_succ, configure_emit,
      configure_lookupTask _ q f hq']
    cases hl : (s.emit (Event.enter target)).lookupTask target with
    | none => rfl
    | some pt =>
      obtain ⟨p, currentTask⟩ := pt
      simp only
      have hpq : q ≠ p := fun h => hq' target (h ▸ (lookupTask_eq_some.mp hl).1)
      split
      · rfl
      · have hloop := runEach_configure (RunTarget fuel) q f ih
          (fun n s => (RunTarget_ext fuel n s).taskMap)
        rw [hloop currentTask.dependencies _ hq']
        simp only
        split
        · rw [configure_runTask _ q p f currentTask hpq]
          simp only
          split
          · rfl
          · refine hloop currentTask.dependees _ ?_
            intro m
            have e1 := runEach_ext (RunTarget fuel) (RunTarget_ext fuel)
              currentTask.dependencies (s.emit (Event.enter target))
            have e2 := runTask_ext (runEach (RunTarget fuel) currentTask.dependencies
              (s.emit (Event.enter target))).1 p currentTask
            rw [(e1.trans e2).taskMap]
            exact hq' m
        · rfl

/-- C18: for every well-formed registry, `Task(name, action)` stores under `name` a
new task object with that name and action, empty `dependencies` and `dependees`,
both policy flags false, `didRun` false and nil `err` and `deferedErr`, whatever
was stored under `name` before; what is stored under every other name, the task
objects allocated before, the run history and the arguments are unchanged, and
the registry stays well formed. A task object that was stored under `name`
before is then stored under no name, and configuring it through its old handle
changes nothing of what `RunTarget` does. -/
theorem C18_registration_last_wins (s : State) (hwf : s.WF) (name : String)
    (taskFunc : TaskFunc) :
    (Task s name taskFunc).1.lookupTask name =
        some ((Task s name taskFunc).2,
          { name := name, description := "", taskFunc := taskFunc, dependencies := [],
            dependees := [], continueOnError := false, deferOnError := false,
            didRun := false, duration := 0, err := none, deferedErr := none }) ∧
      (∀ n, n ≠ name → (Task s name taskFunc).1.lookupTask n = s.lookupTask n) ∧
      (∀ q, q < s.heap.length → (Task s name taskFunc).1.heap[q]? = s.heap[q]?) ∧
      (Task s name taskFunc).1.taskRun = s.taskRun ∧
      (Task s name taskFunc).1.argumentsMap = s.argumentsMap ∧
      (Task s name taskFunc).1.events = s.events ∧
      (Task s name taskFunc).1.WF ∧
      (∀ q, s.taskMap.lookup name = some q →
        (∀ n, (Task s name taskFunc).1.taskMap.lookup n ≠ some q) ∧
        ∀ (f : TaskObject → TaskObject) (fuel : Nat) (target : String),
          RunTarget fuel target ((Task s name taskFunc).1.configure q f) =
            ((RunTarget fuel target (Task s name taskFunc).1).1.configure q f,
              (RunTarget fuel target (Task s name taskFunc).1).2)) := by
  refine ⟨?_, ?_, fun q hq => Task_heap_old s name taskFunc q hq, rfl, rfl, rfl,
    hwf.task name taskFunc, ?_⟩
  · rw [lookupTask_eq_some]
    exact ⟨Task_taskMap_self s name taskFunc, Task_heap_new s name taskFunc⟩
  · intro n hn
    unfold State.lookupTask
    rw [Task_taskMap_other s name taskFunc n hn]
    cases hl : s.taskMap.lookup n with
    | none => rfl
    | some p => simp only [Task_heap_old s name taskFunc p (hwf.valid n p hl)]
  · intro q hq
    have hun := Task_unregisters_old hwf name taskFunc q hq
    exact ⟨hun, fun f fuel target => RunTarget_configure q f fuel target _ hun⟩


/-- In `discovery`, `test` fails and depends on `build`. After `test` is registered
again with an action that succeeds, a dependency on the unregistered `ghost` added
through the old handle does not matter: the run of `deploy` runs the new `test`
and `deploy`, and returns nil. -/
theorem C18_registration_last_wins_witness :
    (Task discovery "test" succeeds).1.lookupTask "test" =
        some (3, newTask "test" succeeds) ∧
      discovery.taskMap.lookup "test" = some 1 ∧
      (RunTarget 2 "deploy" ((Task discovery "test" succeeds).1.configure 1
          (fun t => t.DependsOn ["ghost"]))).2 = Res.ret none ∧
      (RunTarget 2 "deploy" ((Task discovery "test" succeeds).1.configure 1
          (fun t => t.DependsOn ["ghost"]))).1.taskRun = [3, 2] :=
  have hwf : discovery.WF :=
    (((State.WF.init [("verbose", "true")]).registered "build" succeeds id).registered "test"
      (failsWith "tests failed") (fun t => t.DependsOn ["build"])).registered "deploy" succeeds
      (fun t => t.DependsOn ["test"])
  have h := C18_registration_last_wins discovery hwf "test" succeeds
  have hrun := (h.2.2.2.2.2.2.2 1 (by decide)).2 (fun t => t.DependsOn ["ghost"]) 2 "deploy"
  ⟨h.1, by decide, by rw [hrun]; decide, by rw [hrun]; decide⟩

/-! ## C19: termination when the dependency edges are acyclic -/

theorem DepAcyclic.noDepCycle {s : State} (h : DepAcyclic s) : NoDepCycle s := by
  obtain ⟨rank, hrank⟩ := h
  have hlt : ∀ a b, Relation.TransGen (DepEdge s) a b → rank a < rank b := by
    intro a b hab
    induction hab with
    | single h =>
      obtain ⟨p, t, hl, hd⟩ := h
      exact hrank _ p t hl _ hd
    | tail _ h ih =>
      obtain ⟨p, t, hl, hd⟩ := h
      exact Nat.lt_trans ih (hrank _ p t hl _ hd)
  intro n hn
  exact Nat.lt_irrefl _ (hlt n n hn)

theorem NoDepCycle.depAcyclic {s : State} (h : NoDepCycle s) : DepAcyclic s := by
  classical
  -- the names that occur as a dependency of a registered task
  let U : Finset String := s.taskMap.toFinset.biUnion (fun kv =>
    match s.heap[kv.2]? with
    | some t => t.dependencies.toFinset
    | none => ∅)
  have hU : ∀ d n, DepEdge s d n → d ∈ U := by
    intro d n hdn
    obtain ⟨p, t, hl, hd⟩ := hdn
    obtain ⟨h1, h2⟩ := lookupTask_eq_some.mp hl
    simp only [U, Finset.mem_biUnion, List.mem_toFinset]
    refine ⟨(n, p), mem_of_lookup h1, ?_⟩
    simp only [h2, List.mem_toFinset]
    exact hd
  refine ⟨fun n => (U.filter (fun m => Relation.TransGen (DepEdge s) m n)).card, ?_⟩
  intro n p t hl d hd
  have hedge : DepEdge s d n := ⟨p, t, hl, hd⟩
  apply Finset.card_lt_card
  rw [Finset.ssubset_iff_of_subset]
  · refine ⟨d, ?_, ?_⟩
    · simp only [Finset.mem_filter]
      exact ⟨hU d n hedge, Relation.TransGen.single hedge⟩
    · simp only [Finset.mem_filter, not_and]
      intro _
      exact h d
  · intro m hm
    simp only [Finset.mem_filter] at hm ⊢
    exact ⟨hm.1, Relation.TransGen.tail hm.2 hedge⟩

/-- C19: for every state whose dependency edges contain no cycle (whatever the
dependee edges are, and whether or not the names listed are registered), for
every target and all outcomes of the actions, `RunTarget(target)` returns: there
is an amount of fuel from which on it does not run out of fuel. -/
theorem C19_terminates_without_dependency_cycle (s : State) (h : NoDepCycle s)
    (target : String) :
    ∃ fuel, ∀ fuel', fuel ≤ fuel' → ∃ err, (RunTarget fuel' target s).2 = Res.ret err := by
  obtain ⟨fuel, hfuel⟩ := RunTarget_terminates s h.depAcyclic target
  refine ⟨fuel, ?_⟩
  intro fuel' hle
  cases hr : (RunTarget fuel' target s).2 with
  | timeout => exact absurd hr (hfuel fuel' hle)
  | ret err => exact ⟨err, rfl⟩

/-- In `bothWays` the dependee edge from `B` to `T` closes a cycle with the dependency
edge from `T` to `B`, but the dependency edges alone have no cycle: the run of `T`
returns. -/
theorem C19_terminates_without_dependency_cycle_witness :
    (∃ fuel, ∀ fuel', fuel ≤ fuel' →
      ∃ err, (RunTarget fuel' "T" bothWays).2 = Res.ret err) ∧
      (RunTarget 4 "T" bothWays).2 = Res.ret none :=
  ⟨C19_terminates_without_dependency_cycle bothWays
      (rankedBy_sound bothWays bothWaysRank (by decide)).noDepCycle "T",
    by decide⟩

/-! ## C20: provenance of the returned error -/

theorem State.WF.lookup_none {s : State} (h : s.WF) {n : String}
    (hn : s.lookupTask n = none) : s.taskMap.lookup n = none := by
  cases hl : s.taskMap.lookup n with
  | none => rfl
  | some p =>
    have h1 := lookupTask_eq_none.mp hn p hl
    have h2 := h.valid n p hl
    rw [List.getElem?_eq_getElem h2] at h1
    cases h1

/-- C20: in a run of `RunTarget(target)` from a fresh state that returns a non-nil
error `e`, either `e` is the "Target does not exist" error of a name that the run
entered and that has no task object (is not a key of `taskMap` when the registry
is well formed), or `e` is the stored `err` of an entry of the run history that
has neither `continueOnError` nor `deferOnError` set; every entry of the run
history that has one of the two flags set has a nil stored `err`; and a task
object has a non-nil `deferedErr` only if `deferOnError` is set. -/
theorem C20_error_provenance (s : State) (hfresh : Fresh s) (fuel : Nat) (target : String) :
    (∀ e, (RunTarget fuel target s).2 = Res.ret (some e) →
      (∃ n, e = GoError.errorString ("Target does not exist: " ++ n) ∧
        Event.enter n ∈ (RunTarget fuel target s).1.events ∧ s.lookupTask n = none ∧
        (s.WF → s.taskMap.lookup n = none)) ∨
      (∃ p t, p ∈ (RunTarget fuel target s).1.taskRun ∧
        (RunTarget fuel target s).1.heap[p]? = some t ∧ t.err = some e ∧
        t.continueOnError = false ∧ t.deferOnError = false)) ∧
      (∀ p t, p ∈ (RunTarget fuel target s).1.taskRun →
        (RunTarget fuel target s).1.heap[p]? = some t →
        t.continueOnError = true ∨ t.deferOnError = true → t.err = none) ∧
      (∀ (p : Nat) (t : TaskObject), (RunTarget fuel target s).1.heap[p]? = some t →
        t.deferedErr ≠ none → t.deferOnError = true) := by
  obtain ⟨hS, -⟩ := RunTarget_sound fuel target s hfresh.good
  have hE := RunTarget_ext fuel target s
  have hnew : s.newEvents (RunTarget fuel target s).1 = (RunTarget fuel target s).1.events := by
    simp [State.newEvents, hfresh.2.1]
  -- the stored error of a task object that has run
  have hflag : ∀ (p : Nat) (t : TaskObject),
      (RunTarget fuel target s).1.heap[p]? = some t → t.didRun = true →
      t.continueOnError = true ∨ t.deferOnError = true → t.err = none := by
    intro p t ht hd hor
    have hset := hS.good.settled p t ht hd
    rw [← hset, finished_err]
    rcases hor with h | h
    · exact adjustedErr_of_continue h
    · exact adjustedErr_of_defer h
  refine ⟨?_, ?_, ?_⟩
  · intro e he
    rcases hS.origin e he with ⟨n, h1, h2, h3⟩ | ⟨p, t, hp, ht, herr⟩
    · left
      exact ⟨n, h1, hnew ▸ h2, h3, fun hwf => hwf.lookup_none h3⟩
    · right
      obtain ⟨t', ht', hd'⟩ := hS.good.history p hp
      rw [ht] at ht'
      cases ht'
      refine ⟨p, t, hp, ht, herr, ?_, ?_⟩
      · cases hc : t.continueOnError with
        | false => rfl
        | true =>
          have := hflag p t ht hd' (Or.inl hc)
          rw [herr] at this; cases this
      · cases hc : t.deferOnError with
        | false => rfl
        | true =>
          have := hflag p t ht hd' (Or.inr hc)
          rw [herr] at this; cases this
  · intro p t hp ht hor
    obtain ⟨t', ht', hd'⟩ := hS.good.history p hp
    rw [ht] at ht'
    cases ht'
    exact hflag p t ht hd' hor
  · intro p t ht hne
    obtain ⟨t0, ht0, -, -⟩ := hE.static_back ht
    have h0 : t0.deferedErr = none := (hfresh.2.2 t0 (List.getElem?_mem ht0)).2.2.1
    rcases hE.heap p t0 ht0 with h | h <;> rw [ht] at h <;> cases h
    · exact absurd h0 hne
    · cases hd : t0.deferOnError with
      | true => exact hd
      | false =>
        exfalso
        apply hne
        simp [TaskObject.finished, finishTask, hd, h0]

/-- In `failingChain` the run of `deploy` returns the stored error of `test`, an entry
of the run history without error-policy flag; in `maskedMissing` the run of `top`
returns the error for the unregistered name `ghost`. -/
theorem C20_error_provenance_witness :
    ((∃ n, GoError.errorString "tests failed" =
          GoError.errorString ("Target does not exist: " ++ n) ∧
        Event.enter n ∈ (RunTarget 3 "deploy" failingChain).1.events ∧
        failingChain.lookupTask n = none ∧
        (failingChain.WF → failingChain.taskMap.lookup n = none)) ∨
      (∃ p t, p ∈ (RunTarget 3 "deploy" failingChain).1.taskRun ∧
        (RunTarget 3 "deploy" failingChain).1.heap[p]? = some t ∧
        t.err = some (GoError.errorString "tests failed") ∧
        t.continueOnError = false ∧ t.deferOnError = false)) ∧
      (RunTarget 3 "top" maskedMissing).2 =
        Res.ret (some (GoError.errorString "Target does not exist: ghost")) :=
  ⟨(C20_error_provenance failingChain (by unfold Fresh; decide) 3 "deploy").1
      (GoError.errorString "tests failed") (by decide),
    by decide⟩

end Gotaskr
